import Mathlib

/-!
# rcamera: a verification development

A shallow embedding of the camera controller of `src/src/rcamera.h` over exact real
arithmetic.  The C `float` fields become real numbers, the in-place mutation of
`raylib_camera *camera` becomes a function returning the updated camera, and the vector
helpers of `raymath.h` (which is included by `rcamera.h` but is not part of the sources
under study) are modelled as the usual operations of three-dimensional vector algebra.
-/

noncomputable section

namespace RCamera

/-! ## Data model (`raylib.h`) -/

/-- Three float components `x`, `y`, `z` of the C struct `raylib_vector3`, over the reals. -/
@[ext]
structure raylib_vector3 where
  x : ℝ
  y : ℝ
  z : ℝ

/-- The C struct `raylib_camera3d`: eye position, look-at target, up vector, field of view
and projection type. -/
@[ext]
structure raylib_camera3d where
  position : raylib_vector3
  target : raylib_vector3
  up : raylib_vector3
  fovy : ℝ
  projection : Int

/-- The C typedef `raylib_camera`, a fallback name of `raylib_camera3d`. -/
abbrev raylib_camera := raylib_camera3d

/-- The macro `PI` of `raylib.h`; the float literal stands for the real number pi. -/
def PI : ℝ := Real.pi

/-- The macro `DEG2RAD` of `raylib.h`, `(PI/180.0f)`. -/
def DEG2RAD : ℝ := PI / 180

/-! ## Vector helpers (`raymath.h`, not among the sources) -/

/-- Modelled from the spec: `Vector3Add` of the absent `raymath.h`, the componentwise sum
of two vectors ("translates both position and target by ..."). -/
def Vector3Add (v1 v2 : raylib_vector3) : raylib_vector3 :=
  ⟨v1.x + v2.x, v1.y + v2.y, v1.z + v2.z⟩

/-- Modelled from the spec: `Vector3Subtract` of the absent `raymath.h`, the componentwise
difference (`target - position` is the view vector). -/
def Vector3Subtract (v1 v2 : raylib_vector3) : raylib_vector3 :=
  ⟨v1.x - v2.x, v1.y - v2.y, v1.z - v2.z⟩

/-- Modelled from the spec: `Vector3Scale` of the absent `raymath.h`, multiplication of
every component by a scalar (`Forward * distance`). -/
def Vector3Scale (v : raylib_vector3) (scalar : ℝ) : raylib_vector3 :=
  ⟨v.x * scalar, v.y * scalar, v.z * scalar⟩

/-- Modelled from the spec: `Vector3Negate` of the absent `raymath.h`, the opposite vector
(`-up`). -/
def Vector3Negate (v : raylib_vector3) : raylib_vector3 :=
  ⟨-v.x, -v.y, -v.z⟩

/-- Modelled from the spec: `Vector3CrossProduct` of the absent `raymath.h`, the cross
product (`cross(Forward, Up)`). -/
def Vector3CrossProduct (v1 v2 : raylib_vector3) : raylib_vector3 :=
  ⟨v1.y * v2.z - v1.z * v2.y, v1.z * v2.x - v1.x * v2.z, v1.x * v2.y - v1.y * v2.x⟩

/-- Modelled from the spec: `Vector3DotProduct` of the absent `raymath.h`, the dot product
used to state perpendicularity. -/
def Vector3DotProduct (v1 v2 : raylib_vector3) : ℝ :=
  v1.x * v2.x + v1.y * v2.y + v1.z * v2.z

/-- Modelled from the spec: `Vector3Length` of the absent `raymath.h`, the Euclidean
length of a vector. -/
def Vector3Length (v : raylib_vector3) : ℝ :=
  Real.sqrt (v.x * v.x + v.y * v.y + v.z * v.z)

/-- Modelled from the spec: `Vector3Distance` of the absent `raymath.h`, the Euclidean
distance between two points (`distance(position, target)`). -/
def Vector3Distance (v1 v2 : raylib_vector3) : ℝ :=
  let dx := v2.x - v1.x
  let dy := v2.y - v1.y
  let dz := v2.z - v1.z
  Real.sqrt (dx * dx + dy * dy + dz * dz)

/-- Modelled from the spec: `Vector3Normalize` of the absent `raymath.h`, the vector scaled
to unit length (`normalize`); a vector of length zero is returned as it is. -/
def Vector3Normalize (v : raylib_vector3) : raylib_vector3 :=
  let length := Vector3Length v
  if length ≠ 0 then
    let ilength := 1 / length
    ⟨v.x * ilength, v.y * ilength, v.z * ilength⟩
  else v

/-- Modelled from the spec: `Vector3RotateByAxisAngle` of the absent `raymath.h`, the
rotation of `v` about `axis` by `angle` radians ("rotates the view vector about the axis by
angle radians"), in the Euler-Rodrigues form: the axis is normalised (a zero axis is left
as it is), `w` is the axis scaled by the sine of the half angle, and the result is
`v + 2 cos(angle/2) (w × v) + 2 w × (w × v)`. -/
def Vector3RotateByAxisAngle (v axis : raylib_vector3) (angle : ℝ) : raylib_vector3 :=
  let length := Vector3Length axis
  let length := if length = 0 then 1 else length
  let ilength := 1 / length
  let axis : raylib_vector3 := ⟨axis.x * ilength, axis.y * ilength, axis.z * ilength⟩
  let angle := angle / 2
  let a := Real.sin angle
  let b := axis.x * a
  let c := axis.y * a
  let d := axis.z * a
  let a := Real.cos angle
  let w : raylib_vector3 := ⟨b, c, d⟩
  let wv := Vector3CrossProduct w v
  let wwv := Vector3CrossProduct w wv
  let wv := Vector3Scale wv (2 * a)
  let wwv := Vector3Scale wwv 2
  Vector3Add (Vector3Add v wv) wwv

/-- Modelled from the spec: `Vector3Angle` of the absent `raymath.h`, the angle between two
vectors ("the current angle between up and the view vector"), computed as the two-argument
arctangent of the length of the cross product and the dot product; it lies in `[0, pi]`. -/
def Vector3Angle (v1 v2 : raylib_vector3) : ℝ :=
  let cross := Vector3CrossProduct v1 v2
  let len := Vector3Length cross
  let dot := Vector3DotProduct v1 v2
  Complex.arg ⟨dot, len⟩

/-! ## Camera controller (`rcamera.h`) -/

/-- Returns the cameras forward vector (normalized). -/
def GetCameraForward (camera : raylib_camera) : raylib_vector3 :=
  Vector3Normalize (Vector3Subtract camera.target camera.position)

/-- Returns the cameras up vector (normalized); it might not be perpendicular to the
forward vector. -/
def GetCameraUp (camera : raylib_camera) : raylib_vector3 :=
  Vector3Normalize camera.up

/-- Returns the cameras right vector (normalized). -/
def GetCameraRight (camera : raylib_camera) : raylib_vector3 :=
  let forward := GetCameraForward camera
  let up := GetCameraUp camera
  Vector3Normalize (Vector3CrossProduct forward up)

/-- Moves the camera in its forward direction. -/
def CameraMoveForward (camera : raylib_camera) (distance : ℝ) (moveInWorldPlane : Bool) :
    raylib_camera :=
  let forward := GetCameraForward camera
  let forward :=
    if moveInWorldPlane then
      Vector3Normalize { forward with y := 0 }
    else forward
  let forward := Vector3Scale forward distance
  { camera with
    position := Vector3Add camera.position forward
    target := Vector3Add camera.target forward }

/-- Moves the camera in its up direction. -/
def CameraMoveUp (camera : raylib_camera) (distance : ℝ) : raylib_camera :=
  let up := GetCameraUp camera
  let up := Vector3Scale up distance
  { camera with
    position := Vector3Add camera.position up
    target := Vector3Add camera.target up }

/-- Moves the camera target in its current right direction. -/
def CameraMoveRight (camera : raylib_camera) (distance : ℝ) (moveInWorldPlane : Bool) :
    raylib_camera :=
  let right := GetCameraRight camera
  let right :=
    if moveInWorldPlane then
      Vector3Normalize { right with y := 0 }
    else right
  let right := Vector3Scale right distance
  { camera with
    position := Vector3Add camera.position right
    target := Vector3Add camera.target right }

/-- Moves the camera position closer/farther to/from the camera target. -/
def CameraMoveToTarget (camera : raylib_camera) (delta : ℝ) : raylib_camera :=
  let distance := Vector3Distance camera.position camera.target
  let distance := distance + delta
  let distance := if distance ≤ 0 then 0.001 else distance
  let forward := GetCameraForward camera
  { camera with position := Vector3Add camera.target (Vector3Scale forward (-distance)) }

/-- Rotates the camera around its up vector (yaw, in radians); if `rotateAroundTarget` is
false, the camera rotates around its position. -/
def CameraYaw (camera : raylib_camera) (angle : ℝ) (rotateAroundTarget : Bool) :
    raylib_camera :=
  let up := GetCameraUp camera
  let targetPosition := Vector3Subtract camera.target camera.position
  let targetPosition := Vector3RotateByAxisAngle targetPosition up angle
  if rotateAroundTarget then
    { camera with position := Vector3Subtract camera.target targetPosition }
  else
    { camera with target := Vector3Add camera.position targetPosition }

/-- Rotates the camera around its right vector (pitch, in radians); `lockView` clamps the
angle against over-rotation, `rotateAroundTarget` selects the pivot and `rotateUp` rotates
the up direction as well. -/
def CameraPitch (camera : raylib_camera) (angle : ℝ)
    (lockView rotateAroundTarget rotateUp : Bool) : raylib_camera :=
  let up := GetCameraUp camera
  let targetPosition := Vector3Subtract camera.target camera.position
  let angle :=
    if lockView then
      let maxAngleUp := Vector3Angle up targetPosition
      let maxAngleUp := maxAngleUp - 0.001
      let angle := if angle > maxAngleUp then maxAngleUp else angle
      let maxAngleDown := Vector3Angle (Vector3Negate up) targetPosition
      let maxAngleDown := maxAngleDown * (-1.0)
      let maxAngleDown := maxAngleDown + 0.001
      if angle < maxAngleDown then maxAngleDown else angle
    else angle
  let right := GetCameraRight camera
  let targetPosition := Vector3RotateByAxisAngle targetPosition right angle
  let moved : raylib_camera :=
    if rotateAroundTarget then
      { camera with position := Vector3Subtract camera.target targetPosition }
    else
      { camera with target := Vector3Add camera.position targetPosition }
  if rotateUp then
    { moved with up := Vector3RotateByAxisAngle moved.up right angle }
  else moved

/-- Rotates the camera around its forward vector (roll, in radians). -/
def CameraRoll (camera : raylib_camera) (angle : ℝ) : raylib_camera :=
  let forward := GetCameraForward camera
  { camera with up := Vector3RotateByAxisAngle camera.up forward angle }

/-- Update camera movement, movement/rotation values provided by the user:
`movement` is (forward, right, up), `rotation` is (yaw, pitch, roll) in degrees and `zoom`
moves towards the target. -/
def raylib_updatecamerapro (camera : raylib_camera) (movement rotation : raylib_vector3)
    (zoom : ℝ) : raylib_camera :=
  let lockView := true
  let rotateAroundTarget := false
  let rotateUp := false
  let moveInWorldPlane := true
  let camera := CameraPitch camera (-rotation.y * DEG2RAD) lockView rotateAroundTarget rotateUp
  let camera := CameraYaw camera (-rotation.x * DEG2RAD) rotateAroundTarget
  let camera := CameraRoll camera (rotation.z * DEG2RAD)
  let camera := CameraMoveForward camera movement.x moveInWorldPlane
  let camera := CameraMoveRight camera movement.y moveInWorldPlane
  let camera := CameraMoveUp camera movement.z
  CameraMoveToTarget camera zoom

/-! ## Matrices (`raylib.h` and `raymath.h`) -/

/-- Two float components `x`, `y` of the C struct `raylib_vector2`, over the reals. -/
@[ext]
structure raylib_vector2 where
  x : ℝ
  y : ℝ

/-- The C struct `raylib_matrix`: 4x4 components, column major, OpenGL style,
right-handed; the fields are declared row by row as in `raylib.h`. -/
@[ext]
structure raylib_matrix where
  m0 : ℝ
  m4 : ℝ
  m8 : ℝ
  m12 : ℝ
  m1 : ℝ
  m5 : ℝ
  m9 : ℝ
  m13 : ℝ
  m2 : ℝ
  m6 : ℝ
  m10 : ℝ
  m14 : ℝ
  m3 : ℝ
  m7 : ℝ
  m11 : ℝ
  m15 : ℝ

/-- Modelled from the spec: `MatrixIdentity` of the absent `raymath.h`, the identity matrix
("identity for any other/unset mode"). -/
def MatrixIdentity : raylib_matrix :=
  { m0 := 1, m4 := 0, m8 := 0, m12 := 0,
    m1 := 0, m5 := 1, m9 := 0, m13 := 0,
    m2 := 0, m6 := 0, m10 := 1, m14 := 0,
    m3 := 0, m7 := 0, m11 := 0, m15 := 1 }

/-- Modelled from the spec: `MatrixPerspective` of the absent `raymath.h`, the perspective
projection matrix for a vertical field of view `fovY` in radians: the frustum with
`top = nearPlane * tan(fovY / 2)` and `right = top * aspect`. -/
def MatrixPerspective (fovY aspect nearPlane farPlane : ℝ) : raylib_matrix :=
  let top := nearPlane * Real.tan (fovY * 0.5)
  let bottom := -top
  let right := top * aspect
  let left := -right
  let rl := right - left
  let tb := top - bottom
  let fn := farPlane - nearPlane
  { m0 := nearPlane * 2 / rl, m4 := 0, m8 := (right + left) / rl, m12 := 0,
    m1 := 0, m5 := nearPlane * 2 / tb, m9 := (top + bottom) / tb, m13 := 0,
    m2 := 0, m6 := 0, m10 := -(farPlane + nearPlane) / fn,
    m14 := -(farPlane * nearPlane * 2) / fn,
    m3 := 0, m7 := 0, m11 := -1, m15 := 0 }

/-- Modelled from the spec: `MatrixOrtho` of the absent `raymath.h`, the orthographic
projection matrix of the box with the given left, right, bottom, top, near and far
bounds. -/
def MatrixOrtho (left right bottom top nearPlane farPlane : ℝ) : raylib_matrix :=
  let rl := right - left
  let tb := top - bottom
  let fn := farPlane - nearPlane
  { m0 := 2 / rl, m4 := 0, m8 := 0, m12 := -(left + right) / rl,
    m1 := 0, m5 := 2 / tb, m9 := 0, m13 := -(top + bottom) / tb,
    m2 := 0, m6 := 0, m10 := -2 / fn, m14 := -(farPlane + nearPlane) / fn,
    m3 := 0, m7 := 0, m11 := 0, m15 := 1 }

/-- Modelled from the spec: `MatrixRotate` of the absent `raymath.h`, the matrix of the
rotation about `axis` by `angle` radians ("rotates position around target about the Up
axis"), in the axis-angle form `cos I + sin [k]x + (1 - cos) k kT`; the axis is normalised
first unless its squared length is `1` or `0`. -/
def MatrixRotate (axis : raylib_vector3) (angle : ℝ) : raylib_matrix :=
  let lengthSquared := axis.x * axis.x + axis.y * axis.y + axis.z * axis.z
  let ilength := if lengthSquared ≠ 1 ∧ lengthSquared ≠ 0 then 1 / Real.sqrt lengthSquared else 1
  let x := axis.x * ilength
  let y := axis.y * ilength
  let z := axis.z * ilength
  let sinres := Real.sin angle
  let cosres := Real.cos angle
  let t := 1 - cosres
  { m0 := x * x * t + cosres, m4 := x * y * t - z * sinres, m8 := x * z * t + y * sinres,
    m12 := 0,
    m1 := y * x * t + z * sinres, m5 := y * y * t + cosres, m9 := y * z * t - x * sinres,
    m13 := 0,
    m2 := z * x * t - y * sinres, m6 := z * y * t + x * sinres, m10 := z * z * t + cosres,
    m14 := 0,
    m3 := 0, m7 := 0, m11 := 0, m15 := 1 }

/-- Modelled from the spec: `Vector3Transform` of the absent `raymath.h`, the vector
transformed by a matrix (upper three rows applied to `(x, y, z, 1)`). -/
def Vector3Transform (v : raylib_vector3) (mat : raylib_matrix) : raylib_vector3 :=
  ⟨mat.m0 * v.x + mat.m4 * v.y + mat.m8 * v.z + mat.m12,
    mat.m1 * v.x + mat.m5 * v.y + mat.m9 * v.z + mat.m13,
    mat.m2 * v.x + mat.m6 * v.y + mat.m10 * v.z + mat.m14⟩

/-! ## Projection matrix (`rcamera.h`) -/

/-- The enum value `CAMERA_PERSPECTIVE` of `raylib_cameraprojection`. -/
def CAMERA_PERSPECTIVE : Int := 0

/-- The enum value `CAMERA_ORTHOGRAPHIC` of `raylib_cameraprojection`. -/
def CAMERA_ORTHOGRAPHIC : Int := 1

/-- The macro `CAMERA_CULL_DISTANCE_NEAR`; the value is the one of the standalone
configuration of `rcamera.h` (otherwise it is `RL_CULL_DISTANCE_NEAR`, defined outside the
sources). -/
def CAMERA_CULL_DISTANCE_NEAR : ℝ := 0.01

/-- The macro `CAMERA_CULL_DISTANCE_FAR`; the value is the one of the standalone
configuration of `rcamera.h` (otherwise it is `RL_CULL_DISTANCE_FAR`, defined outside the
sources). -/
def CAMERA_CULL_DISTANCE_FAR : ℝ := 1000.0

/-- Returns the camera projection matrix.  The source only reads through the camera
pointer and assigns nothing through it, so the embedding has no camera among its
results. -/
def GetCameraProjectionMatrix (camera : raylib_camera) (aspect : ℝ) : raylib_matrix :=
  if camera.projection = CAMERA_PERSPECTIVE then
    MatrixPerspective (camera.fovy * DEG2RAD) aspect CAMERA_CULL_DISTANCE_NEAR
      CAMERA_CULL_DISTANCE_FAR
  else if camera.projection = CAMERA_ORTHOGRAPHIC then
    let top := camera.fovy / 2.0
    let right := top * aspect
    MatrixOrtho (-right) right (-top) top CAMERA_CULL_DISTANCE_NEAR CAMERA_CULL_DISTANCE_FAR
  else MatrixIdentity

/-! ## Mode update (`rcamera.h`) -/

/-- The enum value `CAMERA_CUSTOM` of `raylib_cameramode`. -/
def CAMERA_CUSTOM : Int := 0

/-- The enum value `CAMERA_FREE` of `raylib_cameramode`. -/
def CAMERA_FREE : Int := 1

/-- The enum value `CAMERA_ORBITAL` of `raylib_cameramode`. -/
def CAMERA_ORBITAL : Int := 2

/-- The enum value `CAMERA_FIRST_PERSON` of `raylib_cameramode`. -/
def CAMERA_FIRST_PERSON : Int := 3

/-- The enum value `CAMERA_THIRD_PERSON` of `raylib_cameramode`. -/
def CAMERA_THIRD_PERSON : Int := 4

/-- Key code of the cursor right key. -/
def KEY_RIGHT : Int := 262

/-- Key code of the cursor left key. -/
def KEY_LEFT : Int := 263

/-- Key code of the cursor down key. -/
def KEY_DOWN : Int := 264

/-- Key code of the cursor up key. -/
def KEY_UP : Int := 265

/-- Key code of the key `Q`. -/
def KEY_Q : Int := 81

/-- Key code of the key `E`. -/
def KEY_E : Int := 69

/-- Key code of the key `W`. -/
def KEY_W : Int := 87

/-- Key code of the key `A`. -/
def KEY_A : Int := 65

/-- Key code of the key `S`. -/
def KEY_S : Int := 83

/-- Key code of the key `D`. -/
def KEY_D : Int := 68

/-- Key code of the space key. -/
def KEY_SPACE : Int := 32

/-- Key code of the left control key. -/
def KEY_LEFT_CONTROL : Int := 341

/-- Key code of the keypad minus key. -/
def KEY_KP_SUBTRACT : Int := 333

/-- Key code of the keypad plus key. -/
def KEY_KP_ADD : Int := 334

/-- Button code of the middle mouse button. -/
def MOUSE_BUTTON_MIDDLE : Int := 2

/-- Axis code of the gamepad left stick X axis. -/
def GAMEPAD_AXIS_LEFT_X : Int := 0

/-- Axis code of the gamepad left stick Y axis. -/
def GAMEPAD_AXIS_LEFT_Y : Int := 1

/-- Axis code of the gamepad right stick X axis. -/
def GAMEPAD_AXIS_RIGHT_X : Int := 2

/-- Axis code of the gamepad right stick Y axis. -/
def GAMEPAD_AXIS_RIGHT_Y : Int := 3

/-- The macro `CAMERA_MOVE_SPEED`. -/
def CAMERA_MOVE_SPEED : ℝ := 0.09

/-- The macro `CAMERA_ROTATION_SPEED`. -/
def CAMERA_ROTATION_SPEED : ℝ := 0.03

/-- The macro `CAMERA_PAN_SPEED`. -/
def CAMERA_PAN_SPEED : ℝ := 0.2

/-- The macro `CAMERA_MOUSE_MOVE_SENSITIVITY`. -/
def CAMERA_MOUSE_MOVE_SENSITIVITY : ℝ := 0.003

/-- The macro `CAMERA_ORBITAL_SPEED`, in radians per second. -/
def CAMERA_ORBITAL_SPEED : ℝ := 0.5

/-- The input snapshot read by `raylib_updatecamera`: one field for each input function of
the raylib core that it calls, holding what that function returns during the call. -/
structure InputState where
  raylib_getmousedelta : raylib_vector2
  raylib_getmousewheelmove : ℝ
  raylib_iskeydown : Int → Bool
  raylib_iskeypressed : Int → Bool
  raylib_ismousebuttondown : Int → Bool
  raylib_isgamepadavailable : Int → Bool
  raylib_getgamepadaxismovement : Int → Int → ℝ
  raylib_getframetime : ℝ

/-- The first part of `raylib_updatecamera` (up to the zoom block): the flags computed
from the mode, then nothing in custom mode, the automatic orbit in orbital mode, and the
keyboard, mouse and gamepad rotation and movement in the other modes. -/
def raylib_updatecamera_motion (camera : raylib_camera) (mode : Int) (input : InputState) :
    raylib_camera :=
  let mousePositionDelta := input.raylib_getmousedelta
  let moveInWorldPlane : Bool := (mode == CAMERA_FIRST_PERSON) || (mode == CAMERA_THIRD_PERSON)
  let rotateAroundTarget : Bool := (mode == CAMERA_THIRD_PERSON) || (mode == CAMERA_ORBITAL)
  let lockView : Bool :=
    (mode == CAMERA_FREE) || (mode == CAMERA_FIRST_PERSON) || (mode == CAMERA_THIRD_PERSON) ||
      (mode == CAMERA_ORBITAL)
  let rotateUp : Bool := false
  if mode = CAMERA_CUSTOM then camera
  else if mode = CAMERA_ORBITAL then
    let rotation :=
      MatrixRotate (GetCameraUp camera) (CAMERA_ORBITAL_SPEED * input.raylib_getframetime)
    let view := Vector3Subtract camera.position camera.target
    let view := Vector3Transform view rotation
    { camera with position := Vector3Add camera.target view }
  else
    let camera :=
      if input.raylib_iskeydown KEY_DOWN then
        CameraPitch camera (-CAMERA_ROTATION_SPEED) lockView rotateAroundTarget rotateUp
      else camera
    let camera :=
      if input.raylib_iskeydown KEY_UP then
        CameraPitch camera CAMERA_ROTATION_SPEED lockView rotateAroundTarget rotateUp
      else camera
    let camera :=
      if input.raylib_iskeydown KEY_RIGHT then
        CameraYaw camera (-CAMERA_ROTATION_SPEED) rotateAroundTarget
      else camera
    let camera :=
      if input.raylib_iskeydown KEY_LEFT then
        CameraYaw camera CAMERA_ROTATION_SPEED rotateAroundTarget
      else camera
    let camera :=
      if input.raylib_iskeydown KEY_Q then CameraRoll camera (-CAMERA_ROTATION_SPEED)
      else camera
    let camera :=
      if input.raylib_iskeydown KEY_E then CameraRoll camera CAMERA_ROTATION_SPEED
      else camera
    let camera :=
      if (mode == CAMERA_FREE) && input.raylib_ismousebuttondown MOUSE_BUTTON_MIDDLE then
        let mouseDelta := input.raylib_getmousedelta
        let camera :=
          if mouseDelta.x > 0.0 then CameraMoveRight camera CAMERA_PAN_SPEED moveInWorldPlane
          else camera
        let camera :=
          if mouseDelta.x < 0.0 then CameraMoveRight camera (-CAMERA_PAN_SPEED) moveInWorldPlane
          else camera
        let camera :=
          if mouseDelta.y > 0.0 then CameraMoveUp camera (-CAMERA_PAN_SPEED) else camera
        if mouseDelta.y < 0.0 then CameraMoveUp camera CAMERA_PAN_SPEED else camera
      else
        let camera :=
          CameraYaw camera (-mousePositionDelta.x * CAMERA_MOUSE_MOVE_SENSITIVITY)
            rotateAroundTarget
        CameraPitch camera (-mousePositionDelta.y * CAMERA_MOUSE_MOVE_SENSITIVITY) lockView
          rotateAroundTarget rotateUp
    let camera :=
      if input.raylib_iskeydown KEY_W then
        CameraMoveForward camera CAMERA_MOVE_SPEED moveInWorldPlane
      else camera
    let camera :=
      if input.raylib_iskeydown KEY_A then
        CameraMoveRight camera (-CAMERA_MOVE_SPEED) moveInWorldPlane
      else camera
    let camera :=
      if input.raylib_iskeydown KEY_S then
        CameraMoveForward camera (-CAMERA_MOVE_SPEED) moveInWorldPlane
      else camera
    let camera :=
      if input.raylib_iskeydown KEY_D then
        CameraMoveRight camera CAMERA_MOVE_SPEED moveInWorldPlane
      else camera
    let camera :=
      if input.raylib_isgamepadavailable 0 then
        let camera :=
          CameraYaw camera
            (-(input.raylib_getgamepadaxismovement 0 GAMEPAD_AXIS_RIGHT_X * 2) *
              CAMERA_MOUSE_MOVE_SENSITIVITY) rotateAroundTarget
        let camera :=
          CameraPitch camera
            (-(input.raylib_getgamepadaxismovement 0 GAMEPAD_AXIS_RIGHT_Y * 2) *
              CAMERA_MOUSE_MOVE_SENSITIVITY) lockView rotateAroundTarget rotateUp
        let camera :=
          if input.raylib_getgamepadaxismovement 0 GAMEPAD_AXIS_LEFT_Y ≤ -0.25 then
            CameraMoveForward camera CAMERA_MOVE_SPEED moveInWorldPlane
          else camera
        let camera :=
          if input.raylib_getgamepadaxismovement 0 GAMEPAD_AXIS_LEFT_X ≤ -0.25 then
            CameraMoveRight camera (-CAMERA_MOVE_SPEED) moveInWorldPlane
          else camera
        let camera :=
          if input.raylib_getgamepadaxismovement 0 GAMEPAD_AXIS_LEFT_Y ≥ 0.25 then
            CameraMoveForward camera (-CAMERA_MOVE_SPEED) moveInWorldPlane
          else camera
        if input.raylib_getgamepadaxismovement 0 GAMEPAD_AXIS_LEFT_X ≥ 0.25 then
          CameraMoveRight camera CAMERA_MOVE_SPEED moveInWorldPlane
        else camera
      else camera
    if mode = CAMERA_FREE then
      let camera :=
        if input.raylib_iskeydown KEY_SPACE then CameraMoveUp camera CAMERA_MOVE_SPEED
        else camera
      if input.raylib_iskeydown KEY_LEFT_CONTROL then CameraMoveUp camera (-CAMERA_MOVE_SPEED)
      else camera
    else camera

/-- The last part of `raylib_updatecamera`, the zoom block: in third person, orbital and
free mode the target distance is changed by the mouse wheel and by the keypad minus and
plus keys. -/
def raylib_updatecamera_zoom (camera : raylib_camera) (mode : Int) (input : InputState) :
    raylib_camera :=
  if mode = CAMERA_THIRD_PERSON ∨ mode = CAMERA_ORBITAL ∨ mode = CAMERA_FREE then
    let camera := CameraMoveToTarget camera (-input.raylib_getmousewheelmove)
    let camera :=
      if input.raylib_iskeypressed KEY_KP_SUBTRACT then CameraMoveToTarget camera 2.0
      else camera
    if input.raylib_iskeypressed KEY_KP_ADD then CameraMoveToTarget camera (-2.0)
    else camera
  else camera

/-- Update camera position for selected mode (`CAMERA_FREE`, `CAMERA_FIRST_PERSON`,
`CAMERA_THIRD_PERSON`, `CAMERA_ORBITAL` or custom): the rotation and movement part followed
by the zoom block. -/
def raylib_updatecamera (camera : raylib_camera) (mode : Int) (input : InputState) :
    raylib_camera :=
  raylib_updatecamera_zoom (raylib_updatecamera_motion camera mode input) mode input

/-! ## Skeletal animation (`raylib.h`; the functions are declared there, their bodies are
not among the sources) -/

/-- Four float components of the C struct `raylib_vector4`, over the reals. -/
@[ext]
structure raylib_vector4 where
  x : ℝ
  y : ℝ
  z : ℝ
  w : ℝ

/-- The C typedef `Quaternion`, an alias of `raylib_vector4`. -/
abbrev Quaternion := raylib_vector4

/-- The C struct `raylib_transform`: translation, rotation and scale. -/
@[ext]
structure raylib_transform where
  translation : raylib_vector3
  rotation : Quaternion
  scale : raylib_vector3

/-- The C struct `raylib_boneinfo`: bone name and index of the parent bone; a negative
parent marks a root. -/
structure raylib_boneinfo where
  name : String
  parent : Int

/-- The animation data of the C struct `raylib_model`: number of bones, the bones and the
bind pose (the mesh and material fields play no part here). -/
structure raylib_model where
  boneCount : Int
  bones : List raylib_boneinfo
  bindPose : List raylib_transform

/-- The C struct `raylib_modelanimation`: number of bones, number of frames, the bones,
the poses by frame and by bone, and the name. -/
structure raylib_modelanimation where
  boneCount : Int
  frameCount : Int
  bones : List raylib_boneinfo
  framePoses : List (List raylib_transform)
  name : String

/-- Modelled from the spec: `Vector3Multiply` of the absent `raymath.h`, the componentwise
product ("multiply scales"). -/
def Vector3Multiply (v1 v2 : raylib_vector3) : raylib_vector3 :=
  ⟨v1.x * v2.x, v1.y * v2.y, v1.z * v2.z⟩

/-- Modelled from the spec: `QuaternionMultiply` of the absent `raymath.h`, the Hamilton
product of two quaternions ("multiply rotations"). -/
def QuaternionMultiply (q1 q2 : Quaternion) : Quaternion :=
  ⟨q1.x * q2.w + q1.w * q2.x + q1.y * q2.z - q1.z * q2.y,
    q1.y * q2.w + q1.w * q2.y + q1.z * q2.x - q1.x * q2.z,
    q1.z * q2.w + q1.w * q2.z + q1.x * q2.y - q1.y * q2.x,
    q1.w * q2.w - q1.x * q2.x - q1.y * q2.y - q1.z * q2.z⟩

/-- Modelled from the spec: `Vector3RotateByQuaternion` of the absent `raymath.h`, the
vector rotated by a quaternion. -/
def Vector3RotateByQuaternion (v : raylib_vector3) (q : Quaternion) : raylib_vector3 :=
  ⟨v.x * (q.x * q.x + q.w * q.w - q.y * q.y - q.z * q.z) + v.y * (2 * q.x * q.y - 2 * q.w * q.z)
      + v.z * (2 * q.x * q.z + 2 * q.w * q.y),
    v.x * (2 * q.w * q.z + 2 * q.x * q.y) + v.y * (q.w * q.w - q.x * q.x + q.y * q.y - q.z * q.z)
      + v.z * (-2 * q.w * q.x + 2 * q.y * q.z),
    v.x * (-2 * q.w * q.y + 2 * q.x * q.z) + v.y * (2 * q.w * q.x + 2 * q.y * q.z)
      + v.z * (q.w * q.w - q.x * q.x - q.y * q.y + q.z * q.z)⟩

/-- Modelled from the spec: the composition of a parent world transform with a child local
transform: "rotate/scale child's translation by parent's rotation+scale, add parent's
translation; multiply rotations; multiply scales". -/
def TransformCompose (parent child : raylib_transform) : raylib_transform :=
  { translation :=
      Vector3Add parent.translation
        (Vector3RotateByQuaternion (Vector3Multiply child.translation parent.scale)
          parent.rotation)
    rotation := QuaternionMultiply parent.rotation child.rotation
    scale := Vector3Multiply child.scale parent.scale }

/-- Modelled from the spec: the validity query `raylib_ismodelanimationvalid` (declared in
`raylib.h`, body absent): "`clip.boneCount == skeleton.boneCount` and matching names/parents
at corresponding indices". -/
def raylib_ismodelanimationvalid (model : raylib_model) (anim : raylib_modelanimation) :
    Bool :=
  model.boneCount == anim.boneCount &&
    (List.range model.boneCount.toNat).all fun i =>
      match model.bones[i]?, anim.bones[i]? with
      | some a, some b => a.name == b.name && a.parent == b.parent
      | _, _ => false

/-- Modelled from the spec: the world transform of one bone, resolved through the parent
index: a root has its local transform, another bone the world transform of its parent
composed with its local transform.  `fuel` bounds the length of the parent chain; without
a result (`none`) the chain is longer than that or leaves the bone array. -/
def worldTransformFuel (bones : List raylib_boneinfo) (locals : List raylib_transform) :
    Nat → Nat → Option raylib_transform
  | 0, _ => none
  | fuel + 1, bone =>
    match bones[bone]?, locals[bone]? with
    | some info, some l =>
      if info.parent < 0 then some l
      else
        (worldTransformFuel bones locals fuel info.parent.toNat).map
          fun p => TransformCompose p l
    | _, _ => none

/-- Gathers the per-bone results into the pose array, if every bone has one. -/
def collectPose : List (Option raylib_transform) → Option (List raylib_transform)
  | [] => some []
  | none :: _ => none
  | some t :: rest => (collectPose rest).map fun pose => t :: pose

/-- Modelled from the spec: the pose update (`raylib_updatemodelanimation` and
`UpdateModelAnimationBones`, declared or called in the sources, bodies absent), the
`EvaluatePose(skeleton, clip, frameIndex)` of the specification: the array of the world
transforms of all bones at the given frame, every parent resolved by index lookup so that
the order of the bones in the array plays no part. -/
def EvaluatePose (model : raylib_model) (anim : raylib_modelanimation) (frame : Int) :
    Option (List raylib_transform) :=
  if frame < 0 then none
  else
    match anim.framePoses[frame.toNat]? with
    | none => none
    | some locals =>
      collectPose
        ((List.range model.boneCount.toNat).map
          (worldTransformFuel model.bones locals model.boneCount.toNat))

/-! ## Frame counters of the animation examples -/

/-- One pass through the animation block of the main loop of `models_animation.c` with the
space key held: the counter is incremented, passed to `RL_UpdateModelAnimation`, and then
reset to `0` if it has reached `frameCount`.  The result is the frame passed and the counter
kept for the next pass.  The counter never exceeds `frameCount`, so the C `int` does not
overflow. -/
def models_animation_step (frameCount animFrameCounter : Int) : Int × Int :=
  let animFrameCounter := animFrameCounter + 1
  let frame := animFrameCounter
  let animFrameCounter := if animFrameCounter ≥ frameCount then 0 else animFrameCounter
  (frame, animFrameCounter)

/-- The frames passed to `RL_UpdateModelAnimation` in the given number of passes of
`models_animation.c`, starting from the given counter. -/
def models_animation_frames (frameCount : Int) : Nat → Int → List Int
  | 0, _ => []
  | passes + 1, animFrameCounter =>
    (models_animation_step frameCount animFrameCounter).1 ::
      models_animation_frames frameCount passes
        (models_animation_step frameCount animFrameCounter).2

/-- One pass through the animation update of `models_gpu_skinning.c`:
`animCurrentFrame = (animCurrentFrame + 1) % anim.frameCount` in `unsigned int`
arithmetic (32 bits); the new value is the frame passed to `UpdateModelAnimationBones`. -/
def models_gpu_skinning_step (frameCount : Int) (animCurrentFrame : Nat) : Nat :=
  ((animCurrentFrame + 1) % 2 ^ 32) % (frameCount % 2 ^ 32).toNat

/-- The frames passed to `UpdateModelAnimationBones` in the given number of passes of
`models_gpu_skinning.c`, starting from the given frame. -/
def models_gpu_skinning_frames (frameCount : Int) : Nat → Nat → List Nat
  | 0, _ => []
  | passes + 1, animCurrentFrame =>
    models_gpu_skinning_step frameCount animCurrentFrame ::
      models_gpu_skinning_frames frameCount passes
        (models_gpu_skinning_step frameCount animCurrentFrame)

/-! ## Platform initialisation (`platforms/rcore_template.c`) -/

/-- A camera at `(0, 0, 1)` looking at the origin, with the world up vector `(0, 1, 0)`. -/
def unitCamera : raylib_camera :=
  { position := ⟨0, 0, 1⟩, target := ⟨0, 0, 0⟩, up := ⟨0, 1, 0⟩, fovy := 45, projection := 0 }

/-- An orthographic camera at `(0, 0, 1)` looking at the origin, with `fovy = 10`. -/
def orthoCamera : raylib_camera :=
  { position := ⟨0, 0, 1⟩, target := ⟨0, 0, 0⟩, up := ⟨0, 1, 0⟩, fovy := 10, projection := 1 }

/-- The camera at `(0, 0, 1)` looking at the origin whose up vector is the zero vector. -/
def upZeroCamera : raylib_camera :=
  { position := ⟨0, 0, 1⟩, target := ⟨0, 0, 0⟩, up := ⟨0, 0, 0⟩, fovy := 45, projection := 0 }

/-- The idle input snapshot: no mouse movement, no wheel movement, no key and no button
held or pressed, no gamepad, frame time zero. -/
def idleInput : InputState :=
  { raylib_getmousedelta := ⟨0, 0⟩
    raylib_getmousewheelmove := 0
    raylib_iskeydown := fun _ => false
    raylib_iskeypressed := fun _ => false
    raylib_ismousebuttondown := fun _ => false
    raylib_isgamepadavailable := fun _ => false
    raylib_getgamepadaxismovement := fun _ _ => 0
    raylib_getframetime := 0 }

/-- The idle input snapshot with frame time `pi` seconds. -/
def halfTurnInput : InputState :=
  { idleInput with raylib_getframetime := Real.pi }

/-- The input snapshot in which the cursor-up key and the middle mouse button are held
and everything else is idle. -/
def keyUpPanInput : InputState :=
  { idleInput with
    raylib_iskeydown := fun key => key == KEY_UP
    raylib_ismousebuttondown := fun button => button == MOUSE_BUTTON_MIDDLE }

/-- The input snapshot in which the middle mouse button is held, the mouse delta is
`(3, -5)` and everything else is idle. -/
def panInput : InputState :=
  { idleInput with
    raylib_getmousedelta := ⟨3, -5⟩
    raylib_ismousebuttondown := fun button => button == MOUSE_BUTTON_MIDDLE }

/-- The identity transform: no translation, the unit quaternion, scale one. -/
def identityTransform : raylib_transform :=
  { translation := ⟨0, 0, 0⟩, rotation := ⟨0, 0, 0, 1⟩, scale := ⟨1, 1, 1⟩ }

/-- A two-bone chain stored child first: bone `0` is the child of bone `1`, which is the
root. -/
def chainModel : raylib_model :=
  { boneCount := 2
    bones := [⟨"child", 1⟩, ⟨"root", -1⟩]
    bindPose := [identityTransform, identityTransform] }

/-- A one-frame clip for `chainModel`: the child has the local translation `(0, 1, 0)`, the
root the translation `(1, 0, 0)`, both with identity rotation and scale. -/
def chainClip : raylib_modelanimation :=
  { boneCount := 2
    frameCount := 1
    bones := [⟨"child", 1⟩, ⟨"root", -1⟩]
    framePoses :=
      [[{ identityTransform with translation := ⟨0, 1, 0⟩ },
        { identityTransform with translation := ⟨1, 0, 0⟩ }]]
    name := "chain" }

/-- A clip with three bones, one more than `chainModel`. -/
def longClip : raylib_modelanimation :=
  { boneCount := 3
    frameCount := 1
    bones := [⟨"child", 1⟩, ⟨"root", -1⟩, ⟨"tip", 0⟩]
    framePoses := [[identityTransform, identityTransform, identityTransform]]
    name := "long" }

/-! ## Auxiliary definitions for the proofs -/

/-- The zero vector (`Vector3Zero` of `raymath.h`). -/
def Vector3Zero : raylib_vector3 := ⟨0, 0, 0⟩

/-- The Euler-Rodrigues rotation core of `Vector3RotateByAxisAngle`, with the scalar part
`a` and the vector part `w` of the rotation given directly:
`v + 2 a (w × v) + 2 w × (w × v)`. -/
def rotQ (a : ℝ) (w v : raylib_vector3) : raylib_vector3 :=
  Vector3Add (Vector3Add v (Vector3Scale (Vector3CrossProduct w v) (2 * a)))
    (Vector3Scale (Vector3CrossProduct w (Vector3CrossProduct w v)) 2)

/-- The angle that `CameraPitch` really applies: `angle` itself, or with `lockView` its
clamp between `maxAngleDown` and `maxAngleUp`, both computed from the current angle between
the up vector and the view vector. -/
def CameraPitchAngle (camera : raylib_camera) (angle : ℝ) (lockView : Bool) : ℝ :=
  let up := GetCameraUp camera
  let targetPosition := Vector3Subtract camera.target camera.position
  if lockView then
    let maxAngleUp := Vector3Angle up targetPosition
    let maxAngleUp := maxAngleUp - 0.001
    let angle := if angle > maxAngleUp then maxAngleUp else angle
    let maxAngleDown := Vector3Angle (Vector3Negate up) targetPosition
    let maxAngleDown := maxAngleDown * (-1.0)
    let maxAngleDown := maxAngleDown + 0.001
    if angle < maxAngleDown then maxAngleDown else angle
  else angle

/-- The invariant of the data model: position differs from target, and the up vector and
the view vector `target - position` are not parallel, that is, their cross product is not
the zero vector. -/
def CameraInvariant (camera : raylib_camera) : Prop :=
  camera.position ≠ camera.target ∧
    Vector3CrossProduct camera.up (Vector3Subtract camera.target camera.position) ≠
      Vector3Zero

/-- A sequence of locked pitches: each step is an angle and a `rotateAroundTarget` flag,
applied as `CameraPitch(angle, lockView = true, rotateAroundTarget, rotateUp = false)`. -/
def lockedPitches (camera : raylib_camera) (steps : List (ℝ × Bool)) : raylib_camera :=
  steps.foldl (fun c s => CameraPitch c s.1 true s.2 false) camera

/-- One rotation request: a call of `CameraYaw`, `CameraPitch` or `CameraRoll` together
with its arguments. -/
inductive CameraRotation where
  | yaw (angle : ℝ) (rotateAroundTarget : Bool)
  | pitch (angle : ℝ) (lockView rotateAroundTarget rotateUp : Bool)
  | roll (angle : ℝ)

/-- Performs one rotation request on the camera. -/
def CameraRotation.run (op : CameraRotation) (camera : raylib_camera) : raylib_camera :=
  match op with
  | CameraRotation.yaw angle rotateAroundTarget => CameraYaw camera angle rotateAroundTarget
  | CameraRotation.pitch angle lockView rotateAroundTarget rotateUp =>
    CameraPitch camera angle lockView rotateAroundTarget rotateUp
  | CameraRotation.roll angle => CameraRoll camera angle

/-- Performs a finite sequence of rotation requests, first to last. -/
def runRotations (camera : raylib_camera) (ops : List CameraRotation) : raylib_camera :=
  ops.foldl (fun c op => op.run c) camera

/-- Whether a rotation request is a yaw, a roll, or a pitch with `lockView` or `rotateUp`
set. -/
def CameraRotation.keepsUpright (op : CameraRotation) : Bool :=
  match op with
  | CameraRotation.pitch _ lockView _ rotateUp => lockView || rotateUp
  | _ => true

/-- The zoom steps in the words of the specification: `CameraMoveToTarget(-wheel)`, then
`CameraMoveToTarget(2)` if keypad-subtract was pressed, then `CameraMoveToTarget(-2)` if
keypad-add was pressed. -/
def zoomSteps (camera : raylib_camera) (wheel : ℝ) (subtractPressed addPressed : Bool) :
    raylib_camera :=
  let afterWheel := CameraMoveToTarget camera (-wheel)
  let afterSubtract := if subtractPressed then CameraMoveToTarget afterWheel 2 else afterWheel
  if addPressed then CameraMoveToTarget afterSubtract (-2) else afterSubtract

/-- Whether following the parent indices from a bone reaches a root within `fuel` steps
without leaving the bone array.  A skeleton with `n` bones has no cycle (and no dangling
parent) exactly when this holds for every bone with `fuel = n`. -/
def reachesRoot (bones : List raylib_boneinfo) : Nat → Nat → Bool
  | 0, _ => false
  | fuel + 1, bone =>
    match bones[bone]? with
    | none => false
    | some info => if info.parent < 0 then true else reachesRoot bones fuel info.parent.toNat

/-! ## Vector algebra -/

theorem Vector3Length_nonneg (v : raylib_vector3) : 0 ≤ Vector3Length v :=
  Real.sqrt_nonneg _

theorem Vector3DotProduct_self_nonneg (v : raylib_vector3) : 0 ≤ Vector3DotProduct v v := by
  unfold Vector3DotProduct
  nlinarith [mul_self_nonneg v.x, mul_self_nonneg v.y, mul_self_nonneg v.z]

theorem Vector3Length_eq_sqrt_dot (v : raylib_vector3) :
    Vector3Length v = Real.sqrt (Vector3DotProduct v v) := rfl

theorem Vector3Length_sq (v : raylib_vector3) :
    Vector3Length v ^ 2 = Vector3DotProduct v v := by
  rw [Vector3Length_eq_sqrt_dot, Real.sq_sqrt (Vector3DotProduct_self_nonneg v)]

theorem Vector3Length_mul_self (v : raylib_vector3) :
    Vector3Length v * Vector3Length v = Vector3DotProduct v v := by
  rw [← Vector3Length_sq, sq]

theorem Vector3DotProduct_self_eq_zero_iff (v : raylib_vector3) :
    Vector3DotProduct v v = 0 ↔ v = Vector3Zero := by
  constructor
  · intro h
    unfold Vector3DotProduct at h
    have hx : v.x = 0 := by nlinarith [mul_self_nonneg v.x, mul_self_nonneg v.y, mul_self_nonneg v.z]
    have hy : v.y = 0 := by nlinarith [mul_self_nonneg v.x, mul_self_nonneg v.y, mul_self_nonneg v.z]
    have hz : v.z = 0 := by nlinarith [mul_self_nonneg v.x, mul_self_nonneg v.y, mul_self_nonneg v.z]
    ext <;> simp [Vector3Zero, hx, hy, hz]
  · rintro rfl
    simp [Vector3DotProduct, Vector3Zero]

theorem Vector3Length_eq_zero_iff (v : raylib_vector3) :
    Vector3Length v = 0 ↔ v = Vector3Zero := by
  rw [Vector3Length_eq_sqrt_dot, Real.sqrt_eq_zero (Vector3DotProduct_self_nonneg v),
    Vector3DotProduct_self_eq_zero_iff]

theorem Vector3Length_pos_iff (v : raylib_vector3) :
    0 < Vector3Length v ↔ v ≠ Vector3Zero := by
  rw [← not_iff_not, not_lt, not_not, ← Vector3Length_eq_zero_iff]
  exact ⟨fun h => le_antisymm h (Vector3Length_nonneg v), fun h => h.le⟩

theorem Vector3Length_eq_of_dot_eq {u v : raylib_vector3}
    (h : Vector3DotProduct u u = Vector3DotProduct v v) : Vector3Length u = Vector3Length v := by
  rw [Vector3Length_eq_sqrt_dot, Vector3Length_eq_sqrt_dot, h]

theorem Vector3Distance_eq_length (v1 v2 : raylib_vector3) :
    Vector3Distance v1 v2 = Vector3Length (Vector3Subtract v2 v1) := rfl

theorem Vector3Length_scale (v : raylib_vector3) (t : ℝ) :
    Vector3Length (Vector3Scale v t) = |t| * Vector3Length v := by
  rw [← Real.sqrt_sq_eq_abs, Vector3Length_eq_sqrt_dot, Vector3Length_eq_sqrt_dot,
    ← Real.sqrt_mul (sq_nonneg t)]
  congr 1
  simp only [Vector3DotProduct, Vector3Scale]
  ring

theorem Vector3Normalize_eq_scale (v : raylib_vector3) :
    Vector3Normalize v = Vector3Scale v (1 / Vector3Length v) := by
  unfold Vector3Normalize
  by_cases h : Vector3Length v = 0
  · have hv := (Vector3Length_eq_zero_iff v).1 h
    subst hv
    simp [h, Vector3Scale, Vector3Zero]
  · simp [h, Vector3Scale]

theorem Vector3Length_normalize {v : raylib_vector3} (h : v ≠ Vector3Zero) :
    Vector3Length (Vector3Normalize v) = 1 := by
  have hp := (Vector3Length_pos_iff v).2 h
  rw [Vector3Normalize_eq_scale, Vector3Length_scale, abs_of_pos (by positivity)]
  field_simp

theorem Vector3Normalize_zero : Vector3Normalize Vector3Zero = Vector3Zero := by
  rw [Vector3Normalize_eq_scale]
  simp [Vector3Scale, Vector3Zero]

theorem Vector3DotProduct_normalize_self {v : raylib_vector3} (h : v ≠ Vector3Zero) :
    Vector3DotProduct (Vector3Normalize v) (Vector3Normalize v) = 1 := by
  rw [← Vector3Length_mul_self, Vector3Length_normalize h, mul_one]

/-! ## Rotations -/

theorem rotQ_dot {a : ℝ} {w : raylib_vector3} (h : a ^ 2 + Vector3DotProduct w w = 1)
    (u v : raylib_vector3) :
    Vector3DotProduct (rotQ a w u) (rotQ a w v) = Vector3DotProduct u v := by
  simp only [rotQ, Vector3DotProduct, Vector3Add, Vector3Scale, Vector3CrossProduct] at h ⊢
  linear_combination
    (4 * ((w.x * w.x + w.y * w.y + w.z * w.z) * (u.x * v.x + u.y * v.y + u.z * v.z)
      - (w.x * u.x + w.y * u.y + w.z * u.z) * (w.x * v.x + w.y * v.y + w.z * v.z))) * h

theorem rotQ_cross {a : ℝ} {w : raylib_vector3} (h : a ^ 2 + Vector3DotProduct w w = 1)
    (u v : raylib_vector3) :
    Vector3CrossProduct (rotQ a w u) (rotQ a w v) = rotQ a w (Vector3CrossProduct u v) := by
  simp only [rotQ, Vector3DotProduct, Vector3Add, Vector3Scale, Vector3CrossProduct] at h ⊢
  ext
  · simp only
    linear_combination
      (4 * (w.x * (u.y * v.z - u.z * v.y) + w.y * (u.z * v.x - u.x * v.z)
        + w.z * (u.x * v.y - u.y * v.x)) * w.x) * h
  · simp only
    linear_combination
      (4 * (w.x * (u.y * v.z - u.z * v.y) + w.y * (u.z * v.x - u.x * v.z)
        + w.z * (u.x * v.y - u.y * v.x)) * w.y) * h
  · simp only
    linear_combination
      (4 * (w.x * (u.y * v.z - u.z * v.y) + w.y * (u.z * v.x - u.x * v.z)
        + w.z * (u.x * v.y - u.y * v.x)) * w.z) * h

theorem rotQ_zero (a : ℝ) (v : raylib_vector3) : rotQ a Vector3Zero v = v := by
  ext <;> simp [rotQ, Vector3Zero, Vector3Add, Vector3Scale, Vector3CrossProduct]

theorem Vector3RotateByAxisAngle_eq_rotQ (v axis : raylib_vector3) (angle : ℝ) :
    Vector3RotateByAxisAngle v axis angle =
      rotQ (Real.cos (angle / 2))
        (Vector3Scale (Vector3Normalize axis) (Real.sin (angle / 2))) v := by
  unfold Vector3RotateByAxisAngle
  by_cases h : Vector3Length axis = 0
  · have hv := (Vector3Length_eq_zero_iff axis).1 h
    subst hv
    simp [h, rotQ, Vector3Normalize, Vector3Scale, Vector3Zero]
  · simp [h, rotQ, Vector3Normalize, Vector3Scale]

theorem rotQ_unit_or_zero (axis : raylib_vector3) (h : ℝ) :
    Real.cos h ^ 2 + Vector3DotProduct (Vector3Scale (Vector3Normalize axis) (Real.sin h))
        (Vector3Scale (Vector3Normalize axis) (Real.sin h)) = 1 ∨
      Vector3Scale (Vector3Normalize axis) (Real.sin h) = Vector3Zero := by
  by_cases hz : axis = Vector3Zero
  · right
    subst hz
    rw [Vector3Normalize_zero]
    simp [Vector3Scale, Vector3Zero]
  · left
    have hn := Vector3DotProduct_normalize_self hz
    simp only [Vector3DotProduct, Vector3Scale] at hn ⊢
    linear_combination (Real.sin h ^ 2) * hn + Real.cos_sq_add_sin_sq h

theorem Vector3RotateByAxisAngle_dot (u v axis : raylib_vector3) (angle : ℝ) :
    Vector3DotProduct (Vector3RotateByAxisAngle u axis angle)
        (Vector3RotateByAxisAngle v axis angle) = Vector3DotProduct u v := by
  rw [Vector3RotateByAxisAngle_eq_rotQ, Vector3RotateByAxisAngle_eq_rotQ]
  rcases rotQ_unit_or_zero axis (angle / 2) with h | h
  · exact rotQ_dot h u v
  · rw [h, rotQ_zero, rotQ_zero]

theorem Vector3RotateByAxisAngle_cross (u v axis : raylib_vector3) (angle : ℝ) :
    Vector3CrossProduct (Vector3RotateByAxisAngle u axis angle)
        (Vector3RotateByAxisAngle v axis angle) =
      Vector3RotateByAxisAngle (Vector3CrossProduct u v) axis angle := by
  rw [Vector3RotateByAxisAngle_eq_rotQ, Vector3RotateByAxisAngle_eq_rotQ,
    Vector3RotateByAxisAngle_eq_rotQ]
  rcases rotQ_unit_or_zero axis (angle / 2) with h | h
  · exact rotQ_cross h u v
  · rw [h, rotQ_zero, rotQ_zero, rotQ_zero]

theorem Vector3RotateByAxisAngle_length (v axis : raylib_vector3) (angle : ℝ) :
    Vector3Length (Vector3RotateByAxisAngle v axis angle) = Vector3Length v :=
  Vector3Length_eq_of_dot_eq (Vector3RotateByAxisAngle_dot v v axis angle)

theorem Vector3RotateByAxisAngle_ne_zero {v : raylib_vector3} (h : v ≠ Vector3Zero)
    (axis : raylib_vector3) (angle : ℝ) :
    Vector3RotateByAxisAngle v axis angle ≠ Vector3Zero := by
  rw [← Vector3Length_pos_iff, Vector3RotateByAxisAngle_length, Vector3Length_pos_iff]
  exact h

theorem Vector3CrossProduct_scale_left (u v : raylib_vector3) (t : ℝ) :
    Vector3CrossProduct (Vector3Scale u t) v = Vector3Scale (Vector3CrossProduct u v) t := by
  ext <;> simp only [Vector3CrossProduct, Vector3Scale] <;> ring

theorem Vector3CrossProduct_scale_right (u v : raylib_vector3) (t : ℝ) :
    Vector3CrossProduct u (Vector3Scale v t) = Vector3Scale (Vector3CrossProduct u v) t := by
  ext <;> simp only [Vector3CrossProduct, Vector3Scale] <;> ring

theorem Vector3CrossProduct_zero_right (u : raylib_vector3) :
    Vector3CrossProduct u Vector3Zero = Vector3Zero := by
  ext <;> simp [Vector3CrossProduct, Vector3Zero]

theorem Vector3CrossProduct_zero_left (u : raylib_vector3) :
    Vector3CrossProduct Vector3Zero u = Vector3Zero := by
  ext <;> simp [Vector3CrossProduct, Vector3Zero]

theorem Vector3CrossProduct_self (u : raylib_vector3) :
    Vector3CrossProduct u u = Vector3Zero := by
  ext <;> simp only [Vector3CrossProduct, Vector3Zero] <;> ring

theorem Vector3Scale_zero_left (t : ℝ) : Vector3Scale Vector3Zero t = Vector3Zero := by
  ext <;> simp [Vector3Scale, Vector3Zero]

theorem Vector3Add_zero_right (u : raylib_vector3) : Vector3Add u Vector3Zero = u := by
  ext <;> simp [Vector3Add, Vector3Zero]

theorem rotQ_of_cross_eq_zero {w v : raylib_vector3}
    (h : Vector3CrossProduct w v = Vector3Zero) (a : ℝ) : rotQ a w v = v := by
  simp only [rotQ, h, Vector3CrossProduct_zero_right, Vector3Scale_zero_left,
    Vector3Add_zero_right]

/-- A vector parallel to the rotation axis is fixed by the rotation. -/
theorem Vector3RotateByAxisAngle_of_cross_eq_zero {v axis : raylib_vector3}
    (h : Vector3CrossProduct axis v = Vector3Zero) (angle : ℝ) :
    Vector3RotateByAxisAngle v axis angle = v := by
  rw [Vector3RotateByAxisAngle_eq_rotQ, Vector3Normalize_eq_scale]
  apply rotQ_of_cross_eq_zero
  rw [Vector3CrossProduct_scale_left, Vector3CrossProduct_scale_left, h,
    Vector3Scale_zero_left, Vector3Scale_zero_left]

theorem Vector3Subtract_subtract_cancel (a b : raylib_vector3) :
    Vector3Subtract a (Vector3Subtract a b) = b := by
  ext <;> simp [Vector3Subtract]

theorem Vector3Subtract_add_cancel (a b : raylib_vector3) :
    Vector3Subtract (Vector3Add a b) a = b := by
  ext <;> simp [Vector3Subtract, Vector3Add]

theorem Vector3Subtract_add_add (a b d : raylib_vector3) :
    Vector3Subtract (Vector3Add a d) (Vector3Add b d) = Vector3Subtract a b := by
  ext <;> simp [Vector3Subtract, Vector3Add]

theorem Vector3Subtract_add_scale_neg (a f : raylib_vector3) (t : ℝ) :
    Vector3Subtract a (Vector3Add a (Vector3Scale f (-t))) = Vector3Scale f t := by
  ext <;> simp [Vector3Subtract, Vector3Add, Vector3Scale]

theorem Vector3Subtract_ne_zero {a b : raylib_vector3} (h : a ≠ b) :
    Vector3Subtract b a ≠ Vector3Zero := by
  intro h0
  apply h
  have hx := congrArg raylib_vector3.x h0
  have hy := congrArg raylib_vector3.y h0
  have hz := congrArg raylib_vector3.z h0
  simp only [Vector3Subtract, Vector3Zero] at hx hy hz
  ext <;> linarith

theorem Vector3Normalize_scale_pos (v : raylib_vector3) {t : ℝ} (ht : 0 < t) :
    Vector3Normalize (Vector3Scale v t) = Vector3Normalize v := by
  rw [Vector3Normalize_eq_scale, Vector3Normalize_eq_scale, Vector3Length_scale,
    abs_of_pos ht]
  by_cases h : Vector3Length v = 0
  · simp [h, Vector3Scale]
  · ext <;> simp only [Vector3Scale] <;> field_simp <;> ring

/-- The distance that `CameraMoveToTarget` aims at: the old distance plus `delta`, replaced
by `0.001` when that is not positive. -/
theorem CameraMoveToTarget_distance_eq (camera : raylib_camera) (delta : ℝ)
    (h : camera.position ≠ camera.target) :
    Vector3Distance (CameraMoveToTarget camera delta).position
        (CameraMoveToTarget camera delta).target =
      if Vector3Distance camera.position camera.target + delta ≤ 0 then 0.001
      else Vector3Distance camera.position camera.target + delta := by
  have hf : Vector3Length (GetCameraForward camera) = 1 :=
    Vector3Length_normalize (Vector3Subtract_ne_zero h)
  simp only [CameraMoveToTarget, Vector3Distance_eq_length, Vector3Subtract_add_scale_neg,
    Vector3Length_scale, hf, mul_one]
  split_ifs with hd
  · norm_num
  · exact abs_of_pos (not_le.1 hd)

/-! ## The angle between two vectors -/

theorem Vector3_lagrange (u v : raylib_vector3) :
    Vector3DotProduct u v ^ 2 +
        Vector3DotProduct (Vector3CrossProduct u v) (Vector3CrossProduct u v) =
      Vector3DotProduct u u * Vector3DotProduct v v := by
  simp only [Vector3DotProduct, Vector3CrossProduct]
  ring

theorem arg_mk_polar {r φ : ℝ} (hr : 0 < r) (h0 : 0 ≤ φ) (hpi : φ ≤ Real.pi) :
    Complex.arg ⟨r * Real.cos φ, r * Real.sin φ⟩ = φ := by
  have h : (⟨r * Real.cos φ, r * Real.sin φ⟩ : ℂ) =
      (r : ℂ) * (Complex.cos φ + Complex.sin φ * Complex.I) := by
    apply Complex.ext <;> simp [← Complex.ofReal_cos, ← Complex.ofReal_sin]
  rw [h]
  exact Complex.arg_mul_cos_add_sin_mul_I hr ⟨by linarith [Real.pi_pos], hpi⟩

theorem abs_mk_dot_cross (u v : raylib_vector3) :
    Complex.abs ⟨Vector3DotProduct u v, Vector3Length (Vector3CrossProduct u v)⟩ =
      Vector3Length u * Vector3Length v := by
  rw [Complex.abs_apply, Complex.normSq_mk, Vector3Length_mul_self, ← sq, Vector3_lagrange,
    Real.sqrt_mul (Vector3DotProduct_self_nonneg u)]
  rfl

/-- The dot product and the length of the cross product in polar form: the radius is the
product of the lengths and the angle is `Vector3Angle`. -/
theorem Vector3Angle_polar {u v : raylib_vector3} (hu : u ≠ Vector3Zero)
    (hv : v ≠ Vector3Zero) :
    Vector3DotProduct u v =
        Vector3Length u * Vector3Length v * Real.cos (Vector3Angle u v) ∧
      Vector3Length (Vector3CrossProduct u v) =
        Vector3Length u * Vector3Length v * Real.sin (Vector3Angle u v) := by
  have hpos : 0 < Vector3Length u * Vector3Length v :=
    mul_pos ((Vector3Length_pos_iff u).2 hu) ((Vector3Length_pos_iff v).2 hv)
  have habs := abs_mk_dot_cross u v
  have hz : (⟨Vector3DotProduct u v, Vector3Length (Vector3CrossProduct u v)⟩ : ℂ) ≠ 0 := by
    intro h0
    rw [h0, map_zero] at habs
    exact hpos.ne habs
  unfold Vector3Angle
  simp only
  rw [Complex.cos_arg hz, Complex.sin_arg, habs]
  constructor <;> field_simp

theorem Vector3Angle_eq_of_polar {u v : raylib_vector3} {r φ : ℝ} (hr : 0 < r) (h0 : 0 ≤ φ)
    (hpi : φ ≤ Real.pi) (hd : Vector3DotProduct u v = r * Real.cos φ)
    (hc : Vector3Length (Vector3CrossProduct u v) = r * Real.sin φ) :
    Vector3Angle u v = φ := by
  unfold Vector3Angle
  simp only
  rw [hd, hc]
  exact arg_mk_polar hr h0 hpi

theorem Vector3Angle_nonneg (u v : raylib_vector3) : 0 ≤ Vector3Angle u v := by
  unfold Vector3Angle
  simp only
  rw [Complex.arg_nonneg_iff]
  exact Vector3Length_nonneg _

theorem Vector3Angle_le_pi (u v : raylib_vector3) : Vector3Angle u v ≤ Real.pi :=
  Complex.arg_le_pi _

theorem Vector3CrossProduct_negate_left (u v : raylib_vector3) :
    Vector3CrossProduct (Vector3Negate u) v = Vector3Negate (Vector3CrossProduct u v) := by
  ext <;> simp only [Vector3CrossProduct, Vector3Negate] <;> ring

theorem Vector3Length_negate (u : raylib_vector3) :
    Vector3Length (Vector3Negate u) = Vector3Length u := by
  apply Vector3Length_eq_of_dot_eq
  simp only [Vector3DotProduct, Vector3Negate]
  ring

theorem Vector3DotProduct_negate_left (u v : raylib_vector3) :
    Vector3DotProduct (Vector3Negate u) v = -Vector3DotProduct u v := by
  simp only [Vector3DotProduct, Vector3Negate]
  ring

/-- The angle to the opposite vector is the supplement. -/
theorem Vector3Angle_negate_left {u v : raylib_vector3} (hu : u ≠ Vector3Zero)
    (hv : v ≠ Vector3Zero) :
    Vector3Angle (Vector3Negate u) v = Real.pi - Vector3Angle u v := by
  obtain ⟨hd, hc⟩ := Vector3Angle_polar hu hv
  have hpos : 0 < Vector3Length u * Vector3Length v :=
    mul_pos ((Vector3Length_pos_iff u).2 hu) ((Vector3Length_pos_iff v).2 hv)
  apply Vector3Angle_eq_of_polar hpos
  · linarith [Vector3Angle_le_pi u v]
  · linarith [Vector3Angle_nonneg u v]
  · rw [Vector3DotProduct_negate_left, hd, Real.cos_pi_sub]
    ring
  · rw [Vector3CrossProduct_negate_left, Vector3Length_negate, hc, Real.sin_pi_sub]

/-! ## Rotation about a unit axis perpendicular to the vector -/

theorem Vector3Normalize_of_unit {k : raylib_vector3} (hk : Vector3DotProduct k k = 1) :
    Vector3Normalize k = k := by
  have hl : Vector3Length k = 1 := by
    rw [Vector3Length_eq_sqrt_dot, hk, Real.sqrt_one]
  rw [Vector3Normalize_eq_scale, hl]
  ext <;> simp [Vector3Scale]

/-- Rodrigues formula for a vector perpendicular to the unit axis `k`: the rotation by
`angle` is `cos angle * v + sin angle * (k × v)`. -/
theorem Vector3RotateByAxisAngle_perp {k v : raylib_vector3}
    (hk : Vector3DotProduct k k = 1) (hkv : Vector3DotProduct k v = 0) (angle : ℝ) :
    Vector3RotateByAxisAngle v k angle =
      Vector3Add (Vector3Scale v (Real.cos angle))
        (Vector3Scale (Vector3CrossProduct k v) (Real.sin angle)) := by
  rw [Vector3RotateByAxisAngle_eq_rotQ, Vector3Normalize_of_unit hk]
  have hc : Real.cos angle = 1 - 2 * Real.sin (angle / 2) ^ 2 := by
    have h := Real.cos_two_mul (angle / 2)
    rw [Real.cos_sq', mul_div_cancel₀ angle (two_ne_zero)] at h
    linarith
  have hs : Real.sin angle = 2 * Real.sin (angle / 2) * Real.cos (angle / 2) := by
    have h := Real.sin_two_mul (angle / 2)
    rwa [mul_div_cancel₀ angle (two_ne_zero)] at h
  rw [hc, hs]
  generalize Real.sin (angle / 2) = s
  generalize Real.cos (angle / 2) = c
  simp only [Vector3DotProduct] at hk hkv
  ext
  · simp only [rotQ, Vector3Add, Vector3Scale, Vector3CrossProduct]
    linear_combination (2 * s ^ 2 * k.x) * hkv - (2 * s ^ 2 * v.x) * hk
  · simp only [rotQ, Vector3Add, Vector3Scale, Vector3CrossProduct]
    linear_combination (2 * s ^ 2 * k.y) * hkv - (2 * s ^ 2 * v.y) * hk
  · simp only [rotQ, Vector3Add, Vector3Scale, Vector3CrossProduct]
    linear_combination (2 * s ^ 2 * k.z) * hkv - (2 * s ^ 2 * v.z) * hk

theorem Vector3DotProduct_normalize_left (w v : raylib_vector3) :
    Vector3DotProduct (Vector3Normalize w) v = Vector3DotProduct w v / Vector3Length w := by
  rw [Vector3Normalize_eq_scale]
  simp only [Vector3DotProduct, Vector3Scale]
  ring

theorem Vector3DotProduct_normalize_self_right (w : raylib_vector3) :
    Vector3DotProduct (Vector3Normalize w) w = Vector3Length w := by
  rw [Vector3DotProduct_normalize_left, ← Vector3Length_mul_self]
  by_cases h : Vector3Length w = 0
  · simp [h]
  · field_simp

theorem Vector3DotProduct_cross_left (t u : raylib_vector3) :
    Vector3DotProduct (Vector3CrossProduct t u) t = 0 ∧
      Vector3DotProduct (Vector3CrossProduct t u) u = 0 := by
  constructor <;> simp only [Vector3DotProduct, Vector3CrossProduct] <;> ring

theorem Vector3Length_cross_comm (u v : raylib_vector3) :
    Vector3Length (Vector3CrossProduct u v) = Vector3Length (Vector3CrossProduct v u) := by
  apply Vector3Length_eq_of_dot_eq
  simp only [Vector3DotProduct, Vector3CrossProduct]
  ring

theorem Vector3CrossProduct_ne_zero_left {u v : raylib_vector3}
    (h : Vector3CrossProduct u v ≠ Vector3Zero) : u ≠ Vector3Zero := by
  rintro rfl
  exact h (Vector3CrossProduct_zero_left v)

theorem Vector3CrossProduct_ne_zero_right {u v : raylib_vector3}
    (h : Vector3CrossProduct u v ≠ Vector3Zero) : v ≠ Vector3Zero := by
  rintro rfl
  exact h (Vector3CrossProduct_zero_right u)

theorem Vector3CrossProduct_ne_zero_comm {u v : raylib_vector3}
    (h : Vector3CrossProduct u v ≠ Vector3Zero) : Vector3CrossProduct v u ≠ Vector3Zero := by
  rw [← Vector3Length_pos_iff] at h ⊢
  rwa [Vector3Length_cross_comm]

/-- The heart of the pitch: for a unit vector `u` and a view vector `t` not parallel to
it, rotating `t` about the normalised `t × u` by `a` takes the angle between `u` and `t`
from `θ` to `θ - a`, written in polar form. -/
theorem pitch_core {u t : raylib_vector3} (hu : Vector3DotProduct u u = 1)
    (hne : Vector3CrossProduct t u ≠ Vector3Zero) (a : ℝ) :
    Vector3DotProduct u
        (Vector3RotateByAxisAngle t (Vector3Normalize (Vector3CrossProduct t u)) a) =
      Vector3Length t * Real.cos (Vector3Angle u t - a) ∧
    Vector3DotProduct
        (Vector3CrossProduct u
          (Vector3RotateByAxisAngle t (Vector3Normalize (Vector3CrossProduct t u)) a))
        (Vector3CrossProduct u
          (Vector3RotateByAxisAngle t (Vector3Normalize (Vector3CrossProduct t u)) a)) =
      (Vector3Length t * Real.sin (Vector3Angle u t - a)) ^ 2 := by
  have hu0 : u ≠ Vector3Zero := Vector3CrossProduct_ne_zero_right hne
  have ht0 : t ≠ Vector3Zero := Vector3CrossProduct_ne_zero_left hne
  have hul : Vector3Length u = 1 := by
    rw [Vector3Length_eq_sqrt_dot, hu, Real.sqrt_one]
  obtain ⟨hd, hc⟩ := Vector3Angle_polar hu0 ht0
  rw [hul, one_mul] at hd hc
  have hk1 := Vector3DotProduct_normalize_self hne
  have hkt : Vector3DotProduct (Vector3Normalize (Vector3CrossProduct t u)) t = 0 := by
    rw [Vector3DotProduct_normalize_left, (Vector3DotProduct_cross_left t u).1, zero_div]
  have hkV := Vector3DotProduct_normalize_self_right (Vector3CrossProduct t u)
  rw [← Vector3Length_cross_comm u t, hc] at hkV
  have hlen := Vector3RotateByAxisAngle_dot t t (Vector3Normalize (Vector3CrossProduct t u)) a
  have hrot := Vector3RotateByAxisAngle_perp hk1 hkt a
  generalize Vector3Normalize (Vector3CrossProduct t u) = k at *
  have hdot : Vector3DotProduct u (Vector3RotateByAxisAngle t k a) =
      Vector3Length t * Real.cos (Vector3Angle u t - a) := by
    rw [hrot, Real.cos_sub]
    simp only [Vector3DotProduct, Vector3Add, Vector3Scale, Vector3CrossProduct] at hd hkV ⊢
    linear_combination (Real.cos a) * hd + (Real.sin a) * hkV
  refine ⟨hdot, ?_⟩
  have hl := Vector3_lagrange u (Vector3RotateByAxisAngle t k a)
  rw [hdot, hu, hlen, ← Vector3Length_mul_self t] at hl
  have hsc := Real.sin_sq_add_cos_sq (Vector3Angle u t - a)
  linear_combination hl - (Vector3Length t) ^ 2 * hsc

/-! ## The view vector after a pitch -/

theorem Vector3Scale_ne_zero {v : raylib_vector3} (hv : v ≠ Vector3Zero) {t : ℝ}
    (ht : t ≠ 0) : Vector3Scale v t ≠ Vector3Zero := by
  rw [← Vector3Length_pos_iff, Vector3Length_scale]
  exact mul_pos (abs_pos.2 ht) ((Vector3Length_pos_iff v).2 hv)

theorem Vector3CrossProduct_normalize_right_ne_zero {t u : raylib_vector3}
    (h : Vector3CrossProduct t u ≠ Vector3Zero) :
    Vector3CrossProduct t (Vector3Normalize u) ≠ Vector3Zero := by
  have hu := (Vector3Length_pos_iff u).2 (Vector3CrossProduct_ne_zero_right h)
  rw [Vector3Normalize_eq_scale, Vector3CrossProduct_scale_right]
  exact Vector3Scale_ne_zero h (by positivity)

theorem Vector3CrossProduct_normalize_left_ne_zero {t u : raylib_vector3}
    (h : Vector3CrossProduct t u ≠ Vector3Zero) :
    Vector3CrossProduct (Vector3Normalize t) u ≠ Vector3Zero := by
  have ht := (Vector3Length_pos_iff t).2 (Vector3CrossProduct_ne_zero_left h)
  rw [Vector3Normalize_eq_scale, Vector3CrossProduct_scale_left]
  exact Vector3Scale_ne_zero h (by positivity)

theorem Vector3CrossProduct_ne_zero_of_normalize_left {t u : raylib_vector3}
    (h : Vector3CrossProduct (Vector3Normalize t) u ≠ Vector3Zero) :
    Vector3CrossProduct t u ≠ Vector3Zero := by
  intro h0
  apply h
  rw [Vector3Normalize_eq_scale, Vector3CrossProduct_scale_left, h0, Vector3Scale_zero_left]

/-- The right vector is the normalised cross product of the view vector and the
normalised up vector. -/
theorem GetCameraRight_eq (camera : raylib_camera) :
    GetCameraRight camera =
      Vector3Normalize (Vector3CrossProduct (Vector3Subtract camera.target camera.position)
        (GetCameraUp camera)) := by
  unfold GetCameraRight GetCameraForward
  simp only
  by_cases h : Vector3Subtract camera.target camera.position = Vector3Zero
  · rw [h, Vector3Normalize_zero]
  · have hp := (Vector3Length_pos_iff _).2 h
    rw [Vector3Normalize_eq_scale (Vector3Subtract camera.target camera.position),
      Vector3CrossProduct_scale_left]
    exact Vector3Normalize_scale_pos _ (by positivity)

theorem CameraPitch_view (camera : raylib_camera) (angle : ℝ)
    (lockView rotateAroundTarget rotateUp : Bool) :
    Vector3Subtract (CameraPitch camera angle lockView rotateAroundTarget rotateUp).target
        (CameraPitch camera angle lockView rotateAroundTarget rotateUp).position =
      Vector3RotateByAxisAngle (Vector3Subtract camera.target camera.position)
        (GetCameraRight camera) (CameraPitchAngle camera angle lockView) := by
  unfold CameraPitch CameraPitchAngle
  cases rotateAroundTarget <;> cases rotateUp <;>
    simp [Vector3Subtract_subtract_cancel, Vector3Subtract_add_cancel]

theorem CameraPitch_up (camera : raylib_camera) (angle : ℝ)
    (lockView rotateAroundTarget rotateUp : Bool) :
    (CameraPitch camera angle lockView rotateAroundTarget rotateUp).up =
      if rotateUp then
        Vector3RotateByAxisAngle camera.up (GetCameraRight camera)
          (CameraPitchAngle camera angle lockView)
      else camera.up := by
  unfold CameraPitch CameraPitchAngle
  cases rotateAroundTarget <;> cases rotateUp <;> simp

/-- The clamp of a locked pitch: the effective angle lies between the current up/view
angle minus `pi - 0.001` and the current up/view angle minus `0.001`. -/
theorem CameraPitchAngle_locked_bounds (camera : raylib_camera) (angle : ℝ)
    (h : Vector3CrossProduct camera.up (Vector3Subtract camera.target camera.position) ≠
      Vector3Zero) :
    Vector3Angle (GetCameraUp camera) (Vector3Subtract camera.target camera.position)
          - (Real.pi - 0.001) ≤ CameraPitchAngle camera angle true ∧
      CameraPitchAngle camera angle true ≤
        Vector3Angle (GetCameraUp camera) (Vector3Subtract camera.target camera.position)
          - 0.001 := by
  have hU : GetCameraUp camera ≠ Vector3Zero := by
    have h1 := Vector3Length_normalize (Vector3CrossProduct_ne_zero_left h)
    intro h0
    rw [GetCameraUp] at h0
    rw [h0] at h1
    simp [Vector3Length, Vector3Zero] at h1
  have hT := Vector3CrossProduct_ne_zero_right h
  have hneg := Vector3Angle_negate_left hU hT
  unfold CameraPitchAngle
  simp only [if_true, hneg]
  have hpi := Real.pi_gt_three
  constructor
  · split_ifs <;> linarith
  · split_ifs <;> linarith

/-! ## The locked pitch -/

theorem Vector3Angle_normalize_left {u : raylib_vector3} (hu : u ≠ Vector3Zero)
    (v : raylib_vector3) :
    Vector3Angle (Vector3Normalize u) v = Vector3Angle u v := by
  have hp : 0 < 1 / Vector3Length u := by
    have := (Vector3Length_pos_iff u).2 hu
    positivity
  rw [Vector3Normalize_eq_scale]
  generalize 1 / Vector3Length u = i at hp
  unfold Vector3Angle
  simp only
  rw [Vector3CrossProduct_scale_left, Vector3Length_scale, abs_of_pos hp]
  have hz : (⟨Vector3DotProduct (Vector3Scale u i) v,
      i * Vector3Length (Vector3CrossProduct u v)⟩ : ℂ) =
      (i : ℂ) * ⟨Vector3DotProduct u v, Vector3Length (Vector3CrossProduct u v)⟩ := by
    apply Complex.ext
    · simp [Vector3DotProduct, Vector3Scale]
      ring
    · simp
  rw [hz, Complex.arg_real_mul _ hp]

theorem GetCameraUp_dot_self {camera : raylib_camera} (h : camera.up ≠ Vector3Zero) :
    Vector3DotProduct (GetCameraUp camera) (GetCameraUp camera) = 1 :=
  Vector3DotProduct_normalize_self h

/-- After a locked pitch that does not rotate up, the angle between the normalised up
vector and the new view vector is the old angle minus the effective pitch angle. -/
theorem CameraPitch_locked_angle (camera : raylib_camera) (angle : ℝ)
    (rotateAroundTarget : Bool)
    (h : Vector3CrossProduct camera.up (Vector3Subtract camera.target camera.position) ≠
      Vector3Zero) :
    Vector3Angle (GetCameraUp camera)
        (Vector3Subtract (CameraPitch camera angle true rotateAroundTarget false).target
          (CameraPitch camera angle true rotateAroundTarget false).position) =
      Vector3Angle (GetCameraUp camera) (Vector3Subtract camera.target camera.position)
        - CameraPitchAngle camera angle true := by
  have hU := Vector3CrossProduct_ne_zero_left h
  have hT := Vector3CrossProduct_ne_zero_right h
  have hne := Vector3CrossProduct_normalize_right_ne_zero (Vector3CrossProduct_ne_zero_comm h)
  obtain ⟨hlo, hhi⟩ := CameraPitchAngle_locked_bounds camera angle h
  obtain ⟨hd, hc⟩ := pitch_core (GetCameraUp_dot_self hU) hne (CameraPitchAngle camera angle true)
  rw [CameraPitch_view, GetCameraRight_eq]
  have hr := (Vector3Length_pos_iff _).2 hT
  have h0 : 0 ≤ Vector3Angle (GetCameraUp camera)
      (Vector3Subtract camera.target camera.position) - CameraPitchAngle camera angle true := by
    linarith
  have hpi : Vector3Angle (GetCameraUp camera)
      (Vector3Subtract camera.target camera.position) - CameraPitchAngle camera angle true
        ≤ Real.pi := by
    linarith
  refine Vector3Angle_eq_of_polar hr h0 hpi hd ?_
  rw [Vector3Length_eq_sqrt_dot, hc]
  exact Real.sqrt_sq (mul_nonneg hr.le (Real.sin_nonneg_of_nonneg_of_le_pi h0 hpi))

theorem Vector3CrossProduct_ne_zero_of_angle {u v : raylib_vector3}
    (h0 : 0 < Vector3Angle u v) (hpi : Vector3Angle u v < Real.pi) :
    Vector3CrossProduct u v ≠ Vector3Zero := by
  intro hz
  unfold Vector3Angle at h0 hpi
  simp only [hz] at h0 hpi
  have hl : Vector3Length Vector3Zero = 0 := (Vector3Length_eq_zero_iff _).2 rfl
  rw [hl] at h0 hpi
  by_cases hd : 0 ≤ Vector3DotProduct u v
  · have := Complex.arg_eq_zero_iff.2 (show 0 ≤ (⟨Vector3DotProduct u v, 0⟩ : ℂ).re ∧
      (⟨Vector3DotProduct u v, 0⟩ : ℂ).im = 0 from ⟨hd, rfl⟩)
    linarith
  · have := Complex.arg_eq_pi_iff.2 (show (⟨Vector3DotProduct u v, 0⟩ : ℂ).re < 0 ∧
      (⟨Vector3DotProduct u v, 0⟩ : ℂ).im = 0 from ⟨not_le.1 hd, rfl⟩)
    linarith

/-! ## Preservation of the camera invariant -/

theorem CameraInvariant_of_cross {camera : raylib_camera}
    (h : Vector3CrossProduct camera.up (Vector3Subtract camera.target camera.position) ≠
      Vector3Zero) : CameraInvariant camera := by
  refine ⟨?_, h⟩
  intro he
  apply Vector3CrossProduct_ne_zero_right h
  rw [he]
  ext <;> simp [Vector3Subtract, Vector3Zero]

theorem CameraInvariant_of_eq {camera next : raylib_camera} (h : CameraInvariant camera)
    (hup : next.up = camera.up)
    (hview : Vector3Subtract next.target next.position =
      Vector3Subtract camera.target camera.position) : CameraInvariant next := by
  apply CameraInvariant_of_cross
  rw [hup, hview]
  exact h.2

theorem CameraYaw_view (camera : raylib_camera) (angle : ℝ) (rotateAroundTarget : Bool) :
    Vector3Subtract (CameraYaw camera angle rotateAroundTarget).target
        (CameraYaw camera angle rotateAroundTarget).position =
      Vector3RotateByAxisAngle (Vector3Subtract camera.target camera.position)
        (GetCameraUp camera) angle := by
  unfold CameraYaw
  cases rotateAroundTarget <;>
    simp [Vector3Subtract_subtract_cancel, Vector3Subtract_add_cancel]

theorem CameraYaw_up (camera : raylib_camera) (angle : ℝ) (rotateAroundTarget : Bool) :
    (CameraYaw camera angle rotateAroundTarget).up = camera.up := by
  unfold CameraYaw
  cases rotateAroundTarget <;> simp

theorem Vector3CrossProduct_normalize_self (v : raylib_vector3) :
    Vector3CrossProduct (Vector3Normalize v) v = Vector3Zero := by
  rw [Vector3Normalize_eq_scale, Vector3CrossProduct_scale_left, Vector3CrossProduct_self,
    Vector3Scale_zero_left]

theorem CameraYaw_invariant {camera : raylib_camera} (h : CameraInvariant camera)
    (angle : ℝ) (rotateAroundTarget : Bool) :
    CameraInvariant (CameraYaw camera angle rotateAroundTarget) := by
  apply CameraInvariant_of_cross
  rw [CameraYaw_view, CameraYaw_up]
  have hfix := Vector3RotateByAxisAngle_of_cross_eq_zero
    (Vector3CrossProduct_normalize_self camera.up) angle
  have hc := Vector3RotateByAxisAngle_cross camera.up
    (Vector3Subtract camera.target camera.position) (GetCameraUp camera) angle
  unfold GetCameraUp at hc ⊢
  rw [hfix] at hc
  rw [hc]
  exact Vector3RotateByAxisAngle_ne_zero h.2 _ _

theorem CameraRoll_invariant {camera : raylib_camera} (h : CameraInvariant camera)
    (angle : ℝ) : CameraInvariant (CameraRoll camera angle) := by
  apply CameraInvariant_of_cross
  have hfix := Vector3RotateByAxisAngle_of_cross_eq_zero
    (Vector3CrossProduct_normalize_self (Vector3Subtract camera.target camera.position)) angle
  have hc := Vector3RotateByAxisAngle_cross camera.up
    (Vector3Subtract camera.target camera.position) (GetCameraForward camera) angle
  unfold GetCameraForward at hc
  rw [hfix] at hc
  simp only [CameraRoll, GetCameraForward]
  rw [hc]
  exact Vector3RotateByAxisAngle_ne_zero h.2 _ _

theorem CameraPitch_rotateUp_invariant {camera : raylib_camera} (h : CameraInvariant camera)
    (angle : ℝ) (lockView rotateAroundTarget : Bool) :
    CameraInvariant (CameraPitch camera angle lockView rotateAroundTarget true) := by
  apply CameraInvariant_of_cross
  rw [CameraPitch_view, CameraPitch_up, if_pos rfl, Vector3RotateByAxisAngle_cross]
  exact Vector3RotateByAxisAngle_ne_zero h.2 _ _

theorem CameraPitch_locked_invariant {camera : raylib_camera} (h : CameraInvariant camera)
    (angle : ℝ) (rotateAroundTarget : Bool) :
    CameraInvariant (CameraPitch camera angle true rotateAroundTarget false) := by
  apply CameraInvariant_of_cross
  have hang := CameraPitch_locked_angle camera angle rotateAroundTarget h.2
  obtain ⟨hlo, hhi⟩ := CameraPitchAngle_locked_bounds camera angle h.2
  have hpi := Real.pi_gt_three
  have hne : Vector3CrossProduct (GetCameraUp camera)
      (Vector3Subtract (CameraPitch camera angle true rotateAroundTarget false).target
        (CameraPitch camera angle true rotateAroundTarget false).position) ≠ Vector3Zero :=
    Vector3CrossProduct_ne_zero_of_angle (by rw [hang]; linarith) (by rw [hang]; linarith)
  rw [CameraPitch_up]
  exact Vector3CrossProduct_ne_zero_of_normalize_left hne

theorem CameraMoveForward_invariant {camera : raylib_camera} (h : CameraInvariant camera)
    (distance : ℝ) (moveInWorldPlane : Bool) :
    CameraInvariant (CameraMoveForward camera distance moveInWorldPlane) :=
  CameraInvariant_of_eq h rfl (Vector3Subtract_add_add _ _ _)

theorem CameraMoveRight_invariant {camera : raylib_camera} (h : CameraInvariant camera)
    (distance : ℝ) (moveInWorldPlane : Bool) :
    CameraInvariant (CameraMoveRight camera distance moveInWorldPlane) :=
  CameraInvariant_of_eq h rfl (Vector3Subtract_add_add _ _ _)

theorem CameraMoveUp_invariant {camera : raylib_camera} (h : CameraInvariant camera)
    (distance : ℝ) : CameraInvariant (CameraMoveUp camera distance) :=
  CameraInvariant_of_eq h rfl (Vector3Subtract_add_add _ _ _)

theorem CameraMoveToTarget_invariant {camera : raylib_camera} (h : CameraInvariant camera)
    (delta : ℝ) : CameraInvariant (CameraMoveToTarget camera delta) := by
  apply CameraInvariant_of_cross
  have hp : 0 < Vector3Length (Vector3Subtract camera.target camera.position) :=
    (Vector3Length_pos_iff _).2 (Vector3CrossProduct_ne_zero_right h.2)
  have hD : (if Vector3Distance camera.position camera.target + delta ≤ 0 then (0.001 : ℝ)
      else Vector3Distance camera.position camera.target + delta) ≠ 0 := by
    split_ifs with hd
    · norm_num
    · exact (not_le.1 hd).ne.symm
  simp only [CameraMoveToTarget, GetCameraForward, Vector3Subtract_add_scale_neg,
    Vector3Normalize_eq_scale, Vector3CrossProduct_scale_right]
  exact Vector3Scale_ne_zero (Vector3Scale_ne_zero h.2 (by positivity)) hD

/-! ## Frame effects of the primitive operations -/

/-- C7: `CameraYaw` with `rotateAroundTarget = true` leaves target, up, fovy and projection
unchanged, and with `rotateAroundTarget = false` leaves position, up, fovy and projection
unchanged. -/
theorem CameraYaw_pivot (camera : raylib_camera) (angle : ℝ) :
    ((CameraYaw camera angle true).target = camera.target ∧
      (CameraYaw camera angle true).up = camera.up ∧
      (CameraYaw camera angle true).fovy = camera.fovy ∧
      (CameraYaw camera angle true).projection = camera.projection) ∧
    ((CameraYaw camera angle false).position = camera.position ∧
      (CameraYaw camera angle false).up = camera.up ∧
      (CameraYaw camera angle false).fovy = camera.fovy ∧
      (CameraYaw camera angle false).projection = camera.projection) := by
  simp [CameraYaw]

/-- C2: orbiting preserves the distance: `CameraYaw` with `rotateAroundTarget = true`
leaves `distance(position, target)` unchanged, for every camera and every angle. -/
theorem CameraYaw_orbit_preserves_distance (camera : raylib_camera) (angle : ℝ) :
    Vector3Distance (CameraYaw camera angle true).position
        (CameraYaw camera angle true).target =
      Vector3Distance camera.position camera.target := by
  simp [CameraYaw, Vector3Distance_eq_length, Vector3Subtract_subtract_cancel,
    Vector3RotateByAxisAngle_length]

/-- C3: for a camera with position different from target, after `CameraMoveToTarget` the
distance between position and target is the old distance plus `delta` whenever that sum is
positive, and it is strictly positive in every case. -/
theorem CameraMoveToTarget_distance (camera : raylib_camera) (delta : ℝ)
    (h : camera.position ≠ camera.target) :
    (0 < Vector3Distance camera.position camera.target + delta →
      Vector3Distance (CameraMoveToTarget camera delta).position
          (CameraMoveToTarget camera delta).target =
        Vector3Distance camera.position camera.target + delta) ∧
    0 < Vector3Distance (CameraMoveToTarget camera delta).position
          (CameraMoveToTarget camera delta).target := by
  rw [CameraMoveToTarget_distance_eq camera delta h]
  constructor
  · intro hd
    rw [if_neg (not_le.2 hd)]
  · split_ifs with hd
    · norm_num
    · exact not_le.1 hd

/-- Witness of C3: the camera at `(0, 0, 1)` looking at the origin, zoomed by `1`. -/
theorem CameraMoveToTarget_distance_witness :
    unitCamera.position ≠ unitCamera.target ∧
    ((0 < Vector3Distance unitCamera.position unitCamera.target + 1 →
      Vector3Distance (CameraMoveToTarget unitCamera 1).position
          (CameraMoveToTarget unitCamera 1).target =
        Vector3Distance unitCamera.position unitCamera.target + 1) ∧
    0 < Vector3Distance (CameraMoveToTarget unitCamera 1).position
          (CameraMoveToTarget unitCamera 1).target) :=
  ⟨by simp [unitCamera], CameraMoveToTarget_distance unitCamera 1 (by simp [unitCamera])⟩

theorem worldPlane_y (f : raylib_vector3) :
    (Vector3Normalize { f with y := 0 }).y = 0 := by
  rw [Vector3Normalize_eq_scale]
  simp [Vector3Scale]

theorem worldPlane_length {f : raylib_vector3} (h : f.x ≠ 0 ∨ f.z ≠ 0) (distance : ℝ) :
    Vector3Length (Vector3Scale (Vector3Normalize { f with y := 0 }) distance) =
      |distance| := by
  have hne : ({ f with y := 0 } : raylib_vector3) ≠ Vector3Zero := by
    intro h0
    have hx := congrArg raylib_vector3.x h0
    have hz := congrArg raylib_vector3.z h0
    simp only [Vector3Zero] at hx hz
    rcases h with h | h
    · exact h hx
    · exact h hz
  rw [Vector3Length_scale, Vector3Length_normalize hne, mul_one]

/-- C10: ground-plane-constrained movement: `CameraMoveForward` and `CameraMoveRight` with
`moveInWorldPlane = true` add one and the same displacement to position and target; its
`y` component is zero, so `position.y` and `target.y` are unchanged, and whenever the
horizontal `(x, z)` part of the forward (resp. right) vector is non-zero the displacement
has length exactly `|distance|`. -/
theorem CameraMove_worldPlane (camera : raylib_camera) (distance : ℝ) :
    ((CameraMoveForward camera distance true).position.y = camera.position.y ∧
      (CameraMoveForward camera distance true).target.y = camera.target.y ∧
      ∃ disp : raylib_vector3,
        (CameraMoveForward camera distance true).position = Vector3Add camera.position disp ∧
        (CameraMoveForward camera distance true).target = Vector3Add camera.target disp ∧
        ((GetCameraForward camera).x ≠ 0 ∨ (GetCameraForward camera).z ≠ 0 →
          Vector3Length disp = |distance|)) ∧
    ((CameraMoveRight camera distance true).position.y = camera.position.y ∧
      (CameraMoveRight camera distance true).target.y = camera.target.y ∧
      ∃ disp : raylib_vector3,
        (CameraMoveRight camera distance true).position = Vector3Add camera.position disp ∧
        (CameraMoveRight camera distance true).target = Vector3Add camera.target disp ∧
        ((GetCameraRight camera).x ≠ 0 ∨ (GetCameraRight camera).z ≠ 0 →
          Vector3Length disp = |distance|)) := by
  refine ⟨⟨?_, ?_, _, rfl, rfl, fun h => ?_⟩, ⟨?_, ?_, _, rfl, rfl, fun h => ?_⟩⟩
  · simp [CameraMoveForward, Vector3Add, Vector3Scale, worldPlane_y]
  · simp [CameraMoveForward, Vector3Add, Vector3Scale, worldPlane_y]
  · simpa using worldPlane_length h distance
  · simp [CameraMoveRight, Vector3Add, Vector3Scale, worldPlane_y]
  · simp [CameraMoveRight, Vector3Add, Vector3Scale, worldPlane_y]
  · simpa using worldPlane_length h distance

theorem unitCamera_forward : GetCameraForward unitCamera = ⟨0, 0, -1⟩ := by
  simp [GetCameraForward, unitCamera, Vector3Normalize, Vector3Length, Vector3Subtract]

/-- Witness of C10: the camera at `(0, 0, 1)` looking at the origin has a forward vector
with non-zero horizontal part, and moving it forward by `2` in the world plane displaces
it by a vector of length `|2|`. -/
theorem CameraMove_worldPlane_witness :
    ((GetCameraForward unitCamera).x ≠ 0 ∨ (GetCameraForward unitCamera).z ≠ 0) ∧
    ∃ disp : raylib_vector3,
      (CameraMoveForward unitCamera 2 true).position = Vector3Add unitCamera.position disp ∧
      Vector3Length disp = |(2 : ℝ)| :=
  ⟨Or.inr (by simp [unitCamera_forward]),
    (CameraMove_worldPlane unitCamera 2).1.2.2.imp
      (fun _ hd => ⟨hd.1, hd.2.2 (Or.inr (by simp [unitCamera_forward]))⟩)⟩

/-! ## Pitch lock -/

theorem CameraInvariant_forward_up {camera : raylib_camera} (h : CameraInvariant camera) :
    Vector3CrossProduct (GetCameraForward camera) (GetCameraUp camera) ≠ Vector3Zero :=
  Vector3CrossProduct_normalize_left_ne_zero
    (Vector3CrossProduct_normalize_right_ne_zero (Vector3CrossProduct_ne_zero_comm h.2))

theorem CameraPitch_locked_range {camera : raylib_camera} (h : CameraInvariant camera)
    (angle : ℝ) (rotateAroundTarget : Bool) :
    0.001 ≤ Vector3Angle (CameraPitch camera angle true rotateAroundTarget false).up
        (Vector3Subtract (CameraPitch camera angle true rotateAroundTarget false).target
          (CameraPitch camera angle true rotateAroundTarget false).position) ∧
      Vector3Angle (CameraPitch camera angle true rotateAroundTarget false).up
        (Vector3Subtract (CameraPitch camera angle true rotateAroundTarget false).target
          (CameraPitch camera angle true rotateAroundTarget false).position) ≤
        Real.pi - 0.001 := by
  have hang := CameraPitch_locked_angle camera angle rotateAroundTarget h.2
  obtain ⟨hlo, hhi⟩ := CameraPitchAngle_locked_bounds camera angle h.2
  have hup : (CameraPitch camera angle true rotateAroundTarget false).up = camera.up := by
    rw [CameraPitch_up]
    rfl
  rw [hup, ← Vector3Angle_normalize_left (Vector3CrossProduct_ne_zero_left h.2)]
  unfold GetCameraUp at hang hlo hhi
  rw [hang]
  constructor <;> linarith

theorem lockedPitches_invariant (steps : List (ℝ × Bool)) :
    ∀ camera : raylib_camera, CameraInvariant camera →
      CameraInvariant (lockedPitches camera steps) := by
  induction steps with
  | nil => exact fun camera h => h
  | cons s rest ih =>
    intro camera h
    exact ih _ (CameraPitch_locked_invariant h s.1 s.2)

/-- C1: pitch lock.  For a camera with position different from target whose up vector and
view vector are not parallel, for every angle and either pivot, after
`CameraPitch(angle, lockView = true, rotateAroundTarget, rotateUp = false)` the angle
between up and the new view vector lies in `[0.001, pi - 0.001]`; and after any sequence of
such locked pitches the forward vector is not parallel to the up vector (their cross
product is not zero), the angle being in that range after every non-empty sequence. -/
theorem CameraPitch_lock (camera : raylib_camera) (angle : ℝ) (rotateAroundTarget : Bool)
    (hpos : camera.position ≠ camera.target)
    (hpar : Vector3CrossProduct camera.up
      (Vector3Subtract camera.target camera.position) ≠ Vector3Zero) :
    (0.001 ≤ Vector3Angle (CameraPitch camera angle true rotateAroundTarget false).up
        (Vector3Subtract (CameraPitch camera angle true rotateAroundTarget false).target
          (CameraPitch camera angle true rotateAroundTarget false).position) ∧
      Vector3Angle (CameraPitch camera angle true rotateAroundTarget false).up
        (Vector3Subtract (CameraPitch camera angle true rotateAroundTarget false).target
          (CameraPitch camera angle true rotateAroundTarget false).position) ≤
        Real.pi - 0.001) ∧
    ∀ steps : List (ℝ × Bool),
      Vector3CrossProduct (GetCameraForward (lockedPitches camera steps))
          (GetCameraUp (lockedPitches camera steps)) ≠ Vector3Zero ∧
      (steps ≠ [] →
        0.001 ≤ Vector3Angle (lockedPitches camera steps).up
          (Vector3Subtract (lockedPitches camera steps).target
            (lockedPitches camera steps).position) ∧
        Vector3Angle (lockedPitches camera steps).up
          (Vector3Subtract (lockedPitches camera steps).target
            (lockedPitches camera steps).position) ≤ Real.pi - 0.001) := by
  have hinv : CameraInvariant camera := ⟨hpos, hpar⟩
  refine ⟨CameraPitch_locked_range hinv angle rotateAroundTarget, fun steps => ⟨?_, ?_⟩⟩
  · exact CameraInvariant_forward_up (lockedPitches_invariant steps camera hinv)
  · intro hne
    rcases List.eq_nil_or_concat steps with h | ⟨init, s, h⟩
    · exact absurd h hne
    · subst h
      have hstep : lockedPitches camera (init.concat s) =
          CameraPitch (lockedPitches camera init) s.1 true s.2 false := by
        simp [lockedPitches, List.foldl_append]
      rw [hstep]
      exact CameraPitch_locked_range (lockedPitches_invariant init camera hinv) s.1 s.2

theorem unitCamera_invariant : CameraInvariant unitCamera := by
  constructor
  · simp [unitCamera]
  · simp [unitCamera, Vector3CrossProduct, Vector3Subtract, Vector3Zero]

/-- Witness of C1: the camera at `(0, 0, 1)` looking at the origin, pitched by `10`
radians under the lock. -/
theorem CameraPitch_lock_witness :
    unitCamera.position ≠ unitCamera.target ∧
    Vector3CrossProduct unitCamera.up
      (Vector3Subtract unitCamera.target unitCamera.position) ≠ Vector3Zero ∧
    (0.001 ≤ Vector3Angle (CameraPitch unitCamera 10 true false false).up
        (Vector3Subtract (CameraPitch unitCamera 10 true false false).target
          (CameraPitch unitCamera 10 true false false).position) ∧
      Vector3Angle (CameraPitch unitCamera 10 true false false).up
        (Vector3Subtract (CameraPitch unitCamera 10 true false false).target
          (CameraPitch unitCamera 10 true false false).position) ≤
        Real.pi - 0.001) :=
  ⟨unitCamera_invariant.1, unitCamera_invariant.2,
    (CameraPitch_lock unitCamera 10 false unitCamera_invariant.1 unitCamera_invariant.2).1⟩

/-! ## The pro update -/

/-- C6: `raylib_updatecamerapro` preserves the camera invariant: for a camera with position
different from target and up not parallel to `target - position`, and for every movement,
rotation and zoom, the updated camera again has position different from target and up not
parallel to `target - position`. -/
theorem raylib_updatecamerapro_invariant (camera : raylib_camera)
    (movement rotation : raylib_vector3) (zoom : ℝ)
    (hpos : camera.position ≠ camera.target)
    (hpar : Vector3CrossProduct camera.up
      (Vector3Subtract camera.target camera.position) ≠ Vector3Zero) :
    (raylib_updatecamerapro camera movement rotation zoom).position ≠
        (raylib_updatecamerapro camera movement rotation zoom).target ∧
    Vector3CrossProduct (raylib_updatecamerapro camera movement rotation zoom).up
      (Vector3Subtract (raylib_updatecamerapro camera movement rotation zoom).target
        (raylib_updatecamerapro camera movement rotation zoom).position) ≠ Vector3Zero := by
  have hinv : CameraInvariant camera := ⟨hpos, hpar⟩
  exact CameraMoveToTarget_invariant
    (CameraMoveUp_invariant
      (CameraMoveRight_invariant
        (CameraMoveForward_invariant
          (CameraRoll_invariant
            (CameraYaw_invariant
              (CameraPitch_locked_invariant hinv (-rotation.y * DEG2RAD) false)
              (-rotation.x * DEG2RAD) false)
            (rotation.z * DEG2RAD))
          movement.x true)
        movement.y true)
      movement.z)
    zoom

/-- Witness of C6: the camera at `(0, 0, 1)` looking at the origin, updated with movement
`(1, 2, 3)`, rotation `(10, 20, 30)` degrees and zoom `1`. -/
theorem raylib_updatecamerapro_invariant_witness :
    unitCamera.position ≠ unitCamera.target ∧
    Vector3CrossProduct unitCamera.up
      (Vector3Subtract unitCamera.target unitCamera.position) ≠ Vector3Zero ∧
    (raylib_updatecamerapro unitCamera ⟨1, 2, 3⟩ ⟨10, 20, 30⟩ 1).position ≠
        (raylib_updatecamerapro unitCamera ⟨1, 2, 3⟩ ⟨10, 20, 30⟩ 1).target :=
  ⟨unitCamera_invariant.1, unitCamera_invariant.2,
    (raylib_updatecamerapro_invariant unitCamera ⟨1, 2, 3⟩ ⟨10, 20, 30⟩ 1
      unitCamera_invariant.1 unitCamera_invariant.2).1⟩

/-! ## Sequences of yaw, pitch and roll -/

theorem Vector3Subtract_eq_zero_of_eq {a b : raylib_vector3} (h : a = b) :
    Vector3Subtract b a = Vector3Zero := by
  subst h
  ext <;> simp [Vector3Subtract, Vector3Zero]

/-- Every rotation keeps the view vector and the up vector different from zero. -/
theorem CameraRotation_run_nonzero (camera : raylib_camera) (op : CameraRotation)
    (h : Vector3Subtract camera.target camera.position ≠ Vector3Zero ∧
      camera.up ≠ Vector3Zero) :
    Vector3Subtract (op.run camera).target (op.run camera).position ≠ Vector3Zero ∧
      (op.run camera).up ≠ Vector3Zero := by
  cases op with
  | yaw angle rotateAroundTarget =>
    simp only [CameraRotation.run]
    rw [CameraYaw_view, CameraYaw_up]
    exact ⟨Vector3RotateByAxisAngle_ne_zero h.1 _ _, h.2⟩
  | pitch angle lockView rotateAroundTarget rotateUp =>
    simp only [CameraRotation.run]
    rw [CameraPitch_view, CameraPitch_up]
    refine ⟨Vector3RotateByAxisAngle_ne_zero h.1 _ _, ?_⟩
    split_ifs
    · exact Vector3RotateByAxisAngle_ne_zero h.2 _ _
    · exact h.2
  | roll angle =>
    simp only [CameraRotation.run, CameraRoll]
    exact ⟨h.1, Vector3RotateByAxisAngle_ne_zero h.2 _ _⟩

theorem runRotations_nonzero (ops : List CameraRotation) :
    ∀ camera : raylib_camera,
      Vector3Subtract camera.target camera.position ≠ Vector3Zero ∧
        camera.up ≠ Vector3Zero →
      Vector3Subtract (runRotations camera ops).target
          (runRotations camera ops).position ≠ Vector3Zero ∧
        (runRotations camera ops).up ≠ Vector3Zero := by
  induction ops with
  | nil => exact fun camera h => h
  | cons op rest ih =>
    intro camera h
    exact ih _ (CameraRotation_run_nonzero camera op h)

/-- A rotation whose pitch is locked or rotates up keeps the camera invariant. -/
theorem CameraRotation_run_invariant {camera : raylib_camera} (h : CameraInvariant camera)
    (op : CameraRotation) (hop : op.keepsUpright = true) :
    CameraInvariant (op.run camera) := by
  cases op with
  | yaw angle rotateAroundTarget => exact CameraYaw_invariant h angle rotateAroundTarget
  | pitch angle lockView rotateAroundTarget rotateUp =>
    simp only [CameraRotation.run]
    cases rotateUp with
    | true => exact CameraPitch_rotateUp_invariant h angle lockView rotateAroundTarget
    | false =>
      cases lockView with
      | true => exact CameraPitch_locked_invariant h angle rotateAroundTarget
      | false => simp [CameraRotation.keepsUpright] at hop
  | roll angle => exact CameraRoll_invariant h angle

theorem runRotations_invariant (ops : List CameraRotation) :
    ∀ camera : raylib_camera, CameraInvariant camera →
      (∀ op ∈ ops, op.keepsUpright = true) → CameraInvariant (runRotations camera ops) := by
  induction ops with
  | nil => exact fun camera h _ => h
  | cons op rest ih =>
    intro camera h hops
    exact ih _ (CameraRotation_run_invariant h op (hops op (List.mem_cons_self _ _)))
      (fun o ho => hops o (List.mem_cons_of_mem _ ho))

theorem GetCameraRight_dot_forward (camera : raylib_camera) :
    Vector3DotProduct (GetCameraRight camera) (GetCameraForward camera) = 0 := by
  unfold GetCameraRight
  simp only
  rw [Vector3DotProduct_normalize_left, (Vector3DotProduct_cross_left _ _).1, zero_div]

/-- C5, amended: starting from a camera with position different from target and up not
parallel to the view vector, after any finite sequence of `CameraYaw`, `CameraPitch` and
`CameraRoll` calls (any angles and flags) `GetCameraForward` and `GetCameraUp` have unit
length and `GetCameraRight` is perpendicular to `GetCameraForward`; if moreover every
`CameraPitch` of the sequence has `lockView` or `rotateUp` set, `GetCameraRight` has unit
length as well. -/
theorem runRotations_orthonormal (camera : raylib_camera) (ops : List CameraRotation)
    (hpos : camera.position ≠ camera.target)
    (hpar : Vector3CrossProduct camera.up
      (Vector3Subtract camera.target camera.position) ≠ Vector3Zero) :
    Vector3Length (GetCameraForward (runRotations camera ops)) = 1 ∧
    Vector3Length (GetCameraUp (runRotations camera ops)) = 1 ∧
    Vector3DotProduct (GetCameraRight (runRotations camera ops))
      (GetCameraForward (runRotations camera ops)) = 0 ∧
    ((∀ op ∈ ops, op.keepsUpright = true) →
      Vector3Length (GetCameraRight (runRotations camera ops)) = 1) := by
  have hnz := runRotations_nonzero ops camera
    ⟨Vector3CrossProduct_ne_zero_right hpar, Vector3CrossProduct_ne_zero_left hpar⟩
  refine ⟨Vector3Length_normalize hnz.1, Vector3Length_normalize hnz.2,
    GetCameraRight_dot_forward _, fun hops => ?_⟩
  exact Vector3Length_normalize
    (CameraInvariant_forward_up (runRotations_invariant ops camera ⟨hpos, hpar⟩ hops))

/-- Witness of the amended C5: the camera at `(0, 0, 1)` looking at the origin after a
yaw, a locked pitch and a roll. -/
theorem runRotations_orthonormal_witness :
    unitCamera.position ≠ unitCamera.target ∧
    Vector3CrossProduct unitCamera.up
      (Vector3Subtract unitCamera.target unitCamera.position) ≠ Vector3Zero ∧
    (∀ op ∈ [CameraRotation.yaw 1 true, CameraRotation.pitch 2 true false false,
      CameraRotation.roll 3], op.keepsUpright = true) ∧
    Vector3Length (GetCameraRight (runRotations unitCamera
      [CameraRotation.yaw 1 true, CameraRotation.pitch 2 true false false,
        CameraRotation.roll 3])) = 1 :=
  ⟨unitCamera_invariant.1, unitCamera_invariant.2,
    by simp [CameraRotation.keepsUpright],
    (runRotations_orthonormal unitCamera _ unitCamera_invariant.1
      unitCamera_invariant.2).2.2.2 (by simp [CameraRotation.keepsUpright])⟩

theorem unitCamera_right : GetCameraRight unitCamera = ⟨1, 0, 0⟩ := by
  simp [GetCameraRight, GetCameraForward, GetCameraUp, unitCamera, Vector3Normalize,
    Vector3Length, Vector3Subtract, Vector3CrossProduct]

theorem unitCamera_pitch_quarter :
    CameraPitch unitCamera (Real.pi / 2) false false false =
      { unitCamera with target := ⟨0, 1, 1⟩ } := by
  have hrot : Vector3RotateByAxisAngle ⟨0, 0, -1⟩ ⟨1, 0, 0⟩ (Real.pi / 2) = ⟨0, 1, 0⟩ := by
    rw [Vector3RotateByAxisAngle_perp (by simp [Vector3DotProduct])
      (by simp [Vector3DotProduct])]
    simp [Vector3Add, Vector3Scale, Vector3CrossProduct]
  have hview : Vector3Subtract unitCamera.target unitCamera.position = ⟨0, 0, -1⟩ := by
    simp [unitCamera, Vector3Subtract]
  unfold CameraPitch
  simp only [unitCamera_right, hview, hrot]
  simp [unitCamera, Vector3Add, hrot]

/-- C5, counterexample: the camera at `(0, 0, 1)` looking at the origin with up
`(0, 1, 0)` satisfies the hypotheses, and after the single call
`CameraPitch(pi/2, lockView = false, rotateAroundTarget = false, rotateUp = false)` its
view vector is parallel to up, so `GetCameraRight` is the zero vector: its length is `0`,
not `1`. -/
theorem runRotations_right_not_unit :
    unitCamera.position ≠ unitCamera.target ∧
    Vector3CrossProduct unitCamera.up
      (Vector3Subtract unitCamera.target unitCamera.position) ≠ Vector3Zero ∧
    Vector3Length (GetCameraRight (runRotations unitCamera
      [CameraRotation.pitch (Real.pi / 2) false false false])) = 0 ∧
    ¬ (Vector3Length (GetCameraRight (runRotations unitCamera
      [CameraRotation.pitch (Real.pi / 2) false false false])) = 1) := by
  have h0 : Vector3Length (GetCameraRight (runRotations unitCamera
      [CameraRotation.pitch (Real.pi / 2) false false false])) = 0 := by
    simp only [runRotations, List.foldl, CameraRotation.run, unitCamera_pitch_quarter]
    simp [GetCameraRight, GetCameraForward, GetCameraUp, unitCamera, Vector3Normalize,
      Vector3Length, Vector3Subtract, Vector3CrossProduct]
  refine ⟨unitCamera_invariant.1, unitCamera_invariant.2, h0, ?_⟩
  rw [h0]
  norm_num

/-! ## Pitch and roll: the up vector -/

theorem Vector3Angle_rotate (u v axis : raylib_vector3) (angle : ℝ) :
    Vector3Angle (Vector3RotateByAxisAngle u axis angle)
        (Vector3RotateByAxisAngle v axis angle) = Vector3Angle u v := by
  unfold Vector3Angle
  simp only
  rw [Vector3RotateByAxisAngle_cross, Vector3RotateByAxisAngle_length,
    Vector3RotateByAxisAngle_dot]

/-- C11: `CameraPitch` and the up vector.  With `rotateUp = false` the up vector is
unchanged.  With `rotateUp = true` the new up vector is the old one rotated about
`GetCameraRight` of the camera before the call by the effective angle `CameraPitchAngle`
(the angle itself without `lockView`, its clamp with `lockView`), the new view vector is
the old one rotated about the same axis by the same angle, and the angle between up and
the view vector is the same before and after. -/
theorem CameraPitch_up_vector (camera : raylib_camera) (angle : ℝ)
    (lockView rotateAroundTarget : Bool) :
    (CameraPitch camera angle lockView rotateAroundTarget false).up = camera.up ∧
    (CameraPitch camera angle lockView rotateAroundTarget true).up =
      Vector3RotateByAxisAngle camera.up (GetCameraRight camera)
        (CameraPitchAngle camera angle lockView) ∧
    Vector3Subtract (CameraPitch camera angle lockView rotateAroundTarget true).target
        (CameraPitch camera angle lockView rotateAroundTarget true).position =
      Vector3RotateByAxisAngle (Vector3Subtract camera.target camera.position)
        (GetCameraRight camera) (CameraPitchAngle camera angle lockView) ∧
    CameraPitchAngle camera angle false = angle ∧
    Vector3Angle (CameraPitch camera angle lockView rotateAroundTarget true).up
        (Vector3Subtract (CameraPitch camera angle lockView rotateAroundTarget true).target
          (CameraPitch camera angle lockView rotateAroundTarget true).position) =
      Vector3Angle camera.up (Vector3Subtract camera.target camera.position) := by
  refine ⟨?_, ?_, CameraPitch_view _ _ _ _ _, ?_, ?_⟩
  · rw [CameraPitch_up]
    rfl
  · rw [CameraPitch_up]
    rfl
  · simp [CameraPitchAngle]
  · rw [CameraPitch_view, CameraPitch_up, if_pos rfl, Vector3Angle_rotate]

/-- C12: `CameraRoll` rotates only up: position, target, fovy and projection are
unchanged, and the new up vector is the old one rotated about `GetCameraForward` by
`angle` radians. -/
theorem CameraRoll_frame (camera : raylib_camera) (angle : ℝ) :
    (CameraRoll camera angle).position = camera.position ∧
    (CameraRoll camera angle).target = camera.target ∧
    (CameraRoll camera angle).fovy = camera.fovy ∧
    (CameraRoll camera angle).projection = camera.projection ∧
    (CameraRoll camera angle).up =
      Vector3RotateByAxisAngle camera.up (GetCameraForward camera) angle := by
  simp [CameraRoll]

/-! ## The projection matrix -/

/-- C13: `GetCameraProjectionMatrix` dispatches on the projection: the perspective matrix
of `fovy * pi / 180` for `CAMERA_PERSPECTIVE` (0), the orthographic matrix with half
extents `(fovy / 2) * aspect` and `fovy / 2` for `CAMERA_ORTHOGRAPHIC` (1), and the
identity matrix for every other value. -/
theorem GetCameraProjectionMatrix_dispatch (camera : raylib_camera) (aspect : ℝ) :
    (camera.projection = 0 →
      GetCameraProjectionMatrix camera aspect =
        MatrixPerspective (camera.fovy * Real.pi / 180) aspect CAMERA_CULL_DISTANCE_NEAR
          CAMERA_CULL_DISTANCE_FAR) ∧
    (camera.projection = 1 →
      GetCameraProjectionMatrix camera aspect =
        MatrixOrtho (-(camera.fovy / 2) * aspect) (camera.fovy / 2 * aspect)
          (-(camera.fovy / 2)) (camera.fovy / 2) CAMERA_CULL_DISTANCE_NEAR
          CAMERA_CULL_DISTANCE_FAR) ∧
    (camera.projection ≠ 0 → camera.projection ≠ 1 →
      GetCameraProjectionMatrix camera aspect = MatrixIdentity) := by
  refine ⟨fun h => ?_, fun h => ?_, fun h0 h1 => ?_⟩
  · simp only [GetCameraProjectionMatrix, CAMERA_PERSPECTIVE, h, if_true, DEG2RAD, PI]
    rw [mul_div_assoc]
  · have hne : ¬ camera.projection = CAMERA_PERSPECTIVE := by
      rw [h]
      decide
    have heq : camera.projection = CAMERA_ORTHOGRAPHIC := h
    unfold GetCameraProjectionMatrix
    rw [if_neg hne, if_pos heq]
    norm_num
  · simp only [GetCameraProjectionMatrix, CAMERA_PERSPECTIVE, CAMERA_ORTHOGRAPHIC, if_neg h0,
      if_neg h1]

/-! ## The pro update is the composition of the primitives -/

/-- C15: `raylib_updatecamerapro` is the sequential composition of the locked pitch by
`-rotation.y * DEG2RAD` about the position, the yaw by `-rotation.x * DEG2RAD` about the
position, the roll by `rotation.z * DEG2RAD`, the world-plane moves forward by
`movement.x` and right by `movement.y`, the move up by `movement.z` and the move to the
target by `zoom`, in that order. -/
theorem raylib_updatecamerapro_composition (camera : raylib_camera)
    (movement rotation : raylib_vector3) (zoom : ℝ) :
    raylib_updatecamerapro camera movement rotation zoom =
      CameraMoveToTarget
        (CameraMoveUp
          (CameraMoveRight
            (CameraMoveForward
              (CameraRoll
                (CameraYaw
                  (CameraPitch camera (-rotation.y * DEG2RAD) true false false)
                  (-rotation.x * DEG2RAD) false)
                (rotation.z * DEG2RAD))
              movement.x true)
            movement.y true)
          movement.z)
        zoom := rfl

/-! ## Custom mode -/

/-- C17: custom mode is a no-op: for every camera and every input snapshot,
`raylib_updatecamera` in mode `CAMERA_CUSTOM` returns the camera unchanged. -/
theorem raylib_updatecamera_custom (camera : raylib_camera) (input : InputState) :
    raylib_updatecamera camera CAMERA_CUSTOM input = camera := by
  simp [raylib_updatecamera, raylib_updatecamera_motion, raylib_updatecamera_zoom,
    CAMERA_CUSTOM, CAMERA_THIRD_PERSON, CAMERA_ORBITAL, CAMERA_FREE]

/-! ## The pro update never orbits -/

theorem Vector3Add_scale_zero (p v : raylib_vector3) :
    Vector3Add p (Vector3Scale v 0) = p := by
  ext <;> simp [Vector3Add, Vector3Scale]

theorem CameraMoveForward_zero (camera : raylib_camera) (moveInWorldPlane : Bool) :
    CameraMoveForward camera 0 moveInWorldPlane = camera := by
  simp only [CameraMoveForward, Vector3Add_scale_zero]

theorem CameraMoveRight_zero (camera : raylib_camera) (moveInWorldPlane : Bool) :
    CameraMoveRight camera 0 moveInWorldPlane = camera := by
  simp only [CameraMoveRight, Vector3Add_scale_zero]

theorem CameraMoveUp_zero (camera : raylib_camera) : CameraMoveUp camera 0 = camera := by
  simp only [CameraMoveUp, Vector3Add_scale_zero]

theorem CameraMoveToTarget_zero_position (camera : raylib_camera) :
    (CameraMoveToTarget camera 0).position = camera.position := by
  by_cases hT : Vector3Subtract camera.target camera.position = Vector3Zero
  · have hx := congrArg raylib_vector3.x hT
    have hy := congrArg raylib_vector3.y hT
    have hz := congrArg raylib_vector3.z hT
    simp only [Vector3Subtract, Vector3Zero] at hx hy hz
    simp only [CameraMoveToTarget, GetCameraForward, hT, Vector3Normalize_zero,
      Vector3Scale_zero_left, Vector3Add_zero_right]
    ext <;> linarith
  · have hp : 0 < Vector3Length (Vector3Subtract camera.target camera.position) :=
      (Vector3Length_pos_iff _).2 hT
    simp only [CameraMoveToTarget, GetCameraForward, Vector3Distance_eq_length, add_zero,
      if_neg (not_le.2 hp), Vector3Normalize_eq_scale]
    generalize Vector3Length (Vector3Subtract camera.target camera.position) = L at hp
    ext <;> simp only [Vector3Add, Vector3Scale, Vector3Subtract] <;> field_simp <;> ring

theorem CameraMoveToTarget_zero (camera : raylib_camera) :
    CameraMoveToTarget camera 0 = camera := by
  have h := CameraMoveToTarget_zero_position camera
  ext1
  · exact h
  · rfl
  · rfl
  · rfl
  · rfl

theorem CameraPitch_position_of_pivot (camera : raylib_camera) (angle : ℝ)
    (lockView rotateUp : Bool) :
    (CameraPitch camera angle lockView false rotateUp).position = camera.position := by
  unfold CameraPitch
  cases rotateUp <;> simp

theorem CameraPitch_fovy_projection (camera : raylib_camera) (angle : ℝ)
    (lockView rotateAroundTarget rotateUp : Bool) :
    (CameraPitch camera angle lockView rotateAroundTarget rotateUp).fovy = camera.fovy ∧
      (CameraPitch camera angle lockView rotateAroundTarget rotateUp).projection =
        camera.projection := by
  unfold CameraPitch
  cases rotateAroundTarget <;> cases rotateUp <;> simp

theorem CameraYaw_position_of_pivot (camera : raylib_camera) (angle : ℝ) :
    (CameraYaw camera angle false).position = camera.position := by
  simp [CameraYaw]

theorem CameraYaw_fovy_projection (camera : raylib_camera) (angle : ℝ)
    (rotateAroundTarget : Bool) :
    (CameraYaw camera angle rotateAroundTarget).fovy = camera.fovy ∧
      (CameraYaw camera angle rotateAroundTarget).projection = camera.projection := by
  unfold CameraYaw
  cases rotateAroundTarget <;> simp

/-- C16: `raylib_updatecamerapro` never orbits: with movement `(0, 0, 0)` and zoom `0`
it leaves position unchanged, for every camera and every rotation vector (fovy and
projection are unchanged as well, so only target and up may change). -/
theorem raylib_updatecamerapro_position (camera : raylib_camera) (rotation : raylib_vector3) :
    (raylib_updatecamerapro camera ⟨0, 0, 0⟩ rotation 0).position = camera.position ∧
    (raylib_updatecamerapro camera ⟨0, 0, 0⟩ rotation 0).fovy = camera.fovy ∧
    (raylib_updatecamerapro camera ⟨0, 0, 0⟩ rotation 0).projection = camera.projection := by
  have h : raylib_updatecamerapro camera ⟨0, 0, 0⟩ rotation 0 =
      CameraRoll
        (CameraYaw (CameraPitch camera (-rotation.y * DEG2RAD) true false false)
          (-rotation.x * DEG2RAD) false)
        (rotation.z * DEG2RAD) := by
    simp only [raylib_updatecamerapro, CameraMoveToTarget_zero, CameraMoveUp_zero,
      CameraMoveRight_zero, CameraMoveForward_zero]
  rw [h]
  refine ⟨?_, ?_, ?_⟩
  · simp only [CameraRoll, CameraYaw_position_of_pivot, CameraPitch_position_of_pivot]
  · simp only [CameraRoll, (CameraYaw_fovy_projection _ _ _).1,
      (CameraPitch_fovy_projection _ _ _ _ _).1]
  · simp only [CameraRoll, (CameraYaw_fovy_projection _ _ _).2,
      (CameraPitch_fovy_projection _ _ _ _ _).2]

/-! ## The orthographic volume -/

/-- Witness of C13: an orthographic camera with `fovy = 10` at aspect `2`. -/
theorem GetCameraProjectionMatrix_dispatch_witness :
    orthoCamera.projection = 1 ∧
    GetCameraProjectionMatrix orthoCamera 2 =
      MatrixOrtho (-(orthoCamera.fovy / 2) * 2) (orthoCamera.fovy / 2 * 2)
        (-(orthoCamera.fovy / 2)) (orthoCamera.fovy / 2) CAMERA_CULL_DISTANCE_NEAR
        CAMERA_CULL_DISTANCE_FAR :=
  ⟨rfl, (GetCameraProjectionMatrix_dispatch orthoCamera 2).2.1 rfl⟩

/-- C14, the code at the failing input: for the orthographic camera with `fovy = 10` and
aspect `2` the projection is `MatrixOrtho(-10, 10, -5, 5, near, far)`; the horizontal
extent `right - left` is `20`, twice `fovy`, and it is the vertical extent `top - bottom`
that equals `fovy`. -/
theorem GetCameraProjectionMatrix_ortho_extent :
    orthoCamera.projection = CAMERA_ORTHOGRAPHIC ∧
    orthoCamera.fovy = 10 ∧
    GetCameraProjectionMatrix orthoCamera 2 =
      MatrixOrtho (-10) 10 (-5) 5 CAMERA_CULL_DISTANCE_NEAR CAMERA_CULL_DISTANCE_FAR ∧
    (10 : ℝ) - (-10) = 2 * orthoCamera.fovy ∧
    (5 : ℝ) - (-5) = orthoCamera.fovy ∧
    (10 : ℝ) - (-10) ≠ orthoCamera.fovy ∧
    (GetCameraProjectionMatrix orthoCamera 2).m0 = 2 / 20 := by
  have hm : GetCameraProjectionMatrix orthoCamera 2 =
      MatrixOrtho (-10) 10 (-5) 5 CAMERA_CULL_DISTANCE_NEAR CAMERA_CULL_DISTANCE_FAR := by
    simp only [GetCameraProjectionMatrix, orthoCamera, CAMERA_PERSPECTIVE, CAMERA_ORTHOGRAPHIC]
    norm_num
  refine ⟨rfl, rfl, hm, ?_, ?_, ?_, ?_⟩
  · simp only [orthoCamera]
    norm_num
  · simp only [orthoCamera]
    norm_num
  · simp only [orthoCamera]
    norm_num
  · rw [hm]
    simp only [MatrixOrtho]
    norm_num

/-! ## Orbital mode -/

/-- For a unit axis the matrix rotation is the Euler-Rodrigues rotation. -/
theorem Vector3Transform_MatrixRotate_unit {k : raylib_vector3}
    (hk : Vector3DotProduct k k = 1) (v : raylib_vector3) (angle : ℝ) :
    Vector3Transform v (MatrixRotate k angle) = Vector3RotateByAxisAngle v k angle := by
  rw [Vector3RotateByAxisAngle_eq_rotQ, Vector3Normalize_of_unit hk]
  have hc : Real.cos angle = 1 - 2 * Real.sin (angle / 2) ^ 2 := by
    have h := Real.cos_two_mul (angle / 2)
    rw [Real.cos_sq', mul_div_cancel₀ angle (two_ne_zero)] at h
    linarith
  have hs : Real.sin angle = 2 * Real.sin (angle / 2) * Real.cos (angle / 2) := by
    have h := Real.sin_two_mul (angle / 2)
    rwa [mul_div_cancel₀ angle (two_ne_zero)] at h
  simp only [Vector3DotProduct] at hk
  have hone : ¬ (k.x * k.x + k.y * k.y + k.z * k.z ≠ 1 ∧ k.x * k.x + k.y * k.y + k.z * k.z ≠ 0) :=
    fun h => h.1 hk
  simp only [MatrixRotate, if_neg hone, Vector3Transform, hc, hs]
  generalize Real.sin (angle / 2) = s
  generalize Real.cos (angle / 2) = c
  ext
  · simp only [rotQ, Vector3Add, Vector3Scale, Vector3CrossProduct]
    linear_combination (2 * s ^ 2 * v.x) * hk
  · simp only [rotQ, Vector3Add, Vector3Scale, Vector3CrossProduct]
    linear_combination (2 * s ^ 2 * v.y) * hk
  · simp only [rotQ, Vector3Add, Vector3Scale, Vector3CrossProduct]
    linear_combination (2 * s ^ 2 * v.z) * hk

/-- For the zero axis the matrix of `MatrixRotate` is the cosine of the angle times the
identity. -/
theorem Vector3Transform_MatrixRotate_zero (v : raylib_vector3) (angle : ℝ) :
    Vector3Transform v (MatrixRotate Vector3Zero angle) = Vector3Scale v (Real.cos angle) := by
  ext <;> simp [MatrixRotate, Vector3Transform, Vector3Zero, Vector3Scale] <;> ring

theorem raylib_updatecamera_motion_orbital (camera : raylib_camera) (input : InputState) :
    raylib_updatecamera_motion camera CAMERA_ORBITAL input =
      { camera with
        position := Vector3Add camera.target
          (Vector3Transform (Vector3Subtract camera.position camera.target)
            (MatrixRotate (GetCameraUp camera) (0.5 * input.raylib_getframetime))) } := by
  unfold raylib_updatecamera_motion
  lift_lets
  intros
  rw [if_neg (by decide), if_pos rfl]
  rfl

theorem raylib_updatecamera_zoom_idle (camera : raylib_camera) (mode : Int)
    (input : InputState) (hw : input.raylib_getmousewheelmove = 0)
    (hs : input.raylib_iskeypressed KEY_KP_SUBTRACT = false)
    (ha : input.raylib_iskeypressed KEY_KP_ADD = false) :
    raylib_updatecamera_zoom camera mode input = camera := by
  unfold raylib_updatecamera_zoom
  simp only [hw, hs, ha, neg_zero, CameraMoveToTarget_zero]
  simp

theorem raylib_updatecamera_orbital_eq (camera : raylib_camera) (input : InputState)
    (hw : input.raylib_getmousewheelmove = 0)
    (hs : input.raylib_iskeypressed KEY_KP_SUBTRACT = false)
    (ha : input.raylib_iskeypressed KEY_KP_ADD = false) :
    raylib_updatecamera camera CAMERA_ORBITAL input =
      { camera with
        position := Vector3Add camera.target
          (Vector3Transform (Vector3Subtract camera.position camera.target)
            (MatrixRotate (GetCameraUp camera) (0.5 * input.raylib_getframetime))) } := by
  unfold raylib_updatecamera
  rw [raylib_updatecamera_zoom_idle _ _ _ hw hs ha, raylib_updatecamera_motion_orbital]

theorem Vector3Length_subtract_comm (a b : raylib_vector3) :
    Vector3Length (Vector3Subtract a b) = Vector3Length (Vector3Subtract b a) := by
  apply Vector3Length_eq_of_dot_eq
  simp only [Vector3DotProduct, Vector3Subtract]
  ring

/-- C18, amended: in orbital mode, when the wheel delta is `0` and neither zoom key is
pressed, the result of `raylib_updatecamera` is a function of the camera and the frame
time alone (two snapshots with the same frame time give the same camera), target and up
are unchanged, and, for a camera whose up vector is not zero, `position - target` is
rotated about the normalised up vector by `0.5 * t` radians, so that the distance between
position and target is preserved. -/
theorem raylib_updatecamera_orbital (camera : raylib_camera) (input other : InputState)
    (hw : input.raylib_getmousewheelmove = 0)
    (hs : input.raylib_iskeypressed KEY_KP_SUBTRACT = false)
    (ha : input.raylib_iskeypressed KEY_KP_ADD = false)
    (hw2 : other.raylib_getmousewheelmove = 0)
    (hs2 : other.raylib_iskeypressed KEY_KP_SUBTRACT = false)
    (ha2 : other.raylib_iskeypressed KEY_KP_ADD = false)
    (ht : other.raylib_getframetime = input.raylib_getframetime) :
    raylib_updatecamera camera CAMERA_ORBITAL other =
      raylib_updatecamera camera CAMERA_ORBITAL input ∧
    (raylib_updatecamera camera CAMERA_ORBITAL input).target = camera.target ∧
    (raylib_updatecamera camera CAMERA_ORBITAL input).up = camera.up ∧
    (raylib_updatecamera camera CAMERA_ORBITAL input).fovy = camera.fovy ∧
    (raylib_updatecamera camera CAMERA_ORBITAL input).projection = camera.projection ∧
    (camera.up ≠ Vector3Zero →
      Vector3Subtract (raylib_updatecamera camera CAMERA_ORBITAL input).position
          (raylib_updatecamera camera CAMERA_ORBITAL input).target =
        Vector3RotateByAxisAngle (Vector3Subtract camera.position camera.target)
          (Vector3Normalize camera.up) (0.5 * input.raylib_getframetime) ∧
      Vector3Distance (raylib_updatecamera camera CAMERA_ORBITAL input).position
          (raylib_updatecamera camera CAMERA_ORBITAL input).target =
        Vector3Distance camera.position camera.target) := by
  rw [raylib_updatecamera_orbital_eq camera input hw hs ha,
    raylib_updatecamera_orbital_eq camera other hw2 hs2 ha2, ht]
  refine ⟨rfl, rfl, rfl, rfl, rfl, fun hup => ?_⟩
  have hk := GetCameraUp_dot_self hup
  simp only [Vector3Subtract_add_cancel, Vector3Distance_eq_length]
  rw [Vector3Length_subtract_comm, Vector3Subtract_add_cancel,
    Vector3Transform_MatrixRotate_unit hk, Vector3RotateByAxisAngle_length,
    Vector3Length_subtract_comm]
  exact ⟨rfl, rfl⟩

/-! ## The up vector under the mode update -/

theorem CameraPitch_up_of_not_rotateUp (camera : raylib_camera) (angle : ℝ)
    (lockView rotateAroundTarget : Bool) :
    (CameraPitch camera angle lockView rotateAroundTarget false).up = camera.up := by
  rw [CameraPitch_up]
  rfl

theorem CameraMoveForward_up (camera : raylib_camera) (distance : ℝ)
    (moveInWorldPlane : Bool) :
    (CameraMoveForward camera distance moveInWorldPlane).up = camera.up := rfl

theorem CameraMoveRight_up (camera : raylib_camera) (distance : ℝ)
    (moveInWorldPlane : Bool) :
    (CameraMoveRight camera distance moveInWorldPlane).up = camera.up := rfl

theorem CameraMoveUp_up (camera : raylib_camera) (distance : ℝ) :
    (CameraMoveUp camera distance).up = camera.up := rfl

theorem CameraMoveToTarget_up (camera : raylib_camera) (delta : ℝ) :
    (CameraMoveToTarget camera delta).up = camera.up := rfl

/-- When neither roll key is held, the rotation and movement part of the mode update
leaves the up vector unchanged, in every mode. -/
theorem raylib_updatecamera_motion_up (camera : raylib_camera) (mode : Int)
    (input : InputState) (hq : input.raylib_iskeydown KEY_Q = false)
    (he : input.raylib_iskeydown KEY_E = false) :
    (raylib_updatecamera_motion camera mode input).up = camera.up := by
  unfold raylib_updatecamera_motion
  lift_lets
  intro mpd miw rat lv ru rot view0 view1 c1 c2 c3 c4 c5 c6 c7 c8 c9 c10 c11 c12 c13 c14 c15
    c16 c17 c18 c19 c20 c21 c22
  have h1 : c1.up = camera.up := by
    simp only [c1, ru]
    split_ifs <;> simp only [CameraPitch_up_of_not_rotateUp]
  have h2 : c2.up = camera.up := by
    simp only [c2, ru]
    split_ifs <;> simp only [CameraPitch_up_of_not_rotateUp, h1]
  have h3 : c3.up = camera.up := by
    simp only [c3]
    split_ifs <;> simp only [CameraYaw_up, h2]
  have h4 : c4.up = camera.up := by
    simp only [c4]
    split_ifs <;> simp only [CameraYaw_up, h3]
  have h5 : c5.up = camera.up := by
    simp only [c5, hq]
    simpa using h4
  have h6 : c6.up = camera.up := by
    simp only [c6, he]
    simpa using h5
  have h7 : c7.up = camera.up := by
    simp only [c7]
    split_ifs <;> simp only [CameraMoveRight_up, h6]
  have h8 : c8.up = camera.up := by
    simp only [c8]
    split_ifs <;> simp only [CameraMoveRight_up, h7]
  have h9 : c9.up = camera.up := by
    simp only [c9]
    split_ifs <;> simp only [CameraMoveUp_up, h8]
  have h10 : c10.up = camera.up := by
    simp only [c10, CameraYaw_up, h6]
  have h11 : c11.up = camera.up := by
    simp only [c11, ru]
    split_ifs <;> simp only [CameraMoveUp_up, CameraPitch_up_of_not_rotateUp, h9, h10]
  have h12 : c12.up = camera.up := by
    simp only [c12]
    split_ifs <;> simp only [CameraMoveForward_up, h11]
  have h13 : c13.up = camera.up := by
    simp only [c13]
    split_ifs <;> simp only [CameraMoveRight_up, h12]
  have h14 : c14.up = camera.up := by
    simp only [c14]
    split_ifs <;> simp only [CameraMoveForward_up, h13]
  have h15 : c15.up = camera.up := by
    simp only [c15]
    split_ifs <;> simp only [CameraMoveRight_up, h14]
  have h16 : c16.up = camera.up := by
    simp only [c16, CameraYaw_up, h15]
  have h17 : c17.up = camera.up := by
    simp only [c17, ru, CameraPitch_up_of_not_rotateUp, h16]
  have h18 : c18.up = camera.up := by
    simp only [c18]
    split_ifs <;> simp only [CameraMoveForward_up, h17]
  have h19 : c19.up = camera.up := by
    simp only [c19]
    split_ifs <;> simp only [CameraMoveRight_up, h18]
  have h20 : c20.up = camera.up := by
    simp only [c20]
    split_ifs <;> simp only [CameraMoveForward_up, h19]
  have h21 : c21.up = camera.up := by
    simp only [c21]
    split_ifs <;> simp only [CameraMoveRight_up, h20, h15]
  have h22 : c22.up = camera.up := by
    simp only [c22]
    split_ifs <;> simp only [CameraMoveUp_up, h21]
  split_ifs <;> simp only [CameraMoveUp_up, h22, h21]

theorem raylib_updatecamera_zoom_up (camera : raylib_camera) (mode : Int)
    (input : InputState) : (raylib_updatecamera_zoom camera mode input).up = camera.up := by
  unfold raylib_updatecamera_zoom
  split_ifs <;> rfl

theorem raylib_updatecamera_up (camera : raylib_camera) (mode : Int) (input : InputState)
    (hq : input.raylib_iskeydown KEY_Q = false) (he : input.raylib_iskeydown KEY_E = false) :
    (raylib_updatecamera camera mode input).up = camera.up := by
  unfold raylib_updatecamera
  rw [raylib_updatecamera_zoom_up, raylib_updatecamera_motion_up camera mode input hq he]

theorem upZeroCamera_orbit_position :
    (raylib_updatecamera upZeroCamera CAMERA_ORBITAL halfTurnInput).position =
      upZeroCamera.target := by
  have hup : GetCameraUp upZeroCamera = Vector3Zero := Vector3Normalize_zero
  have hang : (0.5 : ℝ) * Real.pi = Real.pi / 2 := by ring
  rw [raylib_updatecamera_orbital_eq upZeroCamera halfTurnInput rfl rfl rfl]
  simp only [hup, Vector3Transform_MatrixRotate_zero]
  simp only [halfTurnInput, hang, Real.cos_pi_div_two, Vector3Add_scale_zero]

/-- C18, counterexample: the camera at `(0, 0, 1)` looking at the origin with the zero
vector as up, in orbital mode with frame time `pi`, no wheel movement and no zoom key: the
distance between position and target is `1` before the update and `0` after it, because
the rotation matrix about the zero axis is the cosine of the angle times the identity. -/
theorem raylib_updatecamera_orbital_zero_up :
    halfTurnInput.raylib_getmousewheelmove = 0 ∧
    halfTurnInput.raylib_iskeypressed KEY_KP_SUBTRACT = false ∧
    halfTurnInput.raylib_iskeypressed KEY_KP_ADD = false ∧
    Vector3Distance upZeroCamera.position upZeroCamera.target = 1 ∧
    Vector3Distance (raylib_updatecamera upZeroCamera CAMERA_ORBITAL halfTurnInput).position
      (raylib_updatecamera upZeroCamera CAMERA_ORBITAL halfTurnInput).target = 0 := by
  refine ⟨rfl, rfl, rfl, ?_, ?_⟩
  · simp [upZeroCamera, Vector3Distance]
  · have htarget : (raylib_updatecamera upZeroCamera CAMERA_ORBITAL halfTurnInput).target =
        upZeroCamera.target := by
      rw [raylib_updatecamera_orbital_eq upZeroCamera halfTurnInput rfl rfl rfl]
    rw [upZeroCamera_orbit_position, htarget]
    simp [upZeroCamera, Vector3Distance]

theorem unitCamera_up_ne_zero : unitCamera.up ≠ Vector3Zero := by
  simp [unitCamera, Vector3Zero]

/-- Witness of the amended C18: the camera at `(0, 0, 1)` looking at the origin with up
`(0, 1, 0)`, in orbital mode with frame time `pi`. -/
theorem raylib_updatecamera_orbital_witness :
    halfTurnInput.raylib_getmousewheelmove = 0 ∧
    halfTurnInput.raylib_iskeypressed KEY_KP_SUBTRACT = false ∧
    halfTurnInput.raylib_iskeypressed KEY_KP_ADD = false ∧
    unitCamera.up ≠ Vector3Zero ∧
    Vector3Distance (raylib_updatecamera unitCamera CAMERA_ORBITAL halfTurnInput).position
        (raylib_updatecamera unitCamera CAMERA_ORBITAL halfTurnInput).target =
      Vector3Distance unitCamera.position unitCamera.target :=
  ⟨rfl, rfl, rfl, unitCamera_up_ne_zero,
    ((raylib_updatecamera_orbital unitCamera halfTurnInput halfTurnInput rfl rfl rfl rfl rfl
      rfl rfl).2.2.2.2.2 unitCamera_up_ne_zero).2⟩

/-! ## Zoom input -/

theorem raylib_updatecamera_motion_zoom_input (camera : raylib_camera) (mode : Int)
    (input : InputState) (wheel : ℝ) (pressed : Int → Bool) :
    raylib_updatecamera_motion camera mode
        { input with raylib_getmousewheelmove := wheel, raylib_iskeypressed := pressed } =
      raylib_updatecamera_motion camera mode input := rfl

theorem raylib_updatecamera_zoom_of_mode (camera : raylib_camera) (mode : Int)
    (input : InputState) (h4 : mode ≠ CAMERA_THIRD_PERSON) (h2 : mode ≠ CAMERA_ORBITAL)
    (h1 : mode ≠ CAMERA_FREE) : raylib_updatecamera_zoom camera mode input = camera := by
  unfold raylib_updatecamera_zoom
  rw [if_neg]
  rintro (h | h | h)
  · exact h4 h
  · exact h2 h
  · exact h1 h

/-- C19: zoom input is honoured only in third person, orbital and free mode.  Replacing
the wheel delta and the pressed state of the keys in an input snapshot does not change the
result of `raylib_updatecamera` in `CAMERA_FIRST_PERSON` and `CAMERA_CUSTOM` mode; in the
other three modes the result is the rotation and movement part, which does not depend on
the wheel delta and the pressed keys, followed by `CameraMoveToTarget(-wheel)`, then
`CameraMoveToTarget(2)` if keypad-subtract is pressed, then `CameraMoveToTarget(-2)` if
keypad-add is pressed. -/
theorem raylib_updatecamera_zoom_modes (camera : raylib_camera) (input : InputState)
    (wheel : ℝ) (pressed : Int → Bool) :
    raylib_updatecamera camera CAMERA_FIRST_PERSON
        { input with raylib_getmousewheelmove := wheel, raylib_iskeypressed := pressed } =
      raylib_updatecamera camera CAMERA_FIRST_PERSON input ∧
    raylib_updatecamera camera CAMERA_CUSTOM
        { input with raylib_getmousewheelmove := wheel, raylib_iskeypressed := pressed } =
      raylib_updatecamera camera CAMERA_CUSTOM input ∧
    ∀ mode : Int, mode = CAMERA_THIRD_PERSON ∨ mode = CAMERA_ORBITAL ∨ mode = CAMERA_FREE →
      raylib_updatecamera camera mode
          { input with raylib_getmousewheelmove := wheel, raylib_iskeypressed := pressed } =
        zoomSteps (raylib_updatecamera_motion camera mode input) wheel
          (pressed KEY_KP_SUBTRACT) (pressed KEY_KP_ADD) := by
  refine ⟨?_, ?_, fun mode hmode => ?_⟩
  · unfold raylib_updatecamera
    rw [raylib_updatecamera_zoom_of_mode _ _ _ (by decide) (by decide) (by decide),
      raylib_updatecamera_zoom_of_mode _ _ _ (by decide) (by decide) (by decide),
      raylib_updatecamera_motion_zoom_input]
  · unfold raylib_updatecamera
    rw [raylib_updatecamera_zoom_of_mode _ _ _ (by decide) (by decide) (by decide),
      raylib_updatecamera_zoom_of_mode _ _ _ (by decide) (by decide) (by decide),
      raylib_updatecamera_motion_zoom_input]
  · unfold raylib_updatecamera
    rw [raylib_updatecamera_motion_zoom_input]
    unfold raylib_updatecamera_zoom
    rw [if_pos hmode]
    simp only [zoomSteps]
    norm_num

/-- Witness of C19: free mode, the camera at `(0, 0, 1)` looking at the origin, the idle
input with wheel delta `1` and every key pressed. -/
theorem raylib_updatecamera_zoom_modes_witness :
    (CAMERA_FREE = CAMERA_THIRD_PERSON ∨ CAMERA_FREE = CAMERA_ORBITAL ∨
      CAMERA_FREE = CAMERA_FREE) ∧
    raylib_updatecamera unitCamera CAMERA_FREE
        { idleInput with raylib_getmousewheelmove := 1, raylib_iskeypressed := fun _ => true } =
      zoomSteps (raylib_updatecamera_motion unitCamera CAMERA_FREE idleInput) 1 true true :=
  ⟨Or.inr (Or.inr rfl),
    (raylib_updatecamera_zoom_modes unitCamera idleInput 1 (fun _ => true)).2.2 CAMERA_FREE
      (Or.inr (Or.inr rfl))⟩

/-! ## Free mode does not rotate up -/

theorem unitCamera_up_view_angle :
    Vector3Angle (GetCameraUp unitCamera)
      (Vector3Subtract unitCamera.target unitCamera.position) = Real.pi / 2 := by
  have hz : (⟨0, 1⟩ : ℂ) = Complex.I := rfl
  simp [Vector3Angle, GetCameraUp, unitCamera, Vector3Normalize, Vector3Length,
    Vector3Subtract, Vector3CrossProduct, Vector3DotProduct, hz, Complex.arg_I]

theorem unitCamera_pitch_angle :
    CameraPitchAngle unitCamera CAMERA_ROTATION_SPEED true = 0.03 := by
  have hU : GetCameraUp unitCamera ≠ Vector3Zero := by
    simp [GetCameraUp, unitCamera, Vector3Normalize, Vector3Length, Vector3Zero]
  have hneg := Vector3Angle_negate_left hU
    (Vector3CrossProduct_ne_zero_right unitCamera_invariant.2)
  have hpi := Real.pi_gt_three
  unfold CameraPitchAngle
  simp only [if_true, hneg, unitCamera_up_view_angle, CAMERA_ROTATION_SPEED]
  have h1 : ¬ ((0.03 : ℝ) > Real.pi / 2 - 0.001) := by
    rw [gt_iff_lt, not_lt]
    linarith
  rw [if_neg h1, if_neg]
  rw [not_lt]
  linarith

theorem unitCamera_up_rotated :
    Vector3RotateByAxisAngle unitCamera.up (GetCameraRight unitCamera) 0.03 =
      ⟨0, Real.cos 0.03, Real.sin 0.03⟩ := by
  rw [unitCamera_right, Vector3RotateByAxisAngle_perp (by simp [Vector3DotProduct])
    (by simp [Vector3DotProduct, unitCamera])]
  simp [unitCamera, Vector3Add, Vector3Scale, Vector3CrossProduct]

/-- C20, counterexample: free mode, the camera at `(0, 0, 1)` looking at the origin with
up `(0, 1, 0)`, the cursor-up key and the middle mouse button held and everything else
idle.  The only `CameraPitch` performed is the keyboard pitch, whose effective angle is
`0.03`; the up vector after the update is still `(0, 1, 0)`, not the old up rotated about
Right by `0.03`, which is `(0, cos 0.03, sin 0.03)`. -/
theorem raylib_updatecamera_free_up_not_rotated :
    keyUpPanInput.raylib_iskeydown KEY_UP = true ∧
    CameraPitchAngle unitCamera CAMERA_ROTATION_SPEED true = 0.03 ∧
    (raylib_updatecamera unitCamera CAMERA_FREE keyUpPanInput).up = unitCamera.up ∧
    Vector3RotateByAxisAngle unitCamera.up (GetCameraRight unitCamera) 0.03 =
      ⟨0, Real.cos 0.03, Real.sin 0.03⟩ ∧
    (raylib_updatecamera unitCamera CAMERA_FREE keyUpPanInput).up ≠
      Vector3RotateByAxisAngle unitCamera.up (GetCameraRight unitCamera) 0.03 := by
  have hup := raylib_updatecamera_up unitCamera CAMERA_FREE keyUpPanInput rfl rfl
  refine ⟨rfl, unitCamera_pitch_angle, hup, unitCamera_up_rotated, ?_⟩
  rw [hup, unitCamera_up_rotated]
  intro h
  have hz := congrArg raylib_vector3.z h
  simp only [unitCamera] at hz
  have hpos : 0 < Real.sin 0.03 :=
    Real.sin_pos_of_pos_of_lt_pi (by norm_num) (by linarith [Real.pi_gt_three])
  linarith

/-- C20, amended: in every mode, free mode included, every `CameraPitch` performed by
`raylib_updatecamera` has `rotateUp = false` and leaves the up vector unchanged: for every
camera, mode and input snapshot in which neither roll key (`Q`, `E`) is held, the update
leaves the up vector of the camera unchanged. -/
theorem raylib_updatecamera_pitch_keeps_up (camera : raylib_camera) (mode : Int)
    (input : InputState) (hq : input.raylib_iskeydown KEY_Q = false)
    (he : input.raylib_iskeydown KEY_E = false) :
    (raylib_updatecamera camera mode input).up = camera.up :=
  raylib_updatecamera_up camera mode input hq he

/-- Witness of the amended C20: free mode with the cursor-up key and the middle mouse
button held. -/
theorem raylib_updatecamera_pitch_keeps_up_witness :
    keyUpPanInput.raylib_iskeydown KEY_Q = false ∧
    keyUpPanInput.raylib_iskeydown KEY_E = false ∧
    (raylib_updatecamera unitCamera CAMERA_FREE keyUpPanInput).up = unitCamera.up :=
  ⟨rfl, rfl, raylib_updatecamera_pitch_keeps_up unitCamera CAMERA_FREE keyUpPanInput rfl rfl⟩

/-! ## Pitch preserves the distance -/

theorem CameraPitch_target_of_orbit (camera : raylib_camera) (angle : ℝ)
    (lockView rotateUp : Bool) :
    (CameraPitch camera angle lockView true rotateUp).target = camera.target := by
  unfold CameraPitch
  cases rotateUp <;> simp

/-- C27: `CameraPitch` preserves the distance between position and target, for every
camera, every angle and every combination of `lockView`, `rotateAroundTarget` and
`rotateUp`; the pivot is respected: the target is unchanged when `rotateAroundTarget` is
true and the position is unchanged when it is false. -/
theorem CameraPitch_preserves_distance (camera : raylib_camera) (angle : ℝ)
    (lockView rotateAroundTarget rotateUp : Bool) :
    Vector3Distance (CameraPitch camera angle lockView rotateAroundTarget rotateUp).position
        (CameraPitch camera angle lockView rotateAroundTarget rotateUp).target =
      Vector3Distance camera.position camera.target ∧
    (CameraPitch camera angle lockView true rotateUp).target = camera.target ∧
    (CameraPitch camera angle lockView false rotateUp).position = camera.position := by
  refine ⟨?_, CameraPitch_target_of_orbit _ _ _ _, CameraPitch_position_of_pivot _ _ _ _⟩
  rw [Vector3Distance_eq_length, Vector3Distance_eq_length, CameraPitch_view,
    Vector3RotateByAxisAngle_length]

/-! ## Moves are additive -/

theorem GetCameraForward_congr {camera next : raylib_camera}
    (hview : Vector3Subtract next.target next.position =
      Vector3Subtract camera.target camera.position) :
    GetCameraForward next = GetCameraForward camera := by
  unfold GetCameraForward
  rw [hview]

theorem GetCameraUp_congr {camera next : raylib_camera} (hup : next.up = camera.up) :
    GetCameraUp next = GetCameraUp camera := by
  unfold GetCameraUp
  rw [hup]

theorem GetCameraRight_congr {camera next : raylib_camera} (hup : next.up = camera.up)
    (hview : Vector3Subtract next.target next.position =
      Vector3Subtract camera.target camera.position) :
    GetCameraRight next = GetCameraRight camera := by
  unfold GetCameraRight
  simp only
  rw [GetCameraForward_congr hview, GetCameraUp_congr hup]

theorem Vector3Add_add_scale (p v : raylib_vector3) (a b : ℝ) :
    Vector3Add (Vector3Add p (Vector3Scale v a)) (Vector3Scale v b) =
      Vector3Add p (Vector3Scale v (a + b)) := by
  ext <;> simp only [Vector3Add, Vector3Scale] <;> ring

theorem CameraMoveForward_add (camera : raylib_camera) (a b : ℝ) (moveInWorldPlane : Bool) :
    CameraMoveForward (CameraMoveForward camera a moveInWorldPlane) b moveInWorldPlane =
      CameraMoveForward camera (a + b) moveInWorldPlane := by
  have hf : GetCameraForward (CameraMoveForward camera a moveInWorldPlane) =
      GetCameraForward camera := GetCameraForward_congr (Vector3Subtract_add_add _ _ _)
  have hp : (CameraMoveForward camera a moveInWorldPlane).position =
      Vector3Add camera.position (Vector3Scale
        (if moveInWorldPlane then Vector3Normalize { GetCameraForward camera with y := 0 }
          else GetCameraForward camera) a) := rfl
  have ht : (CameraMoveForward camera a moveInWorldPlane).target =
      Vector3Add camera.target (Vector3Scale
        (if moveInWorldPlane then Vector3Normalize { GetCameraForward camera with y := 0 }
          else GetCameraForward camera) a) := rfl
  have hu : (CameraMoveForward camera a moveInWorldPlane).up = camera.up := rfl
  have hv : (CameraMoveForward camera a moveInWorldPlane).fovy = camera.fovy := rfl
  have hj : (CameraMoveForward camera a moveInWorldPlane).projection = camera.projection := rfl
  generalize CameraMoveForward camera a moveInWorldPlane = moved at hf hp ht hu hv hj
  unfold CameraMoveForward
  simp only [hf, hp, ht, hu, hv, hj, Vector3Add_add_scale]

theorem CameraMoveRight_add (camera : raylib_camera) (a b : ℝ) (moveInWorldPlane : Bool) :
    CameraMoveRight (CameraMoveRight camera a moveInWorldPlane) b moveInWorldPlane =
      CameraMoveRight camera (a + b) moveInWorldPlane := by
  have hf : GetCameraRight (CameraMoveRight camera a moveInWorldPlane) =
      GetCameraRight camera := GetCameraRight_congr rfl (Vector3Subtract_add_add _ _ _)
  have hp : (CameraMoveRight camera a moveInWorldPlane).position =
      Vector3Add camera.position (Vector3Scale
        (if moveInWorldPlane then Vector3Normalize { GetCameraRight camera with y := 0 }
          else GetCameraRight camera) a) := rfl
  have ht : (CameraMoveRight camera a moveInWorldPlane).target =
      Vector3Add camera.target (Vector3Scale
        (if moveInWorldPlane then Vector3Normalize { GetCameraRight camera with y := 0 }
          else GetCameraRight camera) a) := rfl
  have hu : (CameraMoveRight camera a moveInWorldPlane).up = camera.up := rfl
  have hv : (CameraMoveRight camera a moveInWorldPlane).fovy = camera.fovy := rfl
  have hj : (CameraMoveRight camera a moveInWorldPlane).projection = camera.projection := rfl
  generalize CameraMoveRight camera a moveInWorldPlane = moved at hf hp ht hu hv hj
  unfold CameraMoveRight
  simp only [hf, hp, ht, hu, hv, hj, Vector3Add_add_scale]

theorem CameraMoveUp_add (camera : raylib_camera) (a b : ℝ) :
    CameraMoveUp (CameraMoveUp camera a) b = CameraMoveUp camera (a + b) := by
  have hf : GetCameraUp (CameraMoveUp camera a) = GetCameraUp camera := GetCameraUp_congr rfl
  have hp : (CameraMoveUp camera a).position =
      Vector3Add camera.position (Vector3Scale (GetCameraUp camera) a) := rfl
  have ht : (CameraMoveUp camera a).target =
      Vector3Add camera.target (Vector3Scale (GetCameraUp camera) a) := rfl
  have hu : (CameraMoveUp camera a).up = camera.up := rfl
  have hv : (CameraMoveUp camera a).fovy = camera.fovy := rfl
  have hj : (CameraMoveUp camera a).projection = camera.projection := rfl
  generalize CameraMoveUp camera a = moved at hf hp ht hu hv hj
  unfold CameraMoveUp
  simp only [hf, hp, ht, hu, hv, hj, Vector3Add_add_scale]

/-- C29: the moves are additive and reversible: for every camera, distances `a` and `b`
and flag `w`, moving forward by `a` and then by `b` is moving forward by `a + b`, and
likewise for `CameraMoveRight` and `CameraMoveUp`; moving by `a` and then by `-a` gives
back the original camera, so position and target are restored. -/
theorem CameraMove_additive (camera : raylib_camera) (a b : ℝ) (w : Bool) :
    (CameraMoveForward (CameraMoveForward camera a w) b w = CameraMoveForward camera (a + b) w ∧
      CameraMoveRight (CameraMoveRight camera a w) b w = CameraMoveRight camera (a + b) w ∧
      CameraMoveUp (CameraMoveUp camera a) b = CameraMoveUp camera (a + b)) ∧
    (CameraMoveForward (CameraMoveForward camera a w) (-a) w = camera ∧
      CameraMoveRight (CameraMoveRight camera a w) (-a) w = camera ∧
      CameraMoveUp (CameraMoveUp camera a) (-a) = camera) := by
  refine ⟨⟨CameraMoveForward_add _ _ _ _, CameraMoveRight_add _ _ _ _, CameraMoveUp_add _ _ _⟩,
    ?_, ?_, ?_⟩
  · rw [CameraMoveForward_add, add_neg_cancel, CameraMoveForward_zero]
  · rw [CameraMoveRight_add, add_neg_cancel, CameraMoveRight_zero]
  · rw [CameraMoveUp_add, add_neg_cancel, CameraMoveUp_zero]

/-! ## Composition of rotations about one axis -/

/-- Rodrigues form of the rotation: with `n` the normalised axis, the rotated vector is
`v + sin angle * (n × v) + (1 - cos angle) * (n × (n × v))`. -/
theorem Vector3RotateByAxisAngle_rodrigues (v axis : raylib_vector3) (angle : ℝ) :
    Vector3RotateByAxisAngle v axis angle =
      Vector3Add
        (Vector3Add v
          (Vector3Scale (Vector3CrossProduct (Vector3Normalize axis) v) (Real.sin angle)))
        (Vector3Scale
          (Vector3CrossProduct (Vector3Normalize axis)
            (Vector3CrossProduct (Vector3Normalize axis) v)) (1 - Real.cos angle)) := by
  rw [Vector3RotateByAxisAngle_eq_rotQ]
  have hc : Real.cos angle = 1 - 2 * Real.sin (angle / 2) ^ 2 := by
    have h := Real.cos_two_mul (angle / 2)
    rw [Real.cos_sq', mul_div_cancel₀ angle (two_ne_zero)] at h
    linarith
  have hs : Real.sin angle = 2 * Real.sin (angle / 2) * Real.cos (angle / 2) := by
    have h := Real.sin_two_mul (angle / 2)
    rwa [mul_div_cancel₀ angle (two_ne_zero)] at h
  rw [hc, hs]
  ext <;> simp only [rotQ, Vector3Add, Vector3Scale, Vector3CrossProduct] <;> ring

theorem Vector3RotateByAxisAngle_zero_angle (v axis : raylib_vector3) :
    Vector3RotateByAxisAngle v axis 0 = v := by
  rw [Vector3RotateByAxisAngle_rodrigues]
  ext <;> simp [Vector3Add, Vector3Scale]

theorem Vector3Normalize_dot_self_cases (axis : raylib_vector3) :
    Vector3DotProduct (Vector3Normalize axis) (Vector3Normalize axis) = 1 ∨
      Vector3Normalize axis = Vector3Zero := by
  by_cases h : axis = Vector3Zero
  · right
    rw [h, Vector3Normalize_zero]
  · left
    exact Vector3DotProduct_normalize_self h

/-- Two rotations about the same axis compose to the rotation by the sum of the angles. -/
theorem Vector3RotateByAxisAngle_add (v axis : raylib_vector3) (a b : ℝ) :
    Vector3RotateByAxisAngle (Vector3RotateByAxisAngle v axis a) axis b =
      Vector3RotateByAxisAngle v axis (a + b) := by
  rw [Vector3RotateByAxisAngle_rodrigues v axis a, Vector3RotateByAxisAngle_rodrigues _ axis b,
    Vector3RotateByAxisAngle_rodrigues v axis (a + b), Real.sin_add, Real.cos_add]
  rcases Vector3Normalize_dot_self_cases axis with hn | hn
  · generalize Vector3Normalize axis = n at hn
    generalize Real.sin a = sa
    generalize Real.cos a = ca
    generalize Real.sin b = sb
    generalize Real.cos b = cb
    simp only [Vector3DotProduct] at hn
    ext
    · simp only [Vector3Add, Vector3Scale, Vector3CrossProduct]
      linear_combination
        (-((sb * (1 - ca) + sa * (1 - cb)) * (n.y * v.z - n.z * v.y) +
          (1 - ca) * (1 - cb) *
            (n.y * (n.x * v.y - n.y * v.x) - n.z * (n.z * v.x - n.x * v.z)))) * hn
    · simp only [Vector3Add, Vector3Scale, Vector3CrossProduct]
      linear_combination
        (-((sb * (1 - ca) + sa * (1 - cb)) * (n.z * v.x - n.x * v.z) +
          (1 - ca) * (1 - cb) *
            (n.z * (n.y * v.z - n.z * v.y) - n.x * (n.x * v.y - n.y * v.x)))) * hn
    · simp only [Vector3Add, Vector3Scale, Vector3CrossProduct]
      linear_combination
        (-((sb * (1 - ca) + sa * (1 - cb)) * (n.x * v.y - n.y * v.x) +
          (1 - ca) * (1 - cb) *
            (n.x * (n.z * v.x - n.x * v.z) - n.y * (n.y * v.z - n.z * v.y)))) * hn
  · rw [hn]
    ext <;> simp [Vector3Add, Vector3Scale, Vector3CrossProduct, Vector3Zero]

/-! ## Yaw is additive -/

theorem Vector3Add_subtract_cancel (p t : raylib_vector3) :
    Vector3Add p (Vector3Subtract t p) = t := by
  ext <;> simp [Vector3Add, Vector3Subtract]

theorem CameraYaw_zero (camera : raylib_camera) (rotateAroundTarget : Bool) :
    CameraYaw camera 0 rotateAroundTarget = camera := by
  unfold CameraYaw
  cases rotateAroundTarget <;>
    simp [Vector3RotateByAxisAngle_zero_angle, Vector3Add_subtract_cancel,
      Vector3Subtract_subtract_cancel]

theorem CameraYaw_add (camera : raylib_camera) (a b : ℝ) (rotateAroundTarget : Bool) :
    CameraYaw (CameraYaw camera a rotateAroundTarget) b rotateAroundTarget =
      CameraYaw camera (a + b) rotateAroundTarget := by
  have hview := CameraYaw_view camera a rotateAroundTarget
  have hup : GetCameraUp (CameraYaw camera a rotateAroundTarget) = GetCameraUp camera :=
    GetCameraUp_congr (CameraYaw_up camera a rotateAroundTarget)
  cases rotateAroundTarget with
  | false =>
    have hp : (CameraYaw camera a false).position = camera.position := by simp [CameraYaw]
    have hu : (CameraYaw camera a false).up = camera.up := by simp [CameraYaw]
    have hv : (CameraYaw camera a false).fovy = camera.fovy := by simp [CameraYaw]
    have hj : (CameraYaw camera a false).projection = camera.projection := by simp [CameraYaw]
    generalize CameraYaw camera a false = turned at hview hup hp hu hv hj
    rw [hp] at hview
    unfold CameraYaw
    simp [hview, hup, hp, hu, hv, hj, Vector3RotateByAxisAngle_add]
  | true =>
    have ht : (CameraYaw camera a true).target = camera.target := by simp [CameraYaw]
    have hu : (CameraYaw camera a true).up = camera.up := by simp [CameraYaw]
    have hv : (CameraYaw camera a true).fovy = camera.fovy := by simp [CameraYaw]
    have hj : (CameraYaw camera a true).projection = camera.projection := by simp [CameraYaw]
    generalize CameraYaw camera a true = turned at hview hup ht hu hv hj
    rw [ht] at hview
    unfold CameraYaw
    simp [hview, hup, ht, hu, hv, hj, Vector3RotateByAxisAngle_add]

/-- C28: yaw is additive: for every camera, angles `a` and `b` and either pivot,
`CameraYaw(a, r)` followed by `CameraYaw(b, r)` is `CameraYaw(a + b, r)`, and `CameraYaw(a,
r)` followed by `CameraYaw(-a, r)` gives back the original camera. -/
theorem CameraYaw_additive (camera : raylib_camera) (a b : ℝ) (rotateAroundTarget : Bool) :
    CameraYaw (CameraYaw camera a rotateAroundTarget) b rotateAroundTarget =
      CameraYaw camera (a + b) rotateAroundTarget ∧
    CameraYaw (CameraYaw camera a rotateAroundTarget) (-a) rotateAroundTarget = camera := by
  refine ⟨CameraYaw_add _ _ _ _, ?_⟩
  rw [CameraYaw_add, add_neg_cancel, CameraYaw_zero]

/-! ## A locked pitch by zero -/

theorem Vector3Angle_normalize_left_all (u v : raylib_vector3) :
    Vector3Angle (Vector3Normalize u) v = Vector3Angle u v := by
  by_cases h : u = Vector3Zero
  · rw [h, Vector3Normalize_zero]
  · exact Vector3Angle_normalize_left h v

/-- A pitch whose effective angle is zero and which does not rotate up leaves the camera
unchanged. -/
theorem CameraPitch_of_angle_eq_zero (camera : raylib_camera) (angle : ℝ)
    (lockView rotateAroundTarget : Bool) (h : CameraPitchAngle camera angle lockView = 0) :
    CameraPitch camera angle lockView rotateAroundTarget false = camera := by
  have hview := CameraPitch_view camera angle lockView rotateAroundTarget false
  rw [h, Vector3RotateByAxisAngle_zero_angle] at hview
  have hup := CameraPitch_up_of_not_rotateUp camera angle lockView rotateAroundTarget
  have hfp := CameraPitch_fovy_projection camera angle lockView rotateAroundTarget false
  cases rotateAroundTarget with
  | false =>
    have hp := CameraPitch_position_of_pivot camera angle lockView false
    have ht : (CameraPitch camera angle lockView false false).target = camera.target := by
      rw [← Vector3Add_subtract_cancel (CameraPitch camera angle lockView false false).position
        (CameraPitch camera angle lockView false false).target, hview, hp,
        Vector3Add_subtract_cancel]
    exact raylib_camera3d.ext hp ht hup hfp.1 hfp.2
  | true =>
    have ht := CameraPitch_target_of_orbit camera angle lockView false
    have hp : (CameraPitch camera angle lockView true false).position = camera.position := by
      rw [← Vector3Subtract_subtract_cancel (CameraPitch camera angle lockView true false).target
        (CameraPitch camera angle lockView true false).position, hview, ht,
        Vector3Subtract_subtract_cancel]
    exact raylib_camera3d.ext hp ht hup hfp.1 hfp.2

/-- The effective angle of a locked pitch by zero, in the three positions of the current
up/view angle relative to `[0.001, pi - 0.001]`. -/
theorem CameraPitchAngle_zero_locked (camera : raylib_camera)
    (h : Vector3CrossProduct camera.up (Vector3Subtract camera.target camera.position) ≠
      Vector3Zero) :
    (0.001 ≤ Vector3Angle camera.up (Vector3Subtract camera.target camera.position) →
      Vector3Angle camera.up (Vector3Subtract camera.target camera.position) ≤
        Real.pi - 0.001 →
      CameraPitchAngle camera 0 true = 0) ∧
    (Vector3Angle camera.up (Vector3Subtract camera.target camera.position) < 0.001 →
      CameraPitchAngle camera 0 true =
        Vector3Angle camera.up (Vector3Subtract camera.target camera.position) - 0.001) ∧
    (Real.pi - 0.001 < Vector3Angle camera.up (Vector3Subtract camera.target camera.position) →
      CameraPitchAngle camera 0 true =
        Vector3Angle camera.up (Vector3Subtract camera.target camera.position)
          - (Real.pi - 0.001)) := by
  have hU : GetCameraUp camera ≠ Vector3Zero := by
    have h1 := Vector3Length_normalize (Vector3CrossProduct_ne_zero_left h)
    intro h0
    rw [GetCameraUp] at h0
    rw [h0] at h1
    simp [Vector3Length, Vector3Zero] at h1
  have hT := Vector3CrossProduct_ne_zero_right h
  have hneg := Vector3Angle_negate_left hU hT
  have hnorm : Vector3Angle (GetCameraUp camera)
      (Vector3Subtract camera.target camera.position) =
      Vector3Angle camera.up (Vector3Subtract camera.target camera.position) :=
    Vector3Angle_normalize_left_all _ _
  have hpi := Real.pi_gt_three
  unfold CameraPitchAngle
  simp only [if_true, hneg, hnorm]
  generalize Vector3Angle camera.up (Vector3Subtract camera.target camera.position) = θ
  refine ⟨fun h1 h2 => ?_, fun h1 => ?_, fun h1 => ?_⟩
  · split_ifs <;> linarith
  · split_ifs <;> linarith
  · split_ifs <;> linarith

theorem CameraPitch_locked_angle_raw (camera : raylib_camera) (angle : ℝ)
    (rotateAroundTarget : Bool)
    (h : Vector3CrossProduct camera.up (Vector3Subtract camera.target camera.position) ≠
      Vector3Zero) :
    Vector3Angle (CameraPitch camera angle true rotateAroundTarget false).up
        (Vector3Subtract (CameraPitch camera angle true rotateAroundTarget false).target
          (CameraPitch camera angle true rotateAroundTarget false).position) =
      Vector3Angle camera.up (Vector3Subtract camera.target camera.position)
        - CameraPitchAngle camera angle true := by
  have hang := CameraPitch_locked_angle camera angle rotateAroundTarget h
  unfold GetCameraUp at hang
  rw [Vector3Angle_normalize_left_all, Vector3Angle_normalize_left_all] at hang
  rw [CameraPitch_up_of_not_rotateUp]
  exact hang

/-- C26: a locked pitch by zero is not always a no-op.  For a camera with position
different from target whose up and view vector are not parallel,
`CameraPitch(0, lockView = true, rotateAroundTarget = false, rotateUp = false)` leaves the
camera unchanged if and only if the angle between up and the view vector lies in
`[0.001, pi - 0.001]`; below that range the call moves the target (position, up, fovy and
projection are unchanged) so that the angle becomes exactly `0.001`, above it so that the
angle becomes exactly `pi - 0.001`. -/
theorem CameraPitch_zero_locked (camera : raylib_camera)
    (_hpos : camera.position ≠ camera.target)
    (hpar : Vector3CrossProduct camera.up
      (Vector3Subtract camera.target camera.position) ≠ Vector3Zero) :
    (CameraPitch camera 0 true false false = camera ↔
      0.001 ≤ Vector3Angle camera.up (Vector3Subtract camera.target camera.position) ∧
        Vector3Angle camera.up (Vector3Subtract camera.target camera.position) ≤
          Real.pi - 0.001) ∧
    (Vector3Angle camera.up (Vector3Subtract camera.target camera.position) < 0.001 →
      Vector3Angle (CameraPitch camera 0 true false false).up
        (Vector3Subtract (CameraPitch camera 0 true false false).target
          (CameraPitch camera 0 true false false).position) = 0.001) ∧
    (Real.pi - 0.001 < Vector3Angle camera.up (Vector3Subtract camera.target camera.position) →
      Vector3Angle (CameraPitch camera 0 true false false).up
        (Vector3Subtract (CameraPitch camera 0 true false false).target
          (CameraPitch camera 0 true false false).position) = Real.pi - 0.001) ∧
    (CameraPitch camera 0 true false false).position = camera.position ∧
    (CameraPitch camera 0 true false false).up = camera.up ∧
    (CameraPitch camera 0 true false false).fovy = camera.fovy ∧
    (CameraPitch camera 0 true false false).projection = camera.projection := by
  obtain ⟨hin, hlow, hhigh⟩ := CameraPitchAngle_zero_locked camera hpar
  have hang := CameraPitch_locked_angle_raw camera 0 false hpar
  have hbelow : Vector3Angle camera.up (Vector3Subtract camera.target camera.position) <
      0.001 →
      Vector3Angle (CameraPitch camera 0 true false false).up
        (Vector3Subtract (CameraPitch camera 0 true false false).target
          (CameraPitch camera 0 true false false).position) = 0.001 := by
    intro h
    rw [hang, hlow h]
    ring
  have habove : Real.pi - 0.001 <
      Vector3Angle camera.up (Vector3Subtract camera.target camera.position) →
      Vector3Angle (CameraPitch camera 0 true false false).up
        (Vector3Subtract (CameraPitch camera 0 true false false).target
          (CameraPitch camera 0 true false false).position) = Real.pi - 0.001 := by
    intro h
    rw [hang, hhigh h]
    ring
  refine ⟨⟨fun heq => ?_, fun hr => ?_⟩, hbelow, habove,
    CameraPitch_position_of_pivot _ _ _ _, CameraPitch_up_of_not_rotateUp _ _ _ _,
    (CameraPitch_fovy_projection _ _ _ _ _).1, (CameraPitch_fovy_projection _ _ _ _ _).2⟩
  · constructor
    · by_contra hlt
      have h1 := hbelow (not_le.1 hlt)
      rw [heq] at h1
      exact hlt h1.ge
    · by_contra hlt
      have h1 := habove (not_le.1 hlt)
      rw [heq] at h1
      exact hlt h1.le
  · exact CameraPitch_of_angle_eq_zero camera 0 true false (hin hr.1 hr.2)

/-- Witness of C26: the camera at `(0, 0, 1)` looking at the origin with up `(0, 1, 0)`,
whose up/view angle is `pi / 2`, is left unchanged by the locked pitch by zero. -/
theorem CameraPitch_zero_locked_witness :
    unitCamera.position ≠ unitCamera.target ∧
    Vector3CrossProduct unitCamera.up
      (Vector3Subtract unitCamera.target unitCamera.position) ≠ Vector3Zero ∧
    (CameraPitch unitCamera 0 true false false = unitCamera ↔
      0.001 ≤ Vector3Angle unitCamera.up
          (Vector3Subtract unitCamera.target unitCamera.position) ∧
        Vector3Angle unitCamera.up (Vector3Subtract unitCamera.target unitCamera.position) ≤
          Real.pi - 0.001) :=
  ⟨unitCamera_invariant.1, unitCamera_invariant.2,
    (CameraPitch_zero_locked unitCamera unitCamera_invariant.1 unitCamera_invariant.2).1⟩

/-! ## Free-mode pan -/

theorem CameraMoveRight_pan (camera : raylib_camera) (dx : ℝ) (w : Bool) :
    (if dx < 0.0 then
        CameraMoveRight (if dx > 0.0 then CameraMoveRight camera CAMERA_PAN_SPEED w else camera)
          (-CAMERA_PAN_SPEED) w
      else if dx > 0.0 then CameraMoveRight camera CAMERA_PAN_SPEED w else camera) =
      CameraMoveRight camera (0.2 * Real.sign dx) w := by
  rcases lt_trichotomy dx 0 with h | h | h
  · have h2 : ¬ dx > 0.0 := by norm_num; exact h.le
    have h1 : dx < 0.0 := by norm_num; exact h
    rw [if_pos h1, if_neg h2, Real.sign_of_neg h, CAMERA_PAN_SPEED]
    norm_num
  · subst h
    norm_num [CameraMoveRight_zero]
  · have h2 : dx > 0.0 := by norm_num; exact h
    have h1 : ¬ dx < 0.0 := by norm_num; exact h.le
    rw [if_neg h1, if_pos h2, Real.sign_of_pos h, CAMERA_PAN_SPEED]
    norm_num

theorem CameraMoveUp_pan (camera : raylib_camera) (dy : ℝ) :
    (if dy < 0.0 then
        CameraMoveUp (if dy > 0.0 then CameraMoveUp camera (-CAMERA_PAN_SPEED) else camera)
          CAMERA_PAN_SPEED
      else if dy > 0.0 then CameraMoveUp camera (-CAMERA_PAN_SPEED) else camera) =
      CameraMoveUp camera (-0.2 * Real.sign dy) := by
  rcases lt_trichotomy dy 0 with h | h | h
  · have h2 : ¬ dy > 0.0 := by norm_num; exact h.le
    have h1 : dy < 0.0 := by norm_num; exact h
    rw [if_pos h1, if_neg h2, Real.sign_of_neg h, CAMERA_PAN_SPEED]
    norm_num
  · subst h
    norm_num [CameraMoveUp_zero]
  · have h2 : dy > 0.0 := by norm_num; exact h
    have h1 : ¬ dy < 0.0 := by norm_num; exact h.le
    rw [if_neg h1, if_pos h2, Real.sign_of_pos h, CAMERA_PAN_SPEED]
    norm_num

/-- In free mode with the middle mouse button held, no key held and no gamepad, the
rotation and movement part of the mode update is the pan: a move right followed by a move
up, each by the pan speed times the sign of the mouse delta. -/
theorem raylib_updatecamera_motion_pan (camera : raylib_camera) (input : InputState)
    (hmid : input.raylib_ismousebuttondown MOUSE_BUTTON_MIDDLE = true)
    (hkeys : ∀ key, input.raylib_iskeydown key = false)
    (hpad : input.raylib_isgamepadavailable 0 = false) :
    raylib_updatecamera_motion camera CAMERA_FREE input =
      CameraMoveUp
        (CameraMoveRight camera (0.2 * Real.sign input.raylib_getmousedelta.x) false)
        (-0.2 * Real.sign input.raylib_getmousedelta.y) := by
  rw [← CameraMoveUp_pan, ← CameraMoveRight_pan]
  unfold raylib_updatecamera_motion
  lift_lets
  intro mpd miw rat lv ru rot view0 view1 c1 c2 c3 c4 c5 c6 c7 c8 c9 c10 c11 c12 c13 c14 c15
    c16 c17 c18 c19 c20 c21 c22
  have hmiw : miw = false := by decide
  have e1 : c1 = camera := by simp only [c1, hkeys]; simp
  have e2 : c2 = camera := by simp only [c2, hkeys, e1]; simp
  have e3 : c3 = camera := by simp only [c3, hkeys, e2]; simp
  have e4 : c4 = camera := by simp only [c4, hkeys, e3]; simp
  have e5 : c5 = camera := by simp only [c5, hkeys, e4]; simp
  have e6 : c6 = camera := by simp only [c6, hkeys, e5]; simp
  have e7 : c7 = if mpd.x > 0.0 then CameraMoveRight camera CAMERA_PAN_SPEED false
      else camera := by
    simp only [c7, e6, hmiw]
  have e8 : c8 = if mpd.x < 0.0 then CameraMoveRight c7 (-CAMERA_PAN_SPEED) false
      else c7 := by
    simp only [c8, hmiw]
  have e9 : c9 = if mpd.y > 0.0 then CameraMoveUp c8 (-CAMERA_PAN_SPEED) else c8 := rfl
  have e11 : c11 = if mpd.y < 0.0 then CameraMoveUp c9 CAMERA_PAN_SPEED else c9 := by
    simp only [c11, hmid]
    simp [CAMERA_FREE]
  have e12 : c12 = c11 := by simp only [c12, hkeys]; simp
  have e13 : c13 = c11 := by simp only [c13, hkeys, e12]; simp
  have e14 : c14 = c11 := by simp only [c14, hkeys, e13]; simp
  have e15 : c15 = c11 := by simp only [c15, hkeys, e14]; simp
  have e21 : c21 = c11 := by simp only [c21, hpad, e15]; simp
  have e22 : c22 = c11 := by simp only [c22, hkeys, e21]; simp
  rw [if_neg (by decide), if_neg (by decide), if_pos rfl]
  simp only [hkeys, e22, Bool.false_eq_true, if_false]
  rw [e11, e9, e8, e7]

theorem raylib_updatecamera_not_pressed (input : InputState)
    (hkeys : ∀ key, input.raylib_iskeydown key = false)
    (hcons : ∀ key, input.raylib_iskeypressed key = true → input.raylib_iskeydown key = true)
    (key : Int) : input.raylib_iskeypressed key = false := by
  cases h : input.raylib_iskeypressed key with
  | false => rfl
  | true =>
    have h1 := hcons key h
    rw [hkeys key] at h1
    exact absurd h1 (by decide)

/-- C21: free-mode pan replaces mouse rotation.  In free mode with the middle mouse button
held, no key held (and so none pressed), no gamepad available and zero wheel delta, the
update translates position and target by `0.2 * sign(dx)` along `GetCameraRight` and then
by `-0.2 * sign(dy)` along `GetCameraUp` of the camera before the call, whatever the
magnitude of the mouse delta `(dx, dy)`, and leaves `target - position`, up, fovy and
projection unchanged. -/
theorem raylib_updatecamera_free_pan (camera : raylib_camera) (input : InputState)
    (hmid : input.raylib_ismousebuttondown MOUSE_BUTTON_MIDDLE = true)
    (hkeys : ∀ key, input.raylib_iskeydown key = false)
    (hcons : ∀ key, input.raylib_iskeypressed key = true → input.raylib_iskeydown key = true)
    (hpad : input.raylib_isgamepadavailable 0 = false)
    (hwheel : input.raylib_getmousewheelmove = 0) :
    (raylib_updatecamera camera CAMERA_FREE input).position =
      Vector3Add
        (Vector3Add camera.position
          (Vector3Scale (GetCameraRight camera) (0.2 * Real.sign input.raylib_getmousedelta.x)))
        (Vector3Scale (GetCameraUp camera) (-0.2 * Real.sign input.raylib_getmousedelta.y)) ∧
    (raylib_updatecamera camera CAMERA_FREE input).target =
      Vector3Add
        (Vector3Add camera.target
          (Vector3Scale (GetCameraRight camera) (0.2 * Real.sign input.raylib_getmousedelta.x)))
        (Vector3Scale (GetCameraUp camera) (-0.2 * Real.sign input.raylib_getmousedelta.y)) ∧
    Vector3Subtract (raylib_updatecamera camera CAMERA_FREE input).target
        (raylib_updatecamera camera CAMERA_FREE input).position =
      Vector3Subtract camera.target camera.position ∧
    (raylib_updatecamera camera CAMERA_FREE input).up = camera.up ∧
    (raylib_updatecamera camera CAMERA_FREE input).fovy = camera.fovy ∧
    (raylib_updatecamera camera CAMERA_FREE input).projection = camera.projection := by
  have hres : raylib_updatecamera camera CAMERA_FREE input =
      CameraMoveUp
        (CameraMoveRight camera (0.2 * Real.sign input.raylib_getmousedelta.x) false)
        (-0.2 * Real.sign input.raylib_getmousedelta.y) := by
    unfold raylib_updatecamera
    rw [raylib_updatecamera_zoom_idle _ _ _ hwheel
      (raylib_updatecamera_not_pressed input hkeys hcons _)
      (raylib_updatecamera_not_pressed input hkeys hcons _),
      raylib_updatecamera_motion_pan camera input hmid hkeys hpad]
  rw [hres]
  refine ⟨rfl, rfl, ?_, rfl, rfl, rfl⟩
  simp only [CameraMoveUp, CameraMoveRight, Vector3Subtract_add_add]

/-- Witness of C21: the camera at `(0, 0, 1)` looking at the origin, the middle mouse
button held and the mouse delta `(3, -5)`. -/
theorem raylib_updatecamera_free_pan_witness :
    panInput.raylib_ismousebuttondown MOUSE_BUTTON_MIDDLE = true ∧
    (∀ key, panInput.raylib_iskeydown key = false) ∧
    (∀ key, panInput.raylib_iskeypressed key = true → panInput.raylib_iskeydown key = true) ∧
    panInput.raylib_isgamepadavailable 0 = false ∧
    panInput.raylib_getmousewheelmove = 0 ∧
    (raylib_updatecamera unitCamera CAMERA_FREE panInput).position =
      Vector3Add
        (Vector3Add unitCamera.position
          (Vector3Scale (GetCameraRight unitCamera)
            (0.2 * Real.sign panInput.raylib_getmousedelta.x)))
        (Vector3Scale (GetCameraUp unitCamera)
          (-0.2 * Real.sign panInput.raylib_getmousedelta.y)) :=
  ⟨rfl, fun _ => rfl, fun _ h => Bool.noConfusion h, rfl, rfl,
    (raylib_updatecamera_free_pan unitCamera panInput rfl (fun _ => rfl)
      (fun _ h => Bool.noConfusion h) rfl rfl).1⟩

/-! ## Gamepad sticks -/

/-- C25, the code at the failing input: with `frameCount = 3`, three passes of the loop
of `models_animation.c` from counter `0` pass the frames `1, 2, 3` to
`RL_UpdateModelAnimation`; the last one equals `frameCount`, it is not below it.  The
same passes of `models_gpu_skinning.c` pass `1, 2, 0`, all inside the clip. -/
theorem models_animation_frame_out_of_range :
    models_animation_frames 3 3 0 = [1, 2, 3] ∧
    ¬ ((3 : Int) < 3) ∧
    (models_animation_step 1 0).1 = 1 ∧
    models_gpu_skinning_frames 3 3 0 = [1, 2, 0] := by
  decide

/-! ## Skeleton and clip validity -/

theorem raylib_ismodelanimationvalid_iff (model : raylib_model)
    (anim : raylib_modelanimation) :
    raylib_ismodelanimationvalid model anim = true ↔
      model.boneCount = anim.boneCount ∧
        ∀ i, i < model.boneCount.toNat →
          ∃ a b, model.bones[i]? = some a ∧ anim.bones[i]? = some b ∧
            a.name = b.name ∧ a.parent = b.parent := by
  unfold raylib_ismodelanimationvalid
  rw [Bool.and_eq_true, List.all_eq_true]
  constructor
  · rintro ⟨hc, hall⟩
    refine ⟨by simpa using hc, fun i hi => ?_⟩
    have h := hall i (List.mem_range.2 hi)
    cases ha : model.bones[i]? with
    | none => simp [ha] at h
    | some a =>
      cases hb : anim.bones[i]? with
      | none => simp [ha, hb] at h
      | some b =>
        simp only [ha, hb, Bool.and_eq_true, beq_iff_eq] at h
        exact ⟨a, b, rfl, rfl, h.1, h.2⟩
  · rintro ⟨hc, hall⟩
    refine ⟨by simpa using hc, fun i hi => ?_⟩
    obtain ⟨a, b, ha, hb, hn, hp⟩ := hall i (List.mem_range.1 hi)
    simp [ha, hb, hn, hp]

/-- C24: the validity query.  When the bone count of the clip differs from the bone count
of the model, or the parents of the bones differ at some index below the bone count,
`raylib_ismodelanimationvalid` returns false; when it returns true the counts are equal
and at every index below the bone count the two bones have the same parent (and the same
name). -/
theorem raylib_ismodelanimationvalid_spec (model : raylib_model)
    (anim : raylib_modelanimation) :
    (model.boneCount ≠ anim.boneCount → raylib_ismodelanimationvalid model anim = false) ∧
    (∀ i a b, i < model.boneCount.toNat → model.bones[i]? = some a →
      anim.bones[i]? = some b → a.parent ≠ b.parent →
      raylib_ismodelanimationvalid model anim = false) ∧
    (raylib_ismodelanimationvalid model anim = true →
      model.boneCount = anim.boneCount ∧
        ∀ i, i < model.boneCount.toNat →
          ∃ a b, model.bones[i]? = some a ∧ anim.bones[i]? = some b ∧
            a.parent = b.parent ∧ a.name = b.name) := by
  refine ⟨fun hne => ?_, fun i a b hi ha hb hne => ?_, fun hv => ?_⟩
  · cases hv : raylib_ismodelanimationvalid model anim with
    | false => rfl
    | true => exact absurd ((raylib_ismodelanimationvalid_iff model anim).1 hv).1 hne
  · cases hv : raylib_ismodelanimationvalid model anim with
    | false => rfl
    | true =>
      obtain ⟨a2, b2, ha2, hb2, _, hp⟩ :=
        ((raylib_ismodelanimationvalid_iff model anim).1 hv).2 i hi
      rw [ha] at ha2
      rw [hb] at hb2
      cases ha2
      cases hb2
      exact absurd hp hne
  · obtain ⟨hc, hall⟩ := (raylib_ismodelanimationvalid_iff model anim).1 hv
    refine ⟨hc, fun i hi => ?_⟩
    obtain ⟨a, b, ha, hb, hn, hp⟩ := hall i hi
    exact ⟨a, b, ha, hb, hp, hn⟩

/-- Witness of C24: the two-bone model against a clip with three bones. -/
theorem raylib_ismodelanimationvalid_spec_witness :
    chainModel.boneCount ≠ longClip.boneCount ∧
    raylib_ismodelanimationvalid chainModel longClip = false :=
  ⟨by decide, (raylib_ismodelanimationvalid_spec chainModel longClip).1 (by decide)⟩

/-! ## Parent chains of a skeleton -/

theorem reachesRoot_lt_length (bones : List raylib_boneinfo) (fuel bone : Nat)
    (h : reachesRoot bones fuel bone = true) : bone < bones.length := by
  cases fuel with
  | zero => simp [reachesRoot] at h
  | succ f =>
    by_contra hlt
    have hnone : bones[bone]? = none := List.getElem?_eq_none (Nat.le_of_not_lt hlt)
    simp [reachesRoot, hnone] at h

theorem reachesRoot_succ (bones : List raylib_boneinfo) :
    ∀ fuel bone, reachesRoot bones fuel bone = true →
      reachesRoot bones (fuel + 1) bone = true := by
  intro fuel
  induction fuel with
  | zero => intro bone h; simp [reachesRoot] at h
  | succ f ih =>
    intro bone h
    rw [reachesRoot] at h ⊢
    cases hb : bones[bone]? with
    | none => simp [hb] at h
    | some info =>
      simp only [hb] at h ⊢
      by_cases hp : info.parent < 0
      · simp [hp]
      · simp only [hp, if_false] at h ⊢
        exact ih _ h

theorem reachesRoot_mono (bones : List raylib_boneinfo) (bone : Nat) :
    ∀ f g, f ≤ g → reachesRoot bones f bone = true → reachesRoot bones g bone = true := by
  intro f g hfg h
  induction hfg with
  | refl => exact h
  | step _ ih => exact reachesRoot_succ bones _ bone ih

theorem reachesRoot_exact (bones : List raylib_boneinfo) :
    ∀ fuel bone, reachesRoot bones fuel bone = true →
      ∃ d, d ≤ fuel ∧ reachesRoot bones d bone = true ∧
        reachesRoot bones (d - 1) bone = false := by
  intro fuel
  induction fuel with
  | zero => intro bone h; simp [reachesRoot] at h
  | succ f ih =>
    intro bone h
    cases hf : reachesRoot bones f bone with
    | true =>
      obtain ⟨d, hd, h1, h2⟩ := ih bone hf
      exact ⟨d, Nat.le_succ_of_le hd, h1, h2⟩
    | false => exact ⟨f + 1, le_refl _, h, by simpa using hf⟩

theorem reachesRoot_exact_unique (bones : List raylib_boneinfo) (bone d e : Nat)
    (hd : reachesRoot bones d bone = true) (hd0 : reachesRoot bones (d - 1) bone = false)
    (he : reachesRoot bones e bone = true) (he0 : reachesRoot bones (e - 1) bone = false) :
    d = e := by
  have hd1 : 1 ≤ d := by
    cases d with
    | zero => simp [reachesRoot] at hd
    | succ _ => omega
  have he1 : 1 ≤ e := by
    cases e with
    | zero => simp [reachesRoot] at he
    | succ _ => omega
  by_contra hne
  rcases Nat.lt_or_gt_of_ne hne with hlt | hgt
  · have := reachesRoot_mono bones bone d (e - 1) (by omega) hd
    rw [this] at he0
    exact Bool.noConfusion he0
  · have := reachesRoot_mono bones bone e (d - 1) (by omega) he
    rw [this] at hd0
    exact Bool.noConfusion hd0

theorem reachesRoot_exact_step (bones : List raylib_boneinfo) (bone d : Nat)
    (hd : reachesRoot bones (d + 2) bone = true)
    (hd0 : reachesRoot bones (d + 1) bone = false) :
    ∃ b, reachesRoot bones (d + 1) b = true ∧ reachesRoot bones d b = false := by
  rw [reachesRoot] at hd hd0
  cases hb : bones[bone]? with
  | none => simp [hb] at hd
  | some info =>
    simp only [hb] at hd hd0
    by_cases hp : info.parent < 0
    · simp [hp] at hd0
    · simp only [hp, if_false] at hd hd0
      exact ⟨info.parent.toNat, hd, hd0⟩

theorem reachesRoot_exact_below (bones : List raylib_boneinfo) :
    ∀ d bone, reachesRoot bones (d + 1) bone = true → reachesRoot bones d bone = false →
      ∀ k, k ≤ d → ∃ b, reachesRoot bones (k + 1) b = true ∧ reachesRoot bones k b = false := by
  intro d
  induction d with
  | zero =>
    intro bone h1 h0 k hk
    have : k = 0 := by omega
    subst this
    exact ⟨bone, h1, h0⟩
  | succ d ih =>
    intro bone h1 h0 k hk
    by_cases hkd : k = d + 1
    · subst hkd
      exact ⟨bone, h1, h0⟩
    · obtain ⟨b, hb1, hb0⟩ := reachesRoot_exact_step bones bone d h1 h0
      exact ih b hb1 hb0 k (by omega)

theorem reachesRoot_depth_le (bones : List raylib_boneinfo) (d bone : Nat)
    (h1 : reachesRoot bones (d + 1) bone = true) (h0 : reachesRoot bones d bone = false) :
    d + 1 ≤ bones.length := by
  have hall : ∀ k, ∃ b, k ≤ d →
      reachesRoot bones (k + 1) b = true ∧ reachesRoot bones k b = false := by
    intro k
    by_cases hk : k ≤ d
    · obtain ⟨b, hb⟩ := reachesRoot_exact_below bones d bone h1 h0 k hk
      exact ⟨b, fun _ => hb⟩
    · exact ⟨0, fun h => absurd h hk⟩
  choose g hg using hall
  have hcard : (Finset.range (d + 1)).card ≤ (Finset.range bones.length).card := by
    apply Finset.card_le_card_of_injOn g
    · intro k hk
      have hk2 : k ≤ d := Nat.lt_succ_iff.1 (Finset.mem_range.1 hk)
      exact Finset.mem_coe.2 (Finset.mem_range.2
        (reachesRoot_lt_length bones (k + 1) (g k) (hg k hk2).1))
    · intro a ha b hb hab
      have ha2 : a ≤ d := Nat.lt_succ_iff.1 (Finset.mem_range.1 (Finset.mem_coe.1 ha))
      have hb2 : b ≤ d := Nat.lt_succ_iff.1 (Finset.mem_range.1 (Finset.mem_coe.1 hb))
      have e1 := hg a ha2
      have e2 := hg b hb2
      rw [hab] at e1
      have := reachesRoot_exact_unique bones (g b) (a + 1) (b + 1) e1.1
        (by simpa using e1.2) e2.1 (by simpa using e2.2)
      omega
  simpa using hcard

/-- A parent chain that reaches a root at all reaches it within as many steps as the
skeleton has bones: the bones on the chain are distinct. -/
theorem reachesRoot_length (bones : List raylib_boneinfo) (fuel bone : Nat)
    (h : reachesRoot bones fuel bone = true) :
    reachesRoot bones bones.length bone = true := by
  obtain ⟨d, _, h1, h0⟩ := reachesRoot_exact bones fuel bone h
  cases d with
  | zero => simp [reachesRoot] at h1
  | succ d =>
    have hle := reachesRoot_depth_le bones d bone h1 (by simpa using h0)
    exact reachesRoot_mono bones bone (d + 1) bones.length hle h1

/-! ## Pose evaluation -/

theorem worldTransformFuel_succ (bones : List raylib_boneinfo)
    (locals : List raylib_transform) :
    ∀ fuel bone w, worldTransformFuel bones locals fuel bone = some w →
      worldTransformFuel bones locals (fuel + 1) bone = some w := by
  intro fuel
  induction fuel with
  | zero => intro bone w h; simp [worldTransformFuel] at h
  | succ f ih =>
    intro bone w h
    rw [worldTransformFuel] at h ⊢
    cases hb : bones[bone]? with
    | none => simp [hb] at h
    | some info =>
      cases hl : locals[bone]? with
      | none => simp [hb, hl] at h
      | some l =>
        simp only [hb, hl] at h ⊢
        by_cases hp : info.parent < 0
        · simpa [hp] using h
        · simp only [hp, if_false] at h ⊢
          cases hq : worldTransformFuel bones locals f info.parent.toNat with
          | none => simp [hq] at h
          | some p =>
            rw [hq] at h
            rw [ih _ p hq]
            exact h

theorem worldTransformFuel_some (bones : List raylib_boneinfo)
    (locals : List raylib_transform) (hlen : bones.length ≤ locals.length) :
    ∀ fuel bone, reachesRoot bones fuel bone = true →
      ∃ w, worldTransformFuel bones locals fuel bone = some w := by
  intro fuel
  induction fuel with
  | zero => intro bone h; simp [reachesRoot] at h
  | succ f ih =>
    intro bone h
    have hlt := reachesRoot_lt_length bones (f + 1) bone h
    have hl : locals[bone]? = some (locals.get ⟨bone, lt_of_lt_of_le hlt hlen⟩) :=
      List.getElem?_eq_getElem _
    rw [reachesRoot] at h
    rw [worldTransformFuel]
    cases hb : bones[bone]? with
    | none => simp [hb] at h
    | some info =>
      simp only [hb, hl] at h ⊢
      by_cases hp : info.parent < 0
      · simp [hp]
      · simp only [hp, if_false] at h ⊢
        obtain ⟨p, hq⟩ := ih _ h
        exact ⟨_, by rw [hq]; rfl⟩

theorem worldTransformFuel_root (bones : List raylib_boneinfo)
    (locals : List raylib_transform) (fuel bone : Nat) (info : raylib_boneinfo)
    (l : raylib_transform) (hb : bones[bone]? = some info) (hl : locals[bone]? = some l)
    (hp : info.parent < 0) :
    worldTransformFuel bones locals (fuel + 1) bone = some l := by
  rw [worldTransformFuel]
  simp [hb, hl, hp]

theorem worldTransformFuel_child (bones : List raylib_boneinfo)
    (locals : List raylib_transform) (fuel bone : Nat) (info : raylib_boneinfo)
    (l w : raylib_transform) (hb : bones[bone]? = some info) (hl : locals[bone]? = some l)
    (hp : 0 ≤ info.parent) (hw : worldTransformFuel bones locals fuel bone = some w) :
    ∃ p, worldTransformFuel bones locals fuel info.parent.toNat = some p ∧
      w = TransformCompose p l := by
  cases fuel with
  | zero => simp [worldTransformFuel] at hw
  | succ f =>
    rw [worldTransformFuel] at hw
    simp only [hb, hl, not_lt.2 hp, if_false] at hw
    cases hq : worldTransformFuel bones locals f info.parent.toNat with
    | none => simp [hq] at hw
    | some p =>
      rw [hq] at hw
      refine ⟨p, worldTransformFuel_succ bones locals f _ p hq, ?_⟩
      simpa using hw.symm

theorem collectPose_some :
    ∀ results : List (Option raylib_transform), (∀ r ∈ results, ∃ w, r = some w) →
      ∃ pose, collectPose results = some pose ∧ pose.map some = results := by
  intro results
  induction results with
  | nil => intro _; exact ⟨[], rfl, rfl⟩
  | cons r rest ih =>
    intro h
    obtain ⟨w, hw⟩ := h r (List.mem_cons_self _ _)
    obtain ⟨pose, hp, hm⟩ := ih fun x hx => h x (List.mem_cons_of_mem _ hx)
    subst hw
    refine ⟨w :: pose, ?_, ?_⟩
    · simp [collectPose, hp]
    · simp [hm]

/-- The pose array holds, at every bone index, the world transform resolved through the
parent chain. -/
theorem EvaluatePose_getElem (bones : List raylib_boneinfo) (locals : List raylib_transform)
    (n : Nat) (hn : bones.length = n) (hlen : n ≤ locals.length)
    (hroot : ∀ bone, bone < n → reachesRoot bones n bone = true) :
    ∃ pose, collectPose ((List.range n).map (worldTransformFuel bones locals n)) = some pose ∧
      pose.length = n ∧ ∀ bone, bone < n → ∃ w, pose[bone]? = some w ∧
        worldTransformFuel bones locals n bone = some w := by
  obtain ⟨pose, hp, hm⟩ := collectPose_some
    ((List.range n).map (worldTransformFuel bones locals n)) (by
      intro r hr
      obtain ⟨bone, hb, rfl⟩ := List.mem_map.1 hr
      exact worldTransformFuel_some bones locals (hn ▸ hlen) n bone
        (hroot bone (List.mem_range.1 hb)))
  have hlength : pose.length = n := by
    have := congrArg List.length hm
    simpa using this
  refine ⟨pose, hp, hlength, fun bone hb => ?_⟩
  have h1 := congrArg (fun l => l[bone]?) hm
  simp only [List.getElem?_map, List.getElem?_range hb, Option.map_some'] at h1
  have hlt : bone < pose.length := hlength ▸ hb
  refine ⟨pose.get ⟨bone, hlt⟩, List.getElem?_eq_getElem _, ?_⟩
  rw [List.getElem?_eq_getElem hlt] at h1
  simpa using h1.symm

theorem EvaluatePose_chain (model : raylib_model) (anim : raylib_modelanimation)
    (frame : Int) (hbones : model.bones.length = model.boneCount.toNat)
    (hacyclic : ∀ bone, bone < model.boneCount.toNat →
      ∃ steps, reachesRoot model.bones steps bone = true)
    (hvalid : raylib_ismodelanimationvalid model anim = true)
    (hposes : anim.framePoses.length = anim.frameCount.toNat ∧
      ∀ locals ∈ anim.framePoses, locals.length = anim.boneCount.toNat)
    (hframe : 0 ≤ frame ∧ frame < anim.frameCount) :
    ∃ locals pose, anim.framePoses[frame.toNat]? = some locals ∧
      EvaluatePose model anim frame = some pose ∧ pose.length = model.boneCount.toNat ∧
      ∀ (bone : Nat) (info : raylib_boneinfo), model.bones[bone]? = some info →
        ∃ l, locals[bone]? = some l ∧
          (info.parent < 0 → pose[bone]? = some l) ∧
          (0 ≤ info.parent → ∃ p, pose[info.parent.toNat]? = some p ∧
            pose[bone]? = some (TransformCompose p l)) := by
  have hcount : model.boneCount = anim.boneCount :=
    ((raylib_ismodelanimationvalid_iff model anim).1 hvalid).1
  have hlt : frame.toNat < anim.framePoses.length := by
    rw [hposes.1]
    omega
  have hlocals : anim.framePoses[frame.toNat]? = some (anim.framePoses.get ⟨_, hlt⟩) :=
    List.getElem?_eq_getElem _
  have hlen : (anim.framePoses.get ⟨_, hlt⟩).length = model.boneCount.toNat := by
    rw [hcount]
    exact hposes.2 _ (List.get_mem _ _ _)
  generalize anim.framePoses.get ⟨_, hlt⟩ = locals at hlocals hlen
  have hroot : ∀ bone, bone < model.boneCount.toNat →
      reachesRoot model.bones model.boneCount.toNat bone = true := by
    intro bone hb
    obtain ⟨steps, hs⟩ := hacyclic bone hb
    rw [← hbones]
    exact reachesRoot_length model.bones steps bone hs
  obtain ⟨pose, hpose, hlength, hget⟩ := EvaluatePose_getElem model.bones locals
    model.boneCount.toNat hbones (le_of_eq hlen.symm) hroot
  refine ⟨locals, pose, hlocals, ?_, hlength, ?_⟩
  · unfold EvaluatePose
    rw [if_neg (not_lt.2 hframe.1)]
    simp only [hlocals]
    exact hpose
  · intro bone info hb
    have hbl : bone < model.bones.length := by
      by_contra hcon
      rw [List.getElem?_eq_none (Nat.le_of_not_lt hcon)] at hb
      exact Option.noConfusion hb
    have hbn : bone < model.boneCount.toNat := hbones ▸ hbl
    have hll : bone < locals.length := hlen ▸ hbn
    obtain ⟨l, hl⟩ : ∃ l, locals[bone]? = some l := ⟨_, List.getElem?_eq_getElem hll⟩
    obtain ⟨f, hf⟩ : ∃ f, model.boneCount.toNat = f + 1 :=
      ⟨model.boneCount.toNat - 1, by omega⟩
    obtain ⟨w, hw, hwt⟩ := hget bone hbn
    refine ⟨l, hl, ?_, ?_⟩
    · intro hp
      rw [hf] at hwt
      rw [worldTransformFuel_root model.bones locals f bone info l hb hl hp] at hwt
      rw [hw, ← hwt]
    · intro hp
      obtain ⟨p, hpw, hwp⟩ := worldTransformFuel_child model.bones locals _ bone info l w hb
        hl hp hwt
      have hparent : info.parent.toNat < model.boneCount.toNat := by
        by_contra hcon
        have hnone : model.bones[info.parent.toNat]? = none :=
          List.getElem?_eq_none (by omega)
        rw [hf, worldTransformFuel, hnone] at hpw
        exact Option.noConfusion hpw
      obtain ⟨q, hq, hqt⟩ := hget _ hparent
      rw [hpw] at hqt
      cases hqt
      exact ⟨p, hq, by rw [hw, hwp]⟩

/-- C23: pose evaluation composes the transforms down the parent chain.  For a skeleton
whose bone array has `boneCount` entries and in which following the parent indices from
any bone reaches a root (no cycle, no parent outside the array), a clip that is valid for
it and holds `frameCount` poses of `boneCount` transforms, and a frame in
`0 ≤ frame < frameCount`, `EvaluatePose` returns a pose of `boneCount` world transforms in
which every root bone has its local transform of that frame and every other bone has the
world transform of its parent composed with its local transform, wherever the parent is
stored in the array.  For the two-bone chain with root translation `(1, 0, 0)` and child
local translation `(0, 1, 0)`, identity rotation and scale, and the child stored before the
root, the world translation of the child is `(1, 1, 0)`. -/
theorem EvaluatePose_composes (model : raylib_model) (anim : raylib_modelanimation)
    (frame : Int) (hbones : model.bones.length = model.boneCount.toNat)
    (hacyclic : ∀ bone, bone < model.boneCount.toNat →
      ∃ steps, reachesRoot model.bones steps bone = true)
    (hvalid : raylib_ismodelanimationvalid model anim = true)
    (hposes : anim.framePoses.length = anim.frameCount.toNat ∧
      ∀ locals ∈ anim.framePoses, locals.length = anim.boneCount.toNat)
    (hframe : 0 ≤ frame ∧ frame < anim.frameCount) :
    (∃ locals pose, anim.framePoses[frame.toNat]? = some locals ∧
      EvaluatePose model anim frame = some pose ∧ pose.length = model.boneCount.toNat ∧
      ∀ (bone : Nat) (info : raylib_boneinfo), model.bones[bone]? = some info →
        ∃ l, locals[bone]? = some l ∧
          (info.parent < 0 → pose[bone]? = some l) ∧
          (0 ≤ info.parent → ∃ p, pose[info.parent.toNat]? = some p ∧
            pose[bone]? = some (TransformCompose p l))) ∧
    ∃ pose child, EvaluatePose chainModel chainClip 0 = some pose ∧
      pose[0]? = some child ∧ child.translation = ⟨1, 1, 0⟩ := by
  refine ⟨EvaluatePose_chain model anim frame hbones hacyclic hvalid hposes hframe, ?_⟩
  refine ⟨[TransformCompose { identityTransform with translation := ⟨1, 0, 0⟩ }
      { identityTransform with translation := ⟨0, 1, 0⟩ },
    { identityTransform with translation := ⟨1, 0, 0⟩ }], _, ?_, rfl, ?_⟩
  · simp [EvaluatePose, chainModel, chainClip, List.range_succ, worldTransformFuel,
      collectPose]
  · simp [TransformCompose, identityTransform, Vector3Add, Vector3RotateByQuaternion,
      Vector3Multiply]

/-- Witness of C23: the two-bone chain stored child first, at its only frame. -/
theorem EvaluatePose_composes_witness :
    raylib_ismodelanimationvalid chainModel chainClip = true ∧
    ∃ locals pose, chainClip.framePoses[(0 : Int).toNat]? = some locals ∧
      EvaluatePose chainModel chainClip 0 = some pose ∧
      pose.length = chainModel.boneCount.toNat ∧
      ∀ (bone : Nat) (info : raylib_boneinfo), chainModel.bones[bone]? = some info →
        ∃ l, locals[bone]? = some l ∧
          (info.parent < 0 → pose[bone]? = some l) ∧
          (0 ≤ info.parent → ∃ p, pose[info.parent.toNat]? = some p ∧
            pose[bone]? = some (TransformCompose p l)) :=
  ⟨by decide,
    (EvaluatePose_composes chainModel chainClip 0 (by decide)
      (fun bone _ => ⟨2, by
        have h : ∀ b, b < 2 → reachesRoot chainModel.bones 2 b = true := by decide
        exact h bone (by assumption)⟩)
      (by decide) ⟨by decide, by simp [chainClip]⟩ (by decide)).1⟩

end RCamera
